import Mathlib

/-!
# Function kernels of the Doris backend: `array_range`, `array_remove`, array aggregation, encryption modes, `convert_tz`

Shallow embedding of

* `be/src/vec/functions/array/function_array_range.cpp`
  (`RangeImplUtil::vector`, `RangeImplUtil::range_execute`, `RangeOneImpl`,
  `RangeTwoImpl`, `RangeThreeImpl`),
* `be/src/vec/functions/array/function_array_remove.h`
  (`FunctionArrayRemove::_execute_number`, `_execute_string`,
  `_execute_number_expanded`, `_execute_non_nullable`, `execute_impl`),
* `be/src/vec/functions/array/function_array_aggregation.cpp`
  (`ArrayAggregateResultImpl`, `ArrayAggregateImpl::get_return_type`, `execute`,
  `execute_type`),
* `be/src/vec/functions/function_encryption.cpp`
  (`aes_mode_map`, `sm4_mode_map`, `execute_result`, `vector_const` and
  `vector_vector` of `EncryptionAndDecryptTwoImpl` and
  `EncryptionAndDecryptMultiImpl`),
* `be/src/vec/functions/function_convert_tz.h`
  (`init_convert_tz_state`, `execute_tz_const_with_state`, `execute_tz_const`,
  `execute_inner_loop`).

Conventions of the embedding.

* A `PaddedPODArray<T>` is a `List`.  Reading `a[i]` is `a.getD i 0`.  The
  element before the first one, `offsets[-1]` (and `back()` of an empty offsets
  array), is the zero of the left padding.
* `Int32` values are `Int`; the sum `idx + step_row` is reduced to the Int32
  range by `wrapInt32` (two's complement).  The size check of `vector` is
  computed by the code in `__int128_t` and is exact on `Int`.
* `size_t` values are `Nat`.  The differences `offsets[row] - off` and
  `len - count` of `_execute_number` are natural-number subtractions; on
  non-decreasing offsets neither of them underflows.
* A `while` loop that may fail to terminate takes a fuel argument and returns
  `none` when the fuel is used up.
* The constant `max_array_size_as_field` and the calendar functions of the
  temporal domain are declared outside these files and are parameters
  (`maxSize`, `TimeOps`).
* Element values of `array_remove` and of the array aggregation are integers
  (the integer instantiations of `NestedColumnType` and of `Element`), with
  `value_type() = 0`.
* The type family tests of `runtime/primitive_type.h` are parameters
  (`TypePredicates`).
* A string is the list of its bytes; a `ColumnString` is its offsets and chars.
  The cipher and the time zone functions are declared outside these files and
  are parameters (`EncryptionImpl`, `TzOps`).
* The aggregate functions of `vec/aggregate_functions` and the nullable result
  column are declared outside these files; their definitions say that they are
  modelled from the specification.

The file has the definitions first (the embedding, then the notions the
statements use), and the theorems after them.
-/

namespace Doris

/-! ## Definitions: common column model and `array_range` -/

deriving instance DecidableEq for Except

/-- The `Status` values the embedded functions return.  `InvalidArgument` is the
size-limit error of `array_range`, which formats the limit into its message;
`RuntimeError` carries its formatted message. -/
inductive Status where
  | OK
  | InvalidArgument (limit : Nat)
  | RuntimeError (message : String)
deriving DecidableEq, Repr

/-- Two's complement reduction of an integer to the Int32 range. -/
def wrapInt32 (x : Int) : Int :=
  (x + 2147483648) % 4294967296 - 2147483648

/-- Value of `offsets.back()`; on an empty array this reads the zero padding. -/
def offsetsBack (offsets : List Nat) : Nat :=
  offsets.getLast?.getD 0

/-- Value of `offsets[row - 1]`; for `row = 0` this reads the zero padding. -/
def offsetBefore (offsets : List Nat) (row : Nat) : Nat :=
  match row with
  | 0 => 0
  | r + 1 => offsets.getD r 0

/-- The nested positions `[offsets[row-1], offsets[row])` of a flat column. -/
def rowSegment {α : Type} (nested : List α) (offsets : List Nat) (row : Nat) : List α :=
  (nested.drop (offsetBefore offsets row)).take
    (offsets.getD row 0 - offsetBefore offsets row)

/-- The four destination arrays `RangeImplUtil::vector` writes. -/
structure RangeDest where
  args_null_map : List Nat
  nested_column : List Int
  dest_nested_null_map : List Nat
  dest_offsets : List Nat
deriving DecidableEq, Repr

/-- The state of the inner `while` loops of `vector`. -/
structure LoopState where
  nested_column : List Int
  dest_nested_null_map : List Nat
  offset : Nat
deriving DecidableEq, Repr

/-- Integer domain, lines 196-201:
`while (idx < end[row]) { push idx; push 0; offset++; idx = idx + step_row; }`. -/
def int32Loop (end_row step_row : Int) : Nat → Int → LoopState → Option LoopState
  | 0, _, _ => none
  | fuel + 1, idx, s =>
    if idx < end_row then
      int32Loop end_row step_row fuel (wrapInt32 (idx + step_row))
        { nested_column := s.nested_column ++ [idx],
          dest_nested_null_map := s.dest_nested_null_map ++ [0],
          offset := s.offset + 1 }
    else some s

/-- The analytic length `(end - start - 1) / step + 1` of line 189-191,
computed in 128-bit integers with C++ truncating division. -/
def analyticLength (idx end_row step_row : Int) : Int :=
  Int.tdiv (end_row - idx - 1) step_row + 1

/-- Integer domain, the body of the `for` loop (lines 178-203) for one row.
`none`: the `while` loop never ends; `some (Except.error st)`: early return. -/
def vectorInt32Row (maxSize fuel : Nat) (start end_ step : List Int) (row : Nat)
    (d : RangeDest) : Option (Except Status RangeDest) :=
  let idx := start.getD row 0
  let end_row := end_.getD row 0
  let step_row := step.getD row 0
  let args_null_map_row := d.args_null_map.getD row 0
  if args_null_map_row ≠ 0 ∨ idx < 0 ∨ end_row < 0 ∨ step_row ≤ 0 then
    some (Except.ok { d with
      args_null_map := d.args_null_map.set row 1,
      dest_offsets := d.dest_offsets ++ [offsetsBack d.dest_offsets] })
  else if idx < end_row ∧ step_row > 0 ∧
      analyticLength idx end_row step_row > (maxSize : Int) then
    some (Except.error (Status.InvalidArgument maxSize))
  else
    match int32Loop end_row step_row fuel idx
        { nested_column := d.nested_column,
          dest_nested_null_map := d.dest_nested_null_map,
          offset := offsetsBack d.dest_offsets } with
    | none => none
    | some s => some (Except.ok { d with
        nested_column := s.nested_column,
        dest_nested_null_map := s.dest_nested_null_map,
        dest_offsets := d.dest_offsets ++ [s.offset] })

/-- The loop `for (row = 0; row < rows; ++row)` of `vector` around a row body,
with `n` rows left; an early `return` of the body ends the loop. -/
def forRows (body : Nat → RangeDest → Option (Except Status RangeDest)) :
    Nat → Nat → RangeDest → Option (Except Status RangeDest)
  | 0, _, d => some (Except.ok d)
  | n + 1, row, d =>
    match body row d with
    | none => none
    | some (Except.error e) => some (Except.error e)
    | some (Except.ok d1) => forRows body n (row + 1) d1

/-- Integer domain `RangeImplUtil<TYPE_INT>::vector`; `rows = start.size()`. -/
def vectorInt32 (maxSize fuel : Nat) (start end_ step : List Int) (d : RangeDest) :
    Option (Except Status RangeDest) :=
  forRows (vectorInt32Row maxSize fuel start end_ step) start.length 0 d

/-- The calendar functions `vector` calls in the temporal domain; they live in
`vec/runtime/vdatetime_value.h` and `function_date_or_datetime_computation.h`
and are taken as parameters. -/
structure TimeOps where
  is_valid_date : Int → Bool
  datetime_diff : Int → Int → Int
  date_time_add : Int → Int → Int

/-- Temporal domain, lines 219-233: the `while` loop on `datetime_diff`, with the
running value `idx`, the counter `move` and the size check inside the loop. -/
def dateTimeLoop (ops : TimeOps) (maxSize : Nat) (end_row step_row : Int) :
    Nat → Int → Nat → LoopState → Option (Except Status LoopState)
  | 0, _, _, _ => none
  | fuel + 1, idx, move, s =>
    if ops.datetime_diff idx end_row > 0 then
      if move > maxSize then some (Except.error (Status.InvalidArgument maxSize))
      else
        dateTimeLoop ops maxSize end_row step_row fuel
          (ops.date_time_add idx step_row) (move + 1)
          { nested_column := s.nested_column ++ [idx],
            dest_nested_null_map := s.dest_nested_null_map ++ [0],
            offset := s.offset + 1 }
    else some (Except.ok s)

/-- Temporal domain, the body of the `for` loop (lines 205-235) for one row. -/
def vectorDateTimeRow (ops : TimeOps) (maxSize fuel : Nat) (start end_ step : List Int)
    (row : Nat) (d : RangeDest) : Option (Except Status RangeDest) :=
  let idx := start.getD row 0
  let end_row := end_.getD row 0
  let step_row := step.getD row 0
  let args_null_map_row := d.args_null_map.getD row 0
  let is_null := !ops.is_valid_date idx
  let is_end_row_invalid := !ops.is_valid_date end_row
  if args_null_map_row ≠ 0 ∨ step_row ≤ 0 ∨ is_null = true ∨ is_end_row_invalid = true then
    some (Except.ok { d with
      args_null_map := d.args_null_map.set row 1,
      dest_offsets := d.dest_offsets ++ [offsetsBack d.dest_offsets] })
  else
    match dateTimeLoop ops maxSize end_row step_row fuel idx 0
        { nested_column := d.nested_column,
          dest_nested_null_map := d.dest_nested_null_map,
          offset := offsetsBack d.dest_offsets } with
    | none => none
    | some (Except.error e) => some (Except.error e)
    | some (Except.ok s) => some (Except.ok { d with
        nested_column := s.nested_column,
        dest_nested_null_map := s.dest_nested_null_map,
        dest_offsets := d.dest_offsets ++ [s.offset] })

/-- Temporal domain `RangeImplUtil<TYPE_DATETIMEV2, Unit>::vector`. -/
def vectorDateTime (ops : TimeOps) (maxSize fuel : Nat) (start end_ step : List Int)
    (d : RangeDest) : Option (Except Status RangeDest) :=
  forRows (vectorDateTimeRow ops maxSize fuel start end_ step) start.length 0 d

/-- The two instantiations of `SourceDataPType`. -/
inductive Domain where
  | int32
  | dateTimeV2 (ops : TimeOps)

/-- Function `RangeImplUtil<SourceDataPType, TimeUnitOrVoid>::vector`: the
`if constexpr` on `SourceDataType` selects one of the two bodies. -/
def vector (dom : Domain) (maxSize fuel : Nat) (start end_ step : List Int)
    (d : RangeDest) : Option (Except Status RangeDest) :=
  match dom with
  | Domain.int32 => vectorInt32 maxSize fuel start end_ step d
  | Domain.dateTimeV2 ops => vectorDateTime ops maxSize fuel start end_ step d

/-- The columns a block can hold in this development. -/
inductive Column where
  | vec (data : List Int)
  | const (value : Int) (size : Nat)
  | nullableArray (nested : List Int) (nested_null_map : List Nat)
      (offsets : List Nat) (null_map : List Nat)
deriving DecidableEq, Repr

/-- A block: its columns by position. -/
abbrev Block := List Column

/-- Data of an argument column: `convert_to_full_column_if_const` followed by `get_data()` of the
`ColumnVector` the result is cast to; `none` when the cast fails. -/
def Column.fullData : Column → Option (List Int)
  | Column.vec data => some data
  | Column.const value size => some (List.replicate size value)
  | Column.nullableArray _ _ _ _ => none

/-- The destination arrays as `range_execute` creates them: a null map of
`input_rows_count` zeros and empty nested data, element null map and offsets. -/
def RangeDest.init (input_rows_count : Nat) : RangeDest :=
  { args_null_map := List.replicate input_rows_count 0,
    nested_column := [],
    dest_nested_null_map := [],
    dest_offsets := [] }

/-- Function `RangeImplUtil::range_execute` (lines 130-167).  The result is the returned
status together with the block after the call; `none` when a cast fails, a
position is outside the block, or a `while` loop of `vector` never ends. -/
def range_execute (dom : Domain) (maxSize fuel : Nat) (block : Block)
    (arguments : List Nat) (result : Nat) (input_rows_count : Nat) :
    Option (Status × Block) :=
  match arguments with
  | [a0, a1, a2] =>
    match block[a0]?, block[a1]?, block[a2]? with
    | some c0, some c1, some c2 =>
      match c0.fullData, c1.fullData, c2.fullData with
      | some start, some end_, some step =>
        match vector dom maxSize fuel start end_ step
            (RangeDest.init input_rows_count) with
        | none => none
        | some (Except.error e) => some (e, block)
        | some (Except.ok d) =>
          if result < block.length then
            some (Status.OK,
              block.set result (Column.nullableArray d.nested_column
                d.dest_nested_null_map d.dest_offsets d.args_null_map))
          else none
      | _, _, _ => none
    | _, _, _ => none
  | _ => none

/-- Function `RangeOneImpl::execute_impl` (lines 248-262). -/
def RangeOneImpl.execute_impl (dom : Domain) (maxSize fuel : Nat) (block : Block)
    (arguments : List Nat) (result : Nat) (input_rows_count : Nat) :
    Option (Status × Block) :=
  let start_column := Column.vec (List.replicate input_rows_count 0)
  let step_column := Column.vec (List.replicate input_rows_count 1)
  let block1 := block ++ [start_column]
  let block2 := block1 ++ [step_column]
  let temp_arguments := [block2.length - 2, arguments.getD 0 0, block2.length - 1]
  range_execute dom maxSize fuel block2 temp_arguments result input_rows_count

/-- Function `RangeTwoImpl::execute_impl` (lines 272-280). -/
def RangeTwoImpl.execute_impl (dom : Domain) (maxSize fuel : Nat) (block : Block)
    (arguments : List Nat) (result : Nat) (input_rows_count : Nat) :
    Option (Status × Block) :=
  let step_column := Column.vec (List.replicate input_rows_count 1)
  let block1 := block ++ [step_column]
  let temp_arguments := [arguments.getD 0 0, arguments.getD 1 0, block1.length - 1]
  range_execute dom maxSize fuel block1 temp_arguments result input_rows_count

/-- Function `RangeThreeImpl::execute_impl` (lines 291-296). -/
def RangeThreeImpl.execute_impl (dom : Domain) (maxSize fuel : Nat) (block : Block)
    (arguments : List Nat) (result : Nat) (input_rows_count : Nat) :
    Option (Status × Block) :=
  range_execute dom maxSize fuel block arguments result input_rows_count

/-- The arithmetic progression `start, start + step, ...` with `n` terms. -/
def progression (start step : Int) (n : Nat) : List Int :=
  List.map (fun (k : Nat) => start + (k : Int) * step) (List.range n)

/-- The number of terms of the progression that are below `end`. -/
def rangeCount (s e t : Int) : Nat :=
  if s < e then (analyticLength s e t).toNat else 0

/-- Row `row` becomes a null row: lines 184-185 and 211-212. -/
def RangeDest.pushNull (d : RangeDest) (row : Nat) : RangeDest :=
  { d with
    args_null_map := d.args_null_map.set row 1,
    dest_offsets := d.dest_offsets ++ [offsetsBack d.dest_offsets] }

/-- Row gets the elements `xs`, none of them null. -/
def RangeDest.pushRow (d : RangeDest) (xs : List Int) : RangeDest :=
  { d with
    nested_column := d.nested_column ++ xs,
    dest_nested_null_map := d.dest_nested_null_map ++ List.replicate xs.length 0,
    dest_offsets := d.dest_offsets ++ [offsetsBack d.dest_offsets + xs.length] }

/-- The null rule of the integer domain (line 183), on the inputs alone. -/
def int32NullRule (s e t : Int) : Prop := s < 0 ∨ e < 0 ∨ t ≤ 0

instance (s e t : Int) : Decidable (int32NullRule s e t) := by
  unfold int32NullRule; infer_instance

/-- Shape of the destination arrays between two rows. -/
structure RangeShape (d : RangeDest) : Prop where
  offsets_le : ∀ o ∈ d.dest_offsets, o ≤ d.nested_column.length
  back_eq : offsetsBack d.dest_offsets = d.nested_column.length
  sorted : d.dest_offsets.Pairwise (fun a b => a ≤ b)
  nulls : d.dest_nested_null_map = List.replicate d.nested_column.length 0

/-- What holds when the loop is about to run row `row`. -/
structure RangeBase (row : Nat) (d : RangeDest) : Prop where
  rows_done : d.dest_offsets.length = row
  shape : RangeShape d
  pending : ∀ j, row ≤ j → d.args_null_map.getD j 0 = 0

/-- What the result says about one row. -/
structure RowView where
  flag : Nat
  before : Nat
  offset : Nat
  segment : List Int
deriving DecidableEq, Repr

/-- The view of row `i` in a destination. -/
def RangeDest.view (d : RangeDest) (i : Nat) : RowView :=
  { flag := d.args_null_map.getD i 0,
    before := offsetBefore d.dest_offsets i,
    offset := d.dest_offsets.getD i 0,
    segment := rowSegment d.nested_column d.dest_offsets i }

/-- A row body that, when it succeeds, does one of the two pushes. -/
def PushBody (body : Nat → RangeDest → Option (Except Status RangeDest)) : Prop :=
  ∀ row d d1, body row d = some (Except.ok d1) →
    d1 = d.pushNull row ∨ ∃ xs, d1 = d.pushRow xs

/-- The status and, on success, the column at the destination position. -/
def resultColumn (r : Option (Status × Block)) (result : Nat) :
    Option (Status × Option Column) :=
  r.map (fun p =>
    match p.1 with
    | Status.OK => (Status.OK, p.2[result]?)
    | e => (e, none))

/-- The status and result column `range_execute` builds from the data of its
three argument columns. -/
def rangeResult (dom : Domain) (maxSize fuel : Nat) (start end_ step : List Int)
    (input_rows_count : Nat) : Option (Status × Option Column) :=
  match vector dom maxSize fuel start end_ step (RangeDest.init input_rows_count) with
  | none => none
  | some (Except.error e) => some (e, none)
  | some (Except.ok d) =>
    some (Status.OK, some (Column.nullableArray d.nested_column d.dest_nested_null_map
      d.dest_offsets d.args_null_map))

/-- A row the integer loop handles without overflow: a row of the null rule, or
a row with `start >= 0`, `end >= 0`, `step > 0` whose analytic length is at most
`maxSize` and whose running value stays in the Int32 range. -/
def Int32RowGood (maxSize : Nat) (s e t : Int) : Prop :=
  int32NullRule s e t ∨
    (0 ≤ s ∧ 0 ≤ e ∧ 0 < t ∧ rangeCount s e t ≤ maxSize ∧
      s + (rangeCount s e t : Int) * t ≤ 2147483647)

/-- Modelled from the spec: the calendar functions `is_valid_date`,
`datetime_diff<UNIT>` and `date_time_add<UNIT>` (`vec/runtime/vdatetime_value.h`,
not among the embedded files), for running the temporal loop on examples.  A
value is a point of a time line counted in seconds and every value is a valid
date; `date_time_add` advances by `step` units of `unit` seconds; `datetime_diff`
is the distance from its first argument to its second, which is positive exactly
when the first is strictly before the second, as the loop "while the current
value remains strictly before `end`" of the specification asks. -/
def timeLineOps (unit : Int) : TimeOps :=
  { is_valid_date := fun _ => true,
    datetime_diff := fun a b => b - a,
    date_time_add := fun a k => a + k * unit }

/-! ## Definitions: `array_remove` -/

/-- An array column with integer elements: the flat nested data, the null map
of the nested column when it is nullable, and the offsets. -/
structure ArrayColumn where
  nested : List Int
  nested_null_map : Option (List Nat)
  offsets : List Nat
deriving DecidableEq, Repr

/-- The state of the inner loop of `_execute_number`: the destination data, the
destination null map (used only when `nested_null_map` is there) and `count`. -/
structure RemoveInner where
  dst_data : List Int
  dst_null_map : List Nat
  count : Nat
deriving DecidableEq, Repr

/-- The test `nested_null_map && nested_null_map[i]`. -/
def nullAt (nested_null_map : Option (List Nat)) (i : Nat) : Bool :=
  match nested_null_map with
  | none => false
  | some m => m.getD i 0 != 0

/-- One pass of the body of `for (pos = 0; pos < len; ++pos)` (lines 140-154). -/
def removeStep (src_data : List Int) (nested_null_map : Option (List Nat)) (off : Nat)
    (target : Int) (pos : Nat) (s : RemoveInner) : RemoveInner :=
  if nullAt nested_null_map (off + pos) then
    { s with dst_data := s.dst_data ++ [0], dst_null_map := s.dst_null_map ++ [1] }
  else if src_data.getD (off + pos) 0 = target then
    { s with count := s.count + 1 }
  else
    { s with
      dst_data := s.dst_data ++ [src_data.getD (off + pos) 0],
      dst_null_map :=
        if nested_null_map.isSome then s.dst_null_map ++ [0] else s.dst_null_map }

/-- The loop `for (pos = 0; pos < len; ++pos)` with `n = len - pos` passes left. -/
def removeInner (src_data : List Int) (nested_null_map : Option (List Nat)) (off : Nat)
    (target : Int) : Nat → Nat → RemoveInner → RemoveInner
  | 0, _, s => s
  | n + 1, pos, s =>
    removeInner src_data nested_null_map off target n (pos + 1)
      (removeStep src_data nested_null_map off target pos s)

/-- The state of the row loop of `_execute_number`. -/
structure RemoveOuter where
  cur : Nat
  dst_data : List Int
  dst_null_map : List Nat
  dst_offsets : List Nat
deriving DecidableEq, Repr

/-- The body of `for (row = 0; row < offsets.size(); ++row)` (lines 129-158). -/
def removeRow (offsets : List Nat) (src_data target_data : List Int)
    (nested_null_map : Option (List Nat)) (row : Nat) (s : RemoveOuter) : RemoveOuter :=
  let off := offsetBefore offsets row
  let len := offsets.getD row 0 - off
  if len = 0 then
    { s with dst_offsets := s.dst_offsets ++ [s.cur] }
  else
    let r := removeInner src_data nested_null_map off (target_data.getD row 0) len 0
      { dst_data := s.dst_data, dst_null_map := s.dst_null_map, count := 0 }
    { cur := s.cur + (len - r.count),
      dst_data := r.dst_data,
      dst_null_map := r.dst_null_map,
      dst_offsets := s.dst_offsets ++ [s.cur + (len - r.count)] }

/-- The row loop with `n` rows left. -/
def removeRows (offsets : List Nat) (src_data target_data : List Int)
    (nested_null_map : Option (List Nat)) : Nat → Nat → RemoveOuter → RemoveOuter
  | 0, _, s => s
  | n + 1, row, s =>
    removeRows offsets src_data target_data nested_null_map n (row + 1)
      (removeRow offsets src_data target_data nested_null_map row s)

/-- Function `FunctionArrayRemove::_execute_number` (lines 95-164) for an integer
element type: `offsets`, the data of `nested_column`, the data of `right_column`
and `nested_null_map` (`none` for the null pointer).  The result column is
nullable exactly when `nested_null_map` is there. -/
def _execute_number (offsets : List Nat) (src_data target_data : List Int)
    (nested_null_map : Option (List Nat)) : ArrayColumn :=
  let r := removeRows offsets src_data target_data nested_null_map offsets.length 0
    { cur := 0, dst_data := [], dst_null_map := [], dst_offsets := [] }
  { nested := r.dst_data,
    nested_null_map := if nested_null_map.isSome then some r.dst_null_map else none,
    offsets := r.dst_offsets }

/-- Function `array_remove` on an array column and a scalar column. -/
def array_remove (a : ArrayColumn) (v : List Int) : ArrayColumn :=
  _execute_number a.offsets a.nested v a.nested_null_map

/-- Cumulative offsets of rows of the given lengths, starting after `c` elements. -/
def cumFrom (c : Nat) : List Nat → List Nat
  | [] => []
  | l :: ls => (c + l) :: cumFrom (c + l) ls

/-- What the inner loop does with one element `(value, null flag)`: a null
element is kept as `(0, 1)`, a non-null element equal to the target is dropped,
any other element is kept as `(value, 0)`. -/
def keepPair (target : Int) (p : Int × Nat) : Option (Int × Nat) :=
  if p.2 ≠ 0 then some (0, 1)
  else if p.1 = target then none
  else some (p.1, 0)

/-- The null flags of the nested data; all zero when there is no null map. -/
def effFlags (nested_null_map : Option (List Nat)) (n : Nat) : List Nat :=
  match nested_null_map with
  | some m => m
  | none => List.replicate n 0

/-- The elements of the nested column as pairs `(value, null flag)`. -/
def ArrayColumn.rawPairs (a : ArrayColumn) : List (Int × Nat) :=
  List.zip a.nested (effFlags a.nested_null_map a.nested.length)

/-- The elements of row `row` as pairs `(value, null flag)`. -/
def ArrayColumn.rawRow (a : ArrayColumn) (row : Nat) : List (Int × Nat) :=
  rowSegment a.rawPairs a.offsets row

/-- The value of an element `(value, null flag)`: `none` for a null element. -/
def elemOf (p : Int × Nat) : Option Int :=
  if p.2 ≠ 0 then none else some p.1

/-- The elements of row `row` as values: `none` for a null element. -/
def ArrayColumn.rowElems (a : ArrayColumn) (row : Nat) : List (Option Int) :=
  (a.rawRow row).map elemOf

/-- The array column made of the given rows of pairs `(value, null flag)`. -/
def ArrayColumn.ofRows (nullable : Bool) (rs : List (List (Int × Nat))) : ArrayColumn :=
  { nested := rs.flatten.map Prod.fst,
    nested_null_map := if nullable then some (rs.flatten.map Prod.snd) else none,
    offsets := cumFrom 0 (rs.map List.length) }

/-- Well-formed array column (the data model): the offsets are non-decreasing,
the last offset is the length of the nested data, and the null map of a nullable
nested column has the length of the nested data. -/
structure ArrayColumn.WF (a : ArrayColumn) : Prop where
  sorted : a.offsets.Pairwise (fun x y => x ≤ y)
  back_eq : offsetsBack a.offsets = a.nested.length
  null_len : ∀ m, a.nested_null_map = some m → m.length = a.nested.length

/-- The row loop after a row whose kept elements are `out`. -/
def RemoveOuter.pushOut (nullable : Bool) (s : RemoveOuter) (out : List (Int × Nat)) :
    RemoveOuter :=
  { cur := s.cur + out.length,
    dst_data := s.dst_data ++ out.map Prod.fst,
    dst_null_map := if nullable then s.dst_null_map ++ out.map Prod.snd else s.dst_null_map,
    dst_offsets := s.dst_offsets ++ [s.cur + out.length] }

/-- The kept elements of row `row` of `a` for the scalars `v`. -/
def keptRow (a : ArrayColumn) (v : List Int) (row : Nat) : List (Int × Nat) :=
  (a.rawRow row).filterMap (keepPair (v.getD row 0))

/-- The number of elements of row `row` of `a` that are removed for the scalars
`v`: the elements that are not null and equal to `v[row]`. -/
def removedCount (a : ArrayColumn) (v : List Int) (row : Nat) : Nat :=
  (a.rawRow row).countP (fun p => p.2 == 0 && p.1 == v.getD row 0)

/-! ## Definitions: `array_remove`, text path and type dispatch -/

/-- The primitive type tags these files name; `other` stands for every tag of
`runtime/primitive_type.h` that they do not name. -/
inductive PrimitiveType where
  | TYPE_BOOLEAN
  | TYPE_TINYINT
  | TYPE_SMALLINT
  | TYPE_INT
  | TYPE_BIGINT
  | TYPE_LARGEINT
  | TYPE_FLOAT
  | TYPE_DOUBLE
  | TYPE_DECIMAL32
  | TYPE_DECIMAL64
  | TYPE_DECIMAL128I
  | TYPE_DECIMALV2
  | TYPE_DECIMAL256
  | TYPE_DATE
  | TYPE_DATETIME
  | TYPE_DATEV2
  | TYPE_DATETIMEV2
  | TYPE_ARRAY
  | other (tag : Nat)
deriving DecidableEq, Repr

/-- The column classes `_execute_non_nullable` names; `other` stands for every
other class. -/
inductive ColumnClass where
  | ColumnUInt8
  | ColumnInt8
  | ColumnInt16
  | ColumnInt32
  | ColumnInt64
  | ColumnInt128
  | ColumnFloat32
  | ColumnFloat64
  | ColumnDecimal32
  | ColumnDecimal64
  | ColumnDecimal128V3
  | ColumnDecimal128V2
  | ColumnDecimal256
  | ColumnDate
  | ColumnDateTime
  | ColumnDateV2
  | ColumnDateTimeV2
  | ColumnString
  | other (tag : Nat)
deriving DecidableEq, Repr

/-- The type family tests of `runtime/primitive_type.h`, which is not among the
embedded files; they are parameters. -/
structure TypePredicates where
  is_string_type : PrimitiveType → Bool
  is_number : PrimitiveType → Bool
  is_date_or_datetime : PrimitiveType → Bool
  is_date_v2_or_datetime_v2 : PrimitiveType → Bool

/-- What `execute_impl` and `_execute_non_nullable` read of a data type: its
name (`get_name()`), the primitive type of `remove_nullable(type)` and, for an
array type, the primitive type of `remove_nullable(get_nested_type())`. -/
structure DataTypeInfo where
  name : String
  primitive_type : PrimitiveType
  nested_primitive_type : PrimitiveType
deriving DecidableEq, Repr

/-- A full column that is not an array: a vector or decimal column of some
class with its data, or a `ColumnString` with its offsets and chars. -/
inductive PlainColumn where
  | numbers (cls : ColumnClass) (data : List Int)
  | strings (offsets : List Nat) (chars : List Nat)
deriving DecidableEq, Repr

/-- The test `is_column<T>(column)`. -/
def PlainColumn.is_column (cls : ColumnClass) : PlainColumn → Bool
  | PlainColumn.numbers c _ => c == cls
  | PlainColumn.strings _ _ => cls == ColumnClass.ColumnString

/-- The data a `reinterpret_cast` to a vector or decimal column reads; the code
casts only columns of that kind. -/
def PlainColumn.get_data : PlainColumn → List Int
  | PlainColumn.numbers _ data => data
  | PlainColumn.strings _ _ => []

/-- The offsets a `reinterpret_cast` to `ColumnString` reads. -/
def PlainColumn.get_offsets : PlainColumn → List Nat
  | PlainColumn.numbers _ _ => []
  | PlainColumn.strings offsets _ => offsets

/-- The chars a `reinterpret_cast` to `ColumnString` reads. -/
def PlainColumn.get_chars : PlainColumn → List Nat
  | PlainColumn.numbers _ _ => []
  | PlainColumn.strings _ chars => chars

/-- The empty column `clone_empty()` gives, filled with new contents of the same
kind: the class is kept. -/
def PlainColumn.withData (c : PlainColumn) (data : List Int) : PlainColumn :=
  match c with
  | PlainColumn.numbers cls _ => PlainColumn.numbers cls data
  | PlainColumn.strings _ _ => PlainColumn.numbers ColumnClass.ColumnString data

/-- A `ColumnArray`: offsets, the nested column without its nullable wrapper,
and the null map of the wrapper when the nested column is nullable. -/
structure ArrayArg where
  offsets : List Nat
  nested : PlainColumn
  nested_null_map : Option (List Nat)
deriving DecidableEq, Repr

/-- The state of the inner loop of `_execute_string`. -/
structure StringInner where
  dst_offs : List Nat
  dst_chars : List Nat
  dst_null_map : List Nat
  count : Nat
deriving DecidableEq, Repr

/-- One pass of the body of `for (pos = 0; pos < len; ++pos)` of
`_execute_string` (lines 217-242). -/
def stringStep (src_offs src_chars : List Nat) (nested_null_map : Option (List Nat))
    (off : Nat) (target : List Nat) (pos : Nat) (s : StringInner) : StringInner :=
  if nullAt nested_null_map (off + pos) then
    { s with
      dst_offs := s.dst_offs ++ [offsetsBack s.dst_offs],
      dst_null_map := s.dst_null_map ++ [1] }
  else
    let src_pos := offsetBefore src_offs (pos + off)
    let src_len := src_offs.getD (pos + off) 0 - src_pos
    if (src_chars.drop src_pos).take src_len = target then
      { s with count := s.count + 1 }
    else
      { s with
        dst_chars := s.dst_chars ++ (src_chars.drop src_pos).take src_len,
        dst_offs := s.dst_offs ++ [s.dst_chars.length + src_len],
        dst_null_map :=
          if nested_null_map.isSome then s.dst_null_map ++ [0] else s.dst_null_map }

/-- The inner loop of `_execute_string` with `n = len - pos` passes left. -/
def stringInner (src_offs src_chars : List Nat) (nested_null_map : Option (List Nat))
    (off : Nat) (target : List Nat) : Nat → Nat → StringInner → StringInner
  | 0, _, s => s
  | n + 1, pos, s =>
    stringInner src_offs src_chars nested_null_map off target n (pos + 1)
      (stringStep src_offs src_chars nested_null_map off target pos s)

/-- The state of the row loop of `_execute_string`. -/
structure StringOuter where
  cur : Nat
  dst_offs : List Nat
  dst_chars : List Nat
  dst_null_map : List Nat
  dst_offsets : List Nat
deriving DecidableEq, Repr

/-- The body of the row loop of `_execute_string` (lines 203-246). -/
def stringRow (offsets src_offs src_chars target_offs target_chars : List Nat)
    (nested_null_map : Option (List Nat)) (row : Nat) (s : StringOuter) : StringOuter :=
  let off := offsetBefore offsets row
  let len := offsets.getD row 0 - off
  if len = 0 then
    { s with dst_offsets := s.dst_offsets ++ [s.cur] }
  else
    let target_off := offsetBefore target_offs row
    let target_len := target_offs.getD row 0 - target_off
    let r := stringInner src_offs src_chars nested_null_map off
      ((target_chars.drop target_off).take target_len) len 0
      { dst_offs := s.dst_offs, dst_chars := s.dst_chars,
        dst_null_map := s.dst_null_map, count := 0 }
    { cur := s.cur + (len - r.count),
      dst_offs := r.dst_offs,
      dst_chars := r.dst_chars,
      dst_null_map := r.dst_null_map,
      dst_offsets := s.dst_offsets ++ [s.cur + (len - r.count)] }

/-- The row loop of `_execute_string` with `n` rows left. -/
def stringRows (offsets src_offs src_chars target_offs target_chars : List Nat)
    (nested_null_map : Option (List Nat)) : Nat → Nat → StringOuter → StringOuter
  | 0, _, s => s
  | n + 1, row, s =>
    stringRows offsets src_offs src_chars target_offs target_chars nested_null_map n
      (row + 1)
      (stringRow offsets src_offs src_chars target_offs target_chars nested_null_map row s)

/-- Function `FunctionArrayRemove::_execute_string` (lines 166-252). -/
def _execute_string (offsets : List Nat) (nested_column right_column : PlainColumn)
    (nested_null_map : Option (List Nat)) : ArrayArg :=
  let r := stringRows offsets nested_column.get_offsets nested_column.get_chars
    right_column.get_offsets right_column.get_chars nested_null_map offsets.length 0
    { cur := 0, dst_offs := [], dst_chars := [], dst_null_map := [], dst_offsets := [] }
  { offsets := r.dst_offsets,
    nested := PlainColumn.strings r.dst_offs r.dst_chars,
    nested_null_map := if nested_null_map.isSome then some r.dst_null_map else none }

/-- Function `_execute_number_expanded<NestedColumnType>` (lines 254-263): the
number path runs when the right column is of the class `NestedColumnType`. -/
def _execute_number_expanded (cls : ColumnClass) (offsets : List Nat)
    (nested_column right_column : PlainColumn) (nested_null_map : Option (List Nat)) :
    Option ArrayArg :=
  if right_column.is_column cls then
    let r := _execute_number offsets nested_column.get_data right_column.get_data
      nested_null_map
    some { offsets := r.offsets,
           nested := nested_column.withData r.nested,
           nested_null_map := r.nested_null_map }
  else none

/-- Function `FunctionArrayRemove::_execute_non_nullable` (lines 265-373), on the
array column and the right column after `convert_to_full_column_if_const`, with
the types of the two arguments. -/
def _execute_non_nullable (preds : TypePredicates) (left : ArrayArg)
    (left_type : DataTypeInfo) (right_column : PlainColumn) (right_type : DataTypeInfo) :
    Option ArrayArg :=
  let left_element_type := left_type.nested_primitive_type
  let right := right_type.primitive_type
  if preds.is_string_type right && preds.is_string_type left_element_type then
    some (_execute_string left.offsets left.nested right_column left.nested_null_map)
  else if preds.is_number right && preds.is_number left_element_type then
    match left_element_type with
    | PrimitiveType.TYPE_BOOLEAN =>
      _execute_number_expanded ColumnClass.ColumnUInt8 left.offsets left.nested right_column
        left.nested_null_map
    | PrimitiveType.TYPE_TINYINT =>
      _execute_number_expanded ColumnClass.ColumnInt8 left.offsets left.nested right_column
        left.nested_null_map
    | PrimitiveType.TYPE_SMALLINT =>
      _execute_number_expanded ColumnClass.ColumnInt16 left.offsets left.nested right_column
        left.nested_null_map
    | PrimitiveType.TYPE_INT =>
      _execute_number_expanded ColumnClass.ColumnInt32 left.offsets left.nested right_column
        left.nested_null_map
    | PrimitiveType.TYPE_BIGINT =>
      _execute_number_expanded ColumnClass.ColumnInt64 left.offsets left.nested right_column
        left.nested_null_map
    | PrimitiveType.TYPE_LARGEINT =>
      _execute_number_expanded ColumnClass.ColumnInt128 left.offsets left.nested right_column
        left.nested_null_map
    | PrimitiveType.TYPE_FLOAT =>
      _execute_number_expanded ColumnClass.ColumnFloat32 left.offsets left.nested
        right_column left.nested_null_map
    | PrimitiveType.TYPE_DOUBLE =>
      _execute_number_expanded ColumnClass.ColumnFloat64 left.offsets left.nested
        right_column left.nested_null_map
    | PrimitiveType.TYPE_DECIMAL32 =>
      _execute_number_expanded ColumnClass.ColumnDecimal32 left.offsets left.nested
        right_column left.nested_null_map
    | PrimitiveType.TYPE_DECIMAL64 =>
      _execute_number_expanded ColumnClass.ColumnDecimal64 left.offsets left.nested
        right_column left.nested_null_map
    | PrimitiveType.TYPE_DECIMAL128I =>
      _execute_number_expanded ColumnClass.ColumnDecimal128V3 left.offsets left.nested
        right_column left.nested_null_map
    | PrimitiveType.TYPE_DECIMALV2 =>
      _execute_number_expanded ColumnClass.ColumnDecimal128V2 left.offsets left.nested
        right_column left.nested_null_map
    | PrimitiveType.TYPE_DECIMAL256 =>
      _execute_number_expanded ColumnClass.ColumnDecimal256 left.offsets left.nested
        right_column left.nested_null_map
    | _ => none
  else if preds.is_date_or_datetime right && preds.is_date_or_datetime left_element_type then
    if left_element_type = PrimitiveType.TYPE_DATE then
      _execute_number_expanded ColumnClass.ColumnDate left.offsets left.nested right_column
        left.nested_null_map
    else if left_element_type = PrimitiveType.TYPE_DATETIME then
      _execute_number_expanded ColumnClass.ColumnDateTime left.offsets left.nested
        right_column left.nested_null_map
    else none
  else if preds.is_date_v2_or_datetime_v2 right &&
      preds.is_date_v2_or_datetime_v2 left_element_type then
    if left_element_type = PrimitiveType.TYPE_DATEV2 then
      _execute_number_expanded ColumnClass.ColumnDateV2 left.offsets left.nested right_column
        left.nested_null_map
    else if left_element_type = PrimitiveType.TYPE_DATETIMEV2 then
      _execute_number_expanded ColumnClass.ColumnDateTimeV2 left.offsets left.nested
        right_column left.nested_null_map
    else none
  else none

/-- A column of a block of `array_remove`: an array column or a plain column. -/
inductive RemoveColumn where
  | array (a : ArrayArg)
  | plain (c : PlainColumn)
deriving DecidableEq, Repr

/-- A `ColumnWithTypeAndName` of a block of `array_remove`. -/
structure ColumnWithTypeAndName where
  column : RemoveColumn
  type : DataTypeInfo
deriving DecidableEq, Repr

/-- Function `FunctionArrayRemove::execute_impl` (lines 76-92).  The result is
the returned status together with the block after the call; `none` when a
position is outside the block or an argument column is not of the kind the
casts take it for. -/
def FunctionArrayRemove.execute_impl (preds : TypePredicates)
    (block : List ColumnWithTypeAndName) (arguments : List Nat) (result : Nat) :
    Option (Status × List ColumnWithTypeAndName) :=
  match block[arguments.getD 0 0]?, block[arguments.getD 1 0]? with
  | some arg0, some arg1 =>
    match arg0.column, arg1.column with
    | RemoveColumn.array left, RemoveColumn.plain right_column =>
      match _execute_non_nullable preds left arg0.type right_column arg1.type with
      | none =>
        some (Status.RuntimeError
          ("unsupported types for function array_remove(" ++ arg0.type.name ++ ", " ++
            arg1.type.name ++ ")"), block)
      | some res_column =>
        match block[result]? with
        | some dest =>
          some (Status.OK, block.set result { dest with column := RemoveColumn.array res_column })
        | none => none
    | _, _ => none
  | _, _ => none

/-- The class of the right column with which the number, date and date-v2
branches of `_execute_non_nullable` produce a column for an array element type:
the `NestedColumnType` the branch instantiates. -/
def nestedColumnType : PrimitiveType → Option ColumnClass
  | PrimitiveType.TYPE_BOOLEAN => some ColumnClass.ColumnUInt8
  | PrimitiveType.TYPE_TINYINT => some ColumnClass.ColumnInt8
  | PrimitiveType.TYPE_SMALLINT => some ColumnClass.ColumnInt16
  | PrimitiveType.TYPE_INT => some ColumnClass.ColumnInt32
  | PrimitiveType.TYPE_BIGINT => some ColumnClass.ColumnInt64
  | PrimitiveType.TYPE_LARGEINT => some ColumnClass.ColumnInt128
  | PrimitiveType.TYPE_FLOAT => some ColumnClass.ColumnFloat32
  | PrimitiveType.TYPE_DOUBLE => some ColumnClass.ColumnFloat64
  | PrimitiveType.TYPE_DECIMAL32 => some ColumnClass.ColumnDecimal32
  | PrimitiveType.TYPE_DECIMAL64 => some ColumnClass.ColumnDecimal64
  | PrimitiveType.TYPE_DECIMAL128I => some ColumnClass.ColumnDecimal128V3
  | PrimitiveType.TYPE_DECIMALV2 => some ColumnClass.ColumnDecimal128V2
  | PrimitiveType.TYPE_DECIMAL256 => some ColumnClass.ColumnDecimal256
  | PrimitiveType.TYPE_DATE => some ColumnClass.ColumnDate
  | PrimitiveType.TYPE_DATETIME => some ColumnClass.ColumnDateTime
  | PrimitiveType.TYPE_DATEV2 => some ColumnClass.ColumnDateV2
  | PrimitiveType.TYPE_DATETIMEV2 => some ColumnClass.ColumnDateTimeV2
  | _ => none

/-- The primitive types for which the number, the date and the date-v2 branch
of `_execute_non_nullable` instantiate a column class. -/
def dispatchedTypes : List PrimitiveType :=
  [PrimitiveType.TYPE_BOOLEAN, PrimitiveType.TYPE_TINYINT, PrimitiveType.TYPE_SMALLINT,
   PrimitiveType.TYPE_INT, PrimitiveType.TYPE_BIGINT, PrimitiveType.TYPE_LARGEINT,
   PrimitiveType.TYPE_FLOAT, PrimitiveType.TYPE_DOUBLE, PrimitiveType.TYPE_DECIMAL32,
   PrimitiveType.TYPE_DECIMAL64, PrimitiveType.TYPE_DECIMAL128I,
   PrimitiveType.TYPE_DECIMALV2, PrimitiveType.TYPE_DECIMAL256, PrimitiveType.TYPE_DATE,
   PrimitiveType.TYPE_DATETIME, PrimitiveType.TYPE_DATEV2, PrimitiveType.TYPE_DATETIMEV2]

/-- The pair (array element type, scalar type) is of the same concrete type
inside one supported family: the two primitive types are the same type, and that
type is in the text, the number, the date or the date-v2 family. -/
def SameConcreteType (preds : TypePredicates) (element scalar : PrimitiveType) : Prop :=
  element = scalar ∧
  (preds.is_string_type element = true ∨ preds.is_number element = true ∨
    preds.is_date_or_datetime element = true ∨
    preds.is_date_v2_or_datetime_v2 element = true)

instance (preds : TypePredicates) (element scalar : PrimitiveType) :
    Decidable (SameConcreteType preds element scalar) := by
  unfold SameConcreteType; infer_instance

/-- The scalar column is a column of the scalar's type: of the column classes of
the number and date types it is of no other class than the class of the scalar's
own type. -/
def ColumnOfType (scalar : PrimitiveType) (right_column : PlainColumn) : Prop :=
  ∀ t ∈ dispatchedTypes, ∀ cls ∈ nestedColumnType t,
    right_column.is_column cls = true → t = scalar

instance (scalar : PrimitiveType) (right_column : PlainColumn) :
    Decidable (ColumnOfType scalar right_column) := by
  unfold ColumnOfType; infer_instance

/-- Modelled from the spec: an instance of the family tests of
`runtime/primitive_type.h`, for examples, with the four families of the type
coverage of the specification (numeric, text, legacy date/datetime, v2
date/datetime): the number family holds the thirteen tags of the switch of lines
297-349, the two date families hold the tags that lines 355-370 name, and the
text family holds the tags `other 0` and `other 1`, two of the text types (these
files name no tag of a text type). -/
def sampleTypePredicates : TypePredicates :=
  { is_string_type := fun t =>
      t == PrimitiveType.other 0 || t == PrimitiveType.other 1,
    is_number := fun t =>
      t == PrimitiveType.TYPE_BOOLEAN || t == PrimitiveType.TYPE_TINYINT ||
      t == PrimitiveType.TYPE_SMALLINT || t == PrimitiveType.TYPE_INT ||
      t == PrimitiveType.TYPE_BIGINT || t == PrimitiveType.TYPE_LARGEINT ||
      t == PrimitiveType.TYPE_FLOAT || t == PrimitiveType.TYPE_DOUBLE ||
      t == PrimitiveType.TYPE_DECIMAL32 || t == PrimitiveType.TYPE_DECIMAL64 ||
      t == PrimitiveType.TYPE_DECIMAL128I || t == PrimitiveType.TYPE_DECIMALV2 ||
      t == PrimitiveType.TYPE_DECIMAL256,
    is_date_or_datetime := fun t =>
      t == PrimitiveType.TYPE_DATE || t == PrimitiveType.TYPE_DATETIME,
    is_date_v2_or_datetime_v2 := fun t =>
      t == PrimitiveType.TYPE_DATEV2 || t == PrimitiveType.TYPE_DATETIMEV2 }

/-! ## Definitions: array aggregation -/

/-- The aggregate kinds, `enum class AggregateOperation` (line 52). -/
inductive AggregateOperation where
  | MIN
  | MAX
  | SUM
  | AVERAGE
  | PRODUCT
deriving DecidableEq, Repr

/-- Modelled from the spec: the aggregate function of the element type that
`Function::create` builds (`vec/aggregate_functions`, not among the embedded
files), an accumulator with the lifecycle `reset`, fold of values, extract:
`init` is the state `reset` leaves, `add` folds one value, `get` extracts the
result. -/
structure NestedAggregate (σ ρ : Type) where
  init : σ
  add : σ → Int → σ
  get : σ → ρ

/-- Modelled from the spec: the aggregate state `guard.data()` of the function
created for the nullable element type: a flag saying that a non-null value has
been folded, and the state of the nested function. -/
structure AggregatePlace (σ : Type) where
  flag : Bool
  nested : σ

/-- Modelled from the spec: the state `AggregateFunctionGuard` creates. -/
def NestedAggregate.create {σ ρ : Type} (f : NestedAggregate σ ρ) : AggregatePlace σ :=
  { flag := false, nested := f.init }

/-- Modelled from the spec: the call `function->reset(place)`: the state is
reset, whatever it was. -/
def NestedAggregate.reset {σ ρ : Type} (f : NestedAggregate σ ρ)
    (_place : AggregatePlace σ) : AggregatePlace σ :=
  { flag := false, nested := f.init }

/-- Modelled from the spec: one position of the fold of `add_batch_range`: a
null position is skipped, the value of any other position is folded. -/
def NestedAggregate.addAt {σ ρ : Type} (f : NestedAggregate σ ρ) (data : List Int)
    (nested_null_map : Option (List Nat)) (i : Nat) (place : AggregatePlace σ) :
    AggregatePlace σ :=
  if nullAt nested_null_map i then place
  else { flag := true, nested := f.add place.nested (data.getD i 0) }

/-- Modelled from the spec: the fold over `n` positions from position `i` on. -/
def NestedAggregate.addFrom {σ ρ : Type} (f : NestedAggregate σ ρ) (data : List Int)
    (nested_null_map : Option (List Nat)) : Nat → Nat → AggregatePlace σ → AggregatePlace σ
  | 0, _, place => place
  | n + 1, i, place =>
    NestedAggregate.addFrom f data nested_null_map n (i + 1)
      (f.addAt data nested_null_map i place)

/-- Modelled from the spec: the call `function->add_batch_range(batch_begin,
batch_end, place, columns, arena, has_null)`: every position of the inclusive
range `[batch_begin, batch_end]` is folded in order, null positions excluded. -/
def NestedAggregate.add_batch_range {σ ρ : Type} (f : NestedAggregate σ ρ)
    (batch_begin batch_end : Nat) (place : AggregatePlace σ) (data : List Int)
    (nested_null_map : Option (List Nat)) : AggregatePlace σ :=
  f.addFrom data nested_null_map (batch_end + 1 - batch_begin) batch_begin place

/-- Modelled from the spec: the call `function->insert_result_into(place,
res_column)` on the nullable result column: the extracted value when a non-null
value has been folded, a null entry otherwise. -/
def NestedAggregate.insert_result_into {σ ρ : Type} (f : NestedAggregate σ ρ)
    (place : AggregatePlace σ) (res_column : List (Option ρ)) : List (Option ρ) :=
  res_column ++ [if place.flag then some (f.get place.nested) else none]

/-- Modelled from the spec: the call `insert_default()` on the nullable result
column (`ColumnNullable`, not among the embedded files): a null entry. -/
def insert_default {ρ : Type} (res_column : List (Option ρ)) : List (Option ρ) :=
  res_column ++ [none]

/-- The state of the row loop of `execute_type`: the aggregate state and the
nullable result column, `none` being a null entry. -/
structure AggregateLoop (σ ρ : Type) where
  place : AggregatePlace σ
  res_column : List (Option ρ)

/-- The body of `for (i = 0; i < offsets.size(); ++i)` of `execute_type`
(lines 288-298). -/
def aggregateRow {σ ρ : Type} (f : NestedAggregate σ ρ) (offsets : List Nat)
    (data : List Int) (nested_null_map : Option (List Nat)) (i : Nat)
    (s : AggregateLoop σ ρ) : AggregateLoop σ ρ :=
  let start := offsetBefore offsets i
  let end_ := offsets.getD i 0
  let is_empty := (start == end_)
  if is_empty then
    { s with res_column := insert_default s.res_column }
  else
    let p1 := f.reset s.place
    let p2 := f.add_batch_range start (end_ - 1) p1 data nested_null_map
    { place := p2, res_column := f.insert_result_into p2 s.res_column }

/-- The row loop of `execute_type` with `n` rows left. -/
def aggregateRows {σ ρ : Type} (f : NestedAggregate σ ρ) (offsets : List Nat)
    (data : List Int) (nested_null_map : Option (List Nat)) :
    Nat → Nat → AggregateLoop σ ρ → AggregateLoop σ ρ
  | 0, _, s => s
  | n + 1, i, s =>
    aggregateRows f offsets data nested_null_map n (i + 1)
      (aggregateRow f offsets data nested_null_map i s)

/-- Function `ArrayAggregateImpl::execute_type<Element>` (lines 256-302) with the
aggregate function `f` of the operation: `cls` is `ColVecType`, the column class
of `Element`; `data` is the nested column without its nullable wrapper and
`nested_null_map` the null map of the wrapper when `data->is_nullable()`.  The
result is `none` when the function returns `false`, and the nullable result
column otherwise. -/
def execute_type {σ ρ : Type} (f : NestedAggregate σ ρ) (cls : ColumnClass)
    (data : PlainColumn) (nested_null_map : Option (List Nat)) (offsets : List Nat) :
    Option (List (Option ρ)) :=
  if data.is_column cls then
    some (aggregateRows f offsets data.get_data nested_null_map offsets.length 0
      { place := f.create, res_column := [] }).res_column
  else none

/-- The result column of `execute_type` on an array column of integers whose
nested column is of the class of `Element`. -/
def arrayAggregate {σ ρ : Type} (f : NestedAggregate σ ρ) (a : ArrayColumn) :
    List (Option ρ) :=
  (aggregateRows f a.offsets a.nested a.nested_null_map a.offsets.length 0
    { place := f.create, res_column := [] }).res_column

/-- Two's complement reduction of an integer to the signed type of `bits` bits. -/
def wrapSigned (bits : Nat) (x : Int) : Int :=
  (x + 2 ^ (bits - 1)) % 2 ^ bits - 2 ^ (bits - 1)

/-- The width of `ArrayAggregateResult<Element, SUM>` for an integer `Element`
(lines 87-93): `Int128` for `Int128`, `Int64` for every other integer type. -/
def sumResultBits (element_is_int128 : Bool) : Nat :=
  if element_is_int128 then 128 else 64

/-- Modelled from the spec: `AggregateFunctionSum` for an integer element type:
the values are added in a signed accumulator of the result type. -/
def sumAggregate (bits : Nat) : NestedAggregate Int Int :=
  { init := 0,
    add := fun acc x => wrapSigned bits (acc + x),
    get := fun acc => acc }

/-- Modelled from the spec: `AggregateFunctionMinData`, the single value kept by
`array_min`: the first value folded, replaced by every smaller value. -/
def minAggregate : NestedAggregate (Option Int) Int :=
  { init := none,
    add := fun acc x =>
      match acc with
      | none => some x
      | some m => if x < m then some x else some m,
    get := fun acc => acc.getD 0 }

/-- Modelled from the spec: `AggregateFunctionMaxData`, the single value kept by
`array_max`: the first value folded, replaced by every greater value. -/
def maxAggregate : NestedAggregate (Option Int) Int :=
  { init := none,
    add := fun acc x =>
      match acc with
      | none => some x
      | some m => if x > m then some x else some m,
    get := fun acc => acc.getD 0 }

/-- The function `array_sum` on an array column of an integer element type. -/
def array_sum (element_is_int128 : Bool) (a : ArrayColumn) : List (Option Int) :=
  arrayAggregate (sumAggregate (sumResultBits element_is_int128)) a

/-- The function `array_min` on an array column of an integer element type. -/
def array_min (a : ArrayColumn) : List (Option Int) :=
  arrayAggregate minAggregate a

/-- The function `array_max` on an array column of an integer element type. -/
def array_max (a : ArrayColumn) : List (Option Int) :=
  arrayAggregate maxAggregate a

/-- The non-null values of a row of pairs `(value, null flag)`, in order. -/
def nonNullValues (l : List (Int × Nat)) : List Int :=
  (l.filter (fun p => p.2 == 0)).map Prod.fst

/-- The aggregate of one row: null when the row has no non-null value, else the
value extracted after folding the non-null values in order from `init`. -/
def rowAggregate {σ ρ : Type} (f : NestedAggregate σ ρ) (l : List (Int × Nat)) :
    Option ρ :=
  if nonNullValues l = [] then none
  else some (f.get ((nonNullValues l).foldl f.add f.init))

/-! ## Definitions: aggregation result types and type dispatch -/

/-- The element types `ArrayAggregateImpl::execute` instantiates `execute_type`
with (lines 232-248), in the order of the calls. -/
inductive Element where
  | UInt8
  | Int8
  | Int16
  | Int32
  | Int64
  | Int128
  | Float32
  | Float64
  | Decimal32
  | Decimal64
  | Decimal128V2
  | Decimal128V3
  | Decimal256
  | Date
  | DateTime
  | DateV2
  | DateTimeV2
deriving DecidableEq, Repr

/-- Modelled from the spec: the trait `IsFloatNumber` (`vec/core/types.h`, not
among the embedded files): the two IEEE floating point element types. -/
def IsFloatNumber : Element → Bool
  | Element.Float32 => true
  | Element.Float64 => true
  | _ => false

/-- Modelled from the spec: the trait `IsDecimalNumber` (`vec/core/types.h`, not
among the embedded files): the fixed-point decimal element types of the four
widths, the 128-bit one in its two encodings. -/
def IsDecimalNumber : Element → Bool
  | Element.Decimal32 => true
  | Element.Decimal64 => true
  | Element.Decimal128V2 => true
  | Element.Decimal128V3 => true
  | Element.Decimal256 => true
  | _ => false

/-- A deduced result type: `plain e` is the element type `e` itself, and
`decimal e` and `decimal256 e` are the decimal types that `DisposeDecimal` and
`DisposeDecimal256` give for the decimal element type `e`. -/
inductive ResultType where
  | plain (e : Element)
  | decimal (e : Element)
  | decimal256 (e : Element)
deriving DecidableEq, Repr

/-- Modelled from the spec: the alias `DisposeDecimal<T, U>` (`vec/core/types.h`,
not among the embedded files): a decimal type `T` stays decimal, possibly of a
wider precision class, and every other type `T` gets `U`. -/
def DisposeDecimal (t u : Element) : ResultType :=
  if IsDecimalNumber t then ResultType.decimal t else ResultType.plain u

/-- Modelled from the spec: the alias `DisposeDecimal256<T, U>`, the variant of
`DisposeDecimal` under the wide decimal feature. -/
def DisposeDecimal256 (t u : Element) : ResultType :=
  if IsDecimalNumber t then ResultType.decimal256 t else ResultType.plain u

/-- The alias `ArrayAggregateResult<Element, operation, enable_decimal256>`, the
member `Result` of `ArrayAggregateResultImpl` (lines 54-104).  `none`: the
primary template is only declared and no specialization takes `MIN` or `MAX` with
`enable_decimal256 = true`. -/
def ArrayAggregateResult (element : Element) (operation : AggregateOperation)
    (enable_decimal256 : Bool) : Option ResultType :=
  match operation, enable_decimal256 with
  | AggregateOperation.MIN, false => some (ResultType.plain element)
  | AggregateOperation.MIN, true => none
  | AggregateOperation.MAX, false => some (ResultType.plain element)
  | AggregateOperation.MAX, true => none
  | AggregateOperation.AVERAGE, false => some (DisposeDecimal element Element.Float64)
  | AggregateOperation.AVERAGE, true => some (DisposeDecimal256 element Element.Float64)
  | AggregateOperation.PRODUCT, false => some (DisposeDecimal element Element.Float64)
  | AggregateOperation.PRODUCT, true => some (DisposeDecimal256 element Element.Float64)
  | AggregateOperation.SUM, false =>
    some (DisposeDecimal element
      (if IsFloatNumber element then Element.Float64
       else if element = Element.Int128 then Element.Int128 else Element.Int64))
  | AggregateOperation.SUM, true =>
    some (DisposeDecimal256 element
      (if IsFloatNumber element then Element.Float64
       else if element = Element.Int128 then Element.Int128 else Element.Int64))

/-- The element types in the order in which `execute` tries them. -/
def executeElements : List Element :=
  [Element.UInt8, Element.Int8, Element.Int16, Element.Int32, Element.Int64,
   Element.Int128, Element.Float32, Element.Float64, Element.Decimal32,
   Element.Decimal64, Element.Decimal128V2, Element.Decimal128V3, Element.Decimal256,
   Element.Date, Element.DateTime, Element.DateV2, Element.DateTimeV2]

/-- Modelled from the spec: the alias `ColumnVectorOrDecimal<Element>`
(`vec/columns`, not among the embedded files): the vector or decimal column class
of the element type, the class of the same name. -/
def ColVecType : Element → ColumnClass
  | Element.UInt8 => ColumnClass.ColumnUInt8
  | Element.Int8 => ColumnClass.ColumnInt8
  | Element.Int16 => ColumnClass.ColumnInt16
  | Element.Int32 => ColumnClass.ColumnInt32
  | Element.Int64 => ColumnClass.ColumnInt64
  | Element.Int128 => ColumnClass.ColumnInt128
  | Element.Float32 => ColumnClass.ColumnFloat32
  | Element.Float64 => ColumnClass.ColumnFloat64
  | Element.Decimal32 => ColumnClass.ColumnDecimal32
  | Element.Decimal64 => ColumnClass.ColumnDecimal64
  | Element.Decimal128V2 => ColumnClass.ColumnDecimal128V2
  | Element.Decimal128V3 => ColumnClass.ColumnDecimal128V3
  | Element.Decimal256 => ColumnClass.ColumnDecimal256
  | Element.Date => ColumnClass.ColumnDate
  | Element.DateTime => ColumnClass.ColumnDateTime
  | Element.DateV2 => ColumnClass.ColumnDateV2
  | Element.DateTimeV2 => ColumnClass.ColumnDateTimeV2

/-- The error codes of the statuses and exceptions of these files. -/
inductive ErrorCode where
  | OK
  | INVALID_ARGUMENT
  | RUNTIME_ERROR
deriving DecidableEq, Repr

/-- The error code of a status. -/
def Status.code : Status → ErrorCode
  | Status.OK => ErrorCode.OK
  | Status.InvalidArgument _ => ErrorCode.INVALID_ARGUMENT
  | Status.RuntimeError _ => ErrorCode.RUNTIME_ERROR

/-- A thrown `doris::Exception`: its error code and its formatted message. -/
structure Exception where
  code : ErrorCode
  message : String
deriving DecidableEq, Repr

/-- What `get_return_type` and `execute_type` use of a function that
`Function::create` returns: the aggregate function and its return type. -/
structure AggregateFunctionPtr (σ ρ : Type) where
  function : NestedAggregate σ ρ
  return_type : DataTypeInfo

/-- Function `ArrayAggregateImpl::get_return_type` (lines 211-223).
`create` is `Function::create`, which dispatches on the nested type through
`creator_with_type` (not among the embedded files) and returns a null pointer,
here `none`, for a type it has no function for; `nested_type` is
`data_type_array->get_nested_type()` and `operation_name` is the formatted
`operation`.  The result is the returned type or the thrown exception. -/
def ArrayAggregateImpl.get_return_type {σ ρ : Type}
    (create : DataTypeInfo → Option (AggregateFunctionPtr σ ρ)) (operation_name : String)
    (nested_type : DataTypeInfo) : Except Exception DataTypeInfo :=
  match create nested_type with
  | some function => Except.ok function.return_type
  | none =>
    Except.error
      { code := ErrorCode.INVALID_ARGUMENT,
        message :=
          "Unexpected type " ++ nested_type.name ++ " for aggregation " ++ operation_name }

/-- What one call `execute_type<Element>` does: it returns `false`
(`not_column`), or it dereferences the null pointer that `Function::create`
returned (`null_function`), or it returns `true` and leaves the result column in
`res_ptr`. -/
inductive TypeAttempt (ρ : Type) where
  | not_column
  | null_function
  | column (res : List (Option ρ))

/-- Function `ArrayAggregateImpl::execute_type<Element>` (lines 256-302) with
the function created inside it (line 282): the column test of lines 264-271 comes
first, then the function is created from `type` and used. -/
def execute_type_create {σ ρ : Type}
    (create : DataTypeInfo → Option (AggregateFunctionPtr σ ρ)) (type : DataTypeInfo)
    (element : Element) (data : PlainColumn) (nested_null_map : Option (List Nat))
    (offsets : List Nat) : TypeAttempt ρ :=
  if data.is_column (ColVecType element) then
    match create type with
    | none => TypeAttempt.null_function
    | some function =>
      match execute_type function.function (ColVecType element) data nested_null_map
          offsets with
      | some res => TypeAttempt.column res
      | none => TypeAttempt.not_column
  else TypeAttempt.not_column

/-- The chain `execute_type<UInt8>(...) || execute_type<Int8>(...) || ...` of
lines 232-248: the calls are made in order until one does not return `false`. -/
def tryElements {ρ : Type} (attempt : Element → TypeAttempt ρ) :
    List Element → TypeAttempt ρ
  | [] => TypeAttempt.not_column
  | element :: rest =>
    match attempt element with
    | TypeAttempt.not_column => tryElements attempt rest
    | TypeAttempt.null_function => TypeAttempt.null_function
    | TypeAttempt.column res => TypeAttempt.column res

/-- A column of a block of an aggregation: an array column, or a nullable column
of results, `none` being a null entry. -/
inductive AggregateColumn (ρ : Type) where
  | array (a : ArrayArg)
  | nullable (res : List (Option ρ))
deriving DecidableEq, Repr

/-- Function `ArrayAggregateImpl::execute` (lines 225-254).  `type` is
`data_type_array->get_nested_type()` and `data_name` is `data->get_name()`, the
name of the nested column of `array`.  The result is the returned status
together with the block after the call; `none` when the null pointer of
`Function::create` is dereferenced or `result` is outside the block. -/
def ArrayAggregateImpl.execute {σ ρ : Type}
    (create : DataTypeInfo → Option (AggregateFunctionPtr σ ρ))
    (block : List (AggregateColumn ρ)) (result : Nat) (type : DataTypeInfo)
    (array : ArrayArg) (data_name : String) :
    Option (Status × List (AggregateColumn ρ)) :=
  match tryElements
      (fun element => execute_type_create create type element array.nested
        array.nested_null_map array.offsets) executeElements with
  | TypeAttempt.column res =>
    if result < block.length then
      some (Status.OK, block.set result (AggregateColumn.nullable res))
    else none
  | TypeAttempt.not_column =>
    some (Status.RuntimeError ("Unexpected column for aggregation: " ++ data_name), block)
  | TypeAttempt.null_function => none

/-- An instance of `Function::create` for examples: the sum function with a
64-bit result for the nested type `TYPE_INT`, and no function for any other
type. -/
def sampleCreate (type : DataTypeInfo) : Option (AggregateFunctionPtr Int Int) :=
  if type.primitive_type = PrimitiveType.TYPE_INT then
    some { function := sumAggregate 64,
           return_type :=
             { name := "Nullable(BIGINT)", primitive_type := PrimitiveType.TYPE_BIGINT,
               nested_primitive_type := PrimitiveType.TYPE_BIGINT } }
  else none

/-! ## Definitions: text columns -/

/-- The string at position `k` of a `ColumnString` with the offsets `offs` and
the bytes `chars`: the bytes from `offs[k - 1]` up to `offs[k]`, as lines 225-227
of `_execute_string` read them. -/
def strElem (offs chars : List Nat) (k : Nat) : List Nat :=
  (chars.drop (offsetBefore offs k)).take (offs.getD k 0 - offsetBefore offs k)

/-- The strings of a `ColumnString` as numbers: position `k` holds the number
`enc` gives the string at position `k`. -/
def encodedStrings (enc : List Nat → Int) (offs chars : List Nat) : List Int :=
  List.map (fun k => enc (strElem offs chars k)) (List.range offs.length)

/-- The destination of the text path holds the strings `ks`, and the destination
of the number path holds their numbers. -/
def TextRefines (enc : List Nat → Int) (ks : List (List Nat)) (dst_offs dst_chars : List Nat)
    (dst_data : List Int) : Prop :=
  dst_chars = ks.flatten ∧ dst_offs = cumFrom 0 (ks.map List.length) ∧
    dst_data = ks.map enc

/-! ## Definitions: encryption mode resolution -/

/-- The encryption modes the two mode tables of lines 52-85 name. -/
inductive EncryptionMode where
  | AES_128_ECB
  | AES_192_ECB
  | AES_256_ECB
  | AES_128_CBC
  | AES_192_CBC
  | AES_256_CBC
  | AES_128_CFB
  | AES_192_CFB
  | AES_256_CFB
  | AES_128_CFB1
  | AES_192_CFB1
  | AES_256_CFB1
  | AES_128_CFB8
  | AES_192_CFB8
  | AES_256_CFB8
  | AES_128_CFB128
  | AES_192_CFB128
  | AES_256_CFB128
  | AES_128_CTR
  | AES_192_CTR
  | AES_256_CTR
  | AES_128_OFB
  | AES_192_OFB
  | AES_256_OFB
  | AES_128_GCM
  | AES_192_GCM
  | AES_256_GCM
  | SM4_128_ECB
  | SM4_128_CBC
  | SM4_128_CFB128
  | SM4_128_OFB
  | SM4_128_CTR
deriving DecidableEq, Repr

/-- The bytes of a string literal. -/
def bytesOf (s : String) : List Nat :=
  s.toList.map Char.toNat

/-- The table `aes_mode_map` (lines 52-79), in the order of the source. -/
def aes_mode_map : List (List Nat × EncryptionMode) :=
  [(bytesOf "AES_128_ECB", EncryptionMode.AES_128_ECB),
   (bytesOf "AES_192_ECB", EncryptionMode.AES_192_ECB),
   (bytesOf "AES_256_ECB", EncryptionMode.AES_256_ECB),
   (bytesOf "AES_128_CBC", EncryptionMode.AES_128_CBC),
   (bytesOf "AES_192_CBC", EncryptionMode.AES_192_CBC),
   (bytesOf "AES_256_CBC", EncryptionMode.AES_256_CBC),
   (bytesOf "AES_128_CFB", EncryptionMode.AES_128_CFB),
   (bytesOf "AES_192_CFB", EncryptionMode.AES_192_CFB),
   (bytesOf "AES_256_CFB", EncryptionMode.AES_256_CFB),
   (bytesOf "AES_128_CFB1", EncryptionMode.AES_128_CFB1),
   (bytesOf "AES_192_CFB1", EncryptionMode.AES_192_CFB1),
   (bytesOf "AES_256_CFB1", EncryptionMode.AES_256_CFB1),
   (bytesOf "AES_128_CFB8", EncryptionMode.AES_128_CFB8),
   (bytesOf "AES_192_CFB8", EncryptionMode.AES_192_CFB8),
   (bytesOf "AES_256_CFB8", EncryptionMode.AES_256_CFB8),
   (bytesOf "AES_128_CFB128", EncryptionMode.AES_128_CFB128),
   (bytesOf "AES_192_CFB128", EncryptionMode.AES_192_CFB128),
   (bytesOf "AES_256_CFB128", EncryptionMode.AES_256_CFB128),
   (bytesOf "AES_128_CTR", EncryptionMode.AES_128_CTR),
   (bytesOf "AES_192_CTR", EncryptionMode.AES_192_CTR),
   (bytesOf "AES_256_CTR", EncryptionMode.AES_256_CTR),
   (bytesOf "AES_128_OFB", EncryptionMode.AES_128_OFB),
   (bytesOf "AES_192_OFB", EncryptionMode.AES_192_OFB),
   (bytesOf "AES_256_OFB", EncryptionMode.AES_256_OFB),
   (bytesOf "AES_128_GCM", EncryptionMode.AES_128_GCM),
   (bytesOf "AES_192_GCM", EncryptionMode.AES_192_GCM),
   (bytesOf "AES_256_GCM", EncryptionMode.AES_256_GCM)]

/-- The table `sm4_mode_map` (lines 80-85). -/
def sm4_mode_map : List (List Nat × EncryptionMode) :=
  [(bytesOf "SM4_128_ECB", EncryptionMode.SM4_128_ECB),
   (bytesOf "SM4_128_CBC", EncryptionMode.SM4_128_CBC),
   (bytesOf "SM4_128_CFB128", EncryptionMode.SM4_128_CFB128),
   (bytesOf "SM4_128_OFB", EncryptionMode.SM4_128_OFB),
   (bytesOf "SM4_128_CTR", EncryptionMode.SM4_128_CTR)]

/-- The lower case of an ASCII byte. -/
def asciiLower (b : Nat) : Nat :=
  if 65 ≤ b ∧ b ≤ 90 then b + 32 else b

/-- Modelled from the spec: the lookup of a key in a `StringCaseUnorderedMap`
(`util/string_util.h`, not among the embedded files), which compares keys
without regard to the case of ASCII letters; `none` when the key is not in the
map. -/
def StringCaseUnorderedMap.find (table : List (List Nat × EncryptionMode))
    (key : List Nat) : Option EncryptionMode :=
  (table.find? (fun p => p.1.map asciiLower == key.map asciiLower)).map Prod.snd

/-- Modelled from the spec: the member `contains` of the map. -/
def StringCaseUnorderedMap.contains (table : List (List Nat × EncryptionMode))
    (key : List Nat) : Bool :=
  (StringCaseUnorderedMap.find table key).isSome

/-- Modelled from the spec: the member `count` of the map. -/
def StringCaseUnorderedMap.count (table : List (List Nat × EncryptionMode))
    (key : List Nat) : Nat :=
  if StringCaseUnorderedMap.contains table key then 1 else 0

/-- Modelled from the spec: the member `at` of the map.  It throws for a key
that is not in the map; the code calls it only after `contains` or `count`, and
here it gives `dflt` for such a key. -/
def StringCaseUnorderedMap.at_ (table : List (List Nat × EncryptionMode))
    (key : List Nat) (dflt : EncryptionMode) : EncryptionMode :=
  (StringCaseUnorderedMap.find table key).getD dflt

/-- The cipher `Impl::execute_impl` (lines 430-451), which calls
`EncryptionUtil` (not among the embedded files): from the mode, the source, the
key, the initialisation vector and the additional data it gives the output
bytes, or `none` for a negative return code. -/
structure EncryptionImpl where
  execute_impl : EncryptionMode → List Nat → List Nat → List Nat → List Nat →
    Option (List Nat)

/-- The destination of an encryption call: the chars and offsets of the result
column and the null map, each of `input_rows_count` entries, and the record of
the calls of `Impl::execute_impl` made so far, each with its row and its mode. -/
structure EncryptDest where
  result_data : List Nat
  result_offset : List Nat
  null_map : List Nat
  cipher_calls : List (Nat × EncryptionMode)
deriving DecidableEq, Repr

/-- Modelled from the spec: `StringOP::push_null_string`
(`vec/utils/stringop_substring.h`, not among the embedded files): row `i` is
marked null and gets an empty string. -/
def push_null_string (i : Nat) (d : EncryptDest) : EncryptDest :=
  { d with
    null_map := d.null_map.set i 1,
    result_offset := d.result_offset.set i d.result_data.length }

/-- Modelled from the spec: `StringOP::push_value_string`: the bytes are appended
and row `i` ends after them. -/
def push_value_string (value : List Nat) (i : Nat) (d : EncryptDest) : EncryptDest :=
  { d with
    result_data := d.result_data ++ value,
    result_offset := d.result_offset.set i (d.result_data.length + value.length) }

/-- Function `execute_result` (lines 143-170): the cipher is called, and the row
is null when the return code is negative. -/
def execute_result (impl : EncryptionImpl) (src key : List Nat) (i : Nat)
    (encryption_mode : EncryptionMode) (iv aad : List Nat) (d : EncryptDest) : EncryptDest :=
  let d1 := { d with cipher_calls := d.cipher_calls ++ [(i, encryption_mode)] }
  match impl.execute_impl encryption_mode src key iv aad with
  | none => push_null_string i d1
  | some out => push_value_string out i d1

/-- Function `execute_result_const` (lines 130-141). -/
def execute_result_const (impl : EncryptionImpl) (offsets_column chars_column : List Nat)
    (key_arg : List Nat) (i : Nat) (encryption_mode : EncryptionMode) (iv aad : List Nat)
    (d : EncryptDest) : EncryptDest :=
  execute_result impl (strElem offsets_column chars_column i) key_arg i encryption_mode
    iv aad d

/-- Function `execute_result_vector` (lines 113-128). -/
def execute_result_vector (impl : EncryptionImpl) (offsets_list chars_list : List (List Nat))
    (i : Nat) (encryption_mode : EncryptionMode) (iv aad : List Nat) (d : EncryptDest) :
    EncryptDest :=
  execute_result impl (strElem (offsets_list.getD 0 []) (chars_list.getD 0 []) i)
    (strElem (offsets_list.getD 1 []) (chars_list.getD 1 []) i) i encryption_mode iv aad d

/-- The loop `for (i = 0; i < input_rows_count; ++i)` around a row body, with `n`
rows left. -/
def encRows (body : Nat → EncryptDest → EncryptDest) : Nat → Nat → EncryptDest → EncryptDest
  | 0, _, d => d
  | n + 1, i, d => encRows body n (i + 1) (body i d)

/-- Function `EncryptionAndDecryptTwoImpl::vector_const` (lines 223-247). -/
def EncryptionAndDecryptTwoImpl.vector_const (impl : EncryptionImpl) (mode : EncryptionMode)
    (offsets_column chars_column : List Nat) (key_arg mode_arg : List Nat)
    (input_rows_count : Nat) (d : EncryptDest) : EncryptDest :=
  let r : Bool × EncryptionMode :=
    if mode_arg.length ≠ 0 then
      if ¬ StringCaseUnorderedMap.contains aes_mode_map mode_arg then (true, mode)
      else (false, StringCaseUnorderedMap.at_ aes_mode_map mode_arg mode)
    else (false, mode)
  let all_insert_null := r.1
  let encryption_mode := r.2
  encRows (fun i d =>
    if all_insert_null = true ∨ d.null_map.getD i 0 ≠ 0 then push_null_string i d
    else execute_result_const impl offsets_column chars_column key_arg i encryption_mode
      [] [] d) input_rows_count 0 d

/-- Function `EncryptionAndDecryptTwoImpl::vector_vector` (lines 249-274). -/
def EncryptionAndDecryptTwoImpl.vector_vector (impl : EncryptionImpl) (mode : EncryptionMode)
    (offsets_list chars_list : List (List Nat)) (input_rows_count : Nat) (d : EncryptDest) :
    EncryptDest :=
  encRows (fun i d =>
    if d.null_map.getD i 0 ≠ 0 then push_null_string i d
    else
      let mode_size := (offsets_list.getD 2 []).getD i 0 -
        offsetBefore (offsets_list.getD 2 []) i
      let mode_str := strElem (offsets_list.getD 2 []) (chars_list.getD 2 []) i
      if mode_size ≠ 0 then
        if StringCaseUnorderedMap.count aes_mode_map mode_str = 0 then push_null_string i d
        else
          execute_result_vector impl offsets_list chars_list i
            (StringCaseUnorderedMap.at_ aes_mode_map mode_str mode) [] [] d
      else execute_result_vector impl offsets_list chars_list i mode [] [] d)
    input_rows_count 0 d

/-- The table the multi-argument forms consult: `sm4_mode_map` under
`is_sm_mode`, `aes_mode_map` otherwise (lines 354-366 and 401-413). -/
def modeTable (is_sm_mode : Bool) : List (List Nat × EncryptionMode) :=
  if is_sm_mode then sm4_mode_map else aes_mode_map

/-- Function `EncryptionAndDecryptMultiImpl::vector_const` (lines 346-380). -/
def EncryptionAndDecryptMultiImpl.vector_const (impl : EncryptionImpl)
    (mode : EncryptionMode) (is_sm_mode : Bool) (offsets_column chars_column : List Nat)
    (key_arg iv_arg mode_arg : List Nat) (input_rows_count : Nat) (d : EncryptDest)
    (aad_arg : List Nat) : EncryptDest :=
  let r : Bool × EncryptionMode :=
    if mode_arg.length ≠ 0 then
      if is_sm_mode then
        if StringCaseUnorderedMap.count sm4_mode_map mode_arg = 0 then (true, mode)
        else (false, StringCaseUnorderedMap.at_ sm4_mode_map mode_arg mode)
      else
        if StringCaseUnorderedMap.count aes_mode_map mode_arg = 0 then (true, mode)
        else (false, StringCaseUnorderedMap.at_ aes_mode_map mode_arg mode)
    else (false, mode)
  let all_insert_null := r.1
  let encryption_mode := r.2
  encRows (fun i d =>
    if all_insert_null = true ∨ d.null_map.getD i 0 ≠ 0 then push_null_string i d
    else execute_result_const impl offsets_column chars_column key_arg i encryption_mode
      iv_arg aad_arg d) input_rows_count 0 d

/-- Function `EncryptionAndDecryptMultiImpl::vector_vector` (lines 382-427);
`arg_num` is 4 or 5. -/
def EncryptionAndDecryptMultiImpl.vector_vector (impl : EncryptionImpl)
    (mode : EncryptionMode) (is_sm_mode : Bool) (arg_num : Nat)
    (offsets_list chars_list : List (List Nat)) (input_rows_count : Nat) (d : EncryptDest) :
    EncryptDest :=
  encRows (fun i d =>
    if d.null_map.getD i 0 ≠ 0 then push_null_string i d
    else
      let mode_size := (offsets_list.getD 3 []).getD i 0 -
        offsetBefore (offsets_list.getD 3 []) i
      let mode_str := strElem (offsets_list.getD 3 []) (chars_list.getD 3 []) i
      let iv_raw := strElem (offsets_list.getD 2 []) (chars_list.getD 2 []) i
      let aad :=
        if arg_num = 5 then strElem (offsets_list.getD 4 []) (chars_list.getD 4 []) i
        else []
      if mode_size ≠ 0 then
        if is_sm_mode then
          if StringCaseUnorderedMap.count sm4_mode_map mode_str = 0 then
            push_null_string i d
          else
            execute_result_vector impl offsets_list chars_list i
              (StringCaseUnorderedMap.at_ sm4_mode_map mode_str mode) iv_raw aad d
        else
          if StringCaseUnorderedMap.count aes_mode_map mode_str = 0 then
            push_null_string i d
          else
            execute_result_vector impl offsets_list chars_list i
              (StringCaseUnorderedMap.at_ aes_mode_map mode_str mode) iv_raw aad d
      else execute_result_vector impl offsets_list chars_list i mode iv_raw aad d)
    input_rows_count 0 d

/-- The mode a mode string selects, in the words of the specification: the
built-in default for the empty string, otherwise the entry of the table found
without regard to case, `none` when there is none. -/
def resolveModeSpec (table : List (List Nat × EncryptionMode)) (default_mode : EncryptionMode)
    (mode_str : List Nat) : Option EncryptionMode :=
  if mode_str = [] then some default_mode else StringCaseUnorderedMap.find table mode_str

/-- What becomes of one row, in the words of the specification: a row whose null
flag is set, or whose mode string selects no mode, is null and the cipher is not
called; for any other row the cipher is called with the selected mode. -/
def encryptRowSpec (impl : EncryptionImpl) (resolved : Option EncryptionMode)
    (src key iv aad : List Nat) (i : Nat) (d : EncryptDest) : EncryptDest :=
  if d.null_map.getD i 0 ≠ 0 then push_null_string i d
  else
    match resolved with
    | none => push_null_string i d
    | some m => execute_result impl src key i m iv aad d

/-- A cipher for examples: it returns the source bytes as they are, whatever the
mode and the key. -/
def sampleCipher : EncryptionImpl :=
  { execute_impl := fun _ src _ _ _ => some src }

/-! ## Definitions: convert_tz -/

/-- The time zone and calendar functions `convert_tz` calls; they live in
`util/timezone_utils.h` and `vec/runtime/vdatetime_value.h` and are taken as
parameters.  `τ` is `cctz::time_zone` and `υ` the type of the timestamp;
`find_cctz_time_zone` gives `none` when it returns `false`, `unix_timestamp`
gives `none` when it returns `false`, and `default_tz` is the default-constructed
time zone. -/
structure TzOps (τ υ : Type) where
  default_tz : τ
  find_cctz_time_zone : String → Option τ
  unix_timestamp : Int → τ → Option υ
  from_unixtime : υ → τ → Int
  is_valid_date : Int → Bool

/-- The struct `ConvertTzState` (lines 55-60). -/
structure ConvertTzState (τ : Type) where
  use_state : Bool
  is_valid : Bool
  from_tz : τ
  to_tz : τ

/-- Function `init_convert_tz_state` (lines 120-144); a constant whose data is
the null pointer is `none`. -/
def init_convert_tz_state {τ υ : Type} (ops : TzOps τ υ) (state : ConvertTzState τ)
    (const_data_from_tz const_data_to_tz : Option String) : ConvertTzState τ :=
  match const_data_from_tz, const_data_to_tz with
  | some from_tz_name, some to_tz_name =>
    match ops.find_cctz_time_zone from_tz_name with
    | none => { state with is_valid := false }
    | some from_tz =>
      match ops.find_cctz_time_zone to_tz_name with
      | none => { state with is_valid := false, from_tz := from_tz }
      | some to_tz => { state with is_valid := true, from_tz := from_tz, to_tz := to_tz }
  | _, _ => { state with is_valid := false }

/-- The result column and the null map of a `convert_tz` call. -/
structure TzDest where
  result_column : List Int
  result_null_map : List Nat
deriving DecidableEq, Repr

/-- The call `result_column->insert_default()`. -/
def TzDest.insert_default (d : TzDest) : TzDest :=
  { d with result_column := d.result_column ++ [0] }

/-- The lambda `push_null` of `execute_tz_const_with_state` (lines 223-226). -/
def TzDest.push_null (d : TzDest) (row : Nat) : TzDest :=
  { d with result_null_map := d.result_null_map.set row 1 }.insert_default

/-- The loop `for (i = 0; i < input_rows_count; i++)` around a row body, with
`n` rows left. -/
def tzRows (body : Nat → TzDest → TzDest) : Nat → Nat → TzDest → TzDest
  | 0, _, d => d
  | n + 1, i, d => tzRows body n (i + 1) (body i d)

/-- Function `execute_tz_const_with_state` (lines 217-279). -/
def execute_tz_const_with_state {τ υ : Type} (ops : TzOps τ υ)
    (convert_tz_state : ConvertTzState τ) (date_column : List Int) (d : TzDest)
    (input_rows_count : Nat) : TzDest :=
  let from_tz := convert_tz_state.from_tz
  let to_tz := convert_tz_state.to_tz
  if convert_tz_state.is_valid = false then
    tzRows (fun i d => d.push_null i) input_rows_count 0 d
  else
    tzRows (fun i d =>
      if d.result_null_map.getD i 0 ≠ 0 then d.insert_default
      else
        let ts_value := date_column.getD i 0
        match ops.unix_timestamp ts_value from_tz with
        | none => d.push_null i
        | some timestamp =>
          let ts_value2 := ops.from_unixtime timestamp to_tz
          if ops.is_valid_date ts_value2 = false then d.push_null i
          else { d with result_column := d.result_column ++ [ts_value2] })
      input_rows_count 0 d

/-- Function `execute_inner_loop` (lines 296-353). -/
def execute_inner_loop {τ υ : Type} (ops : TzOps τ υ) (date_column : List Int)
    (from_tz_name to_tz_name : String) (d : TzDest) (index_now : Nat) : TzDest :=
  let ts_value := date_column.getD index_now 0
  match ops.find_cctz_time_zone from_tz_name with
  | none =>
    { d with result_null_map := d.result_null_map.set index_now 1 }.insert_default
  | some from_tz =>
    match ops.find_cctz_time_zone to_tz_name with
    | none =>
      { d with result_null_map := d.result_null_map.set index_now 1 }.insert_default
    | some to_tz =>
      match ops.unix_timestamp ts_value from_tz with
      | none =>
        { d with result_null_map := d.result_null_map.set index_now 1 }.insert_default
      | some timestamp =>
        let ts_value2 := ops.from_unixtime timestamp to_tz
        if ops.is_valid_date ts_value2 = false then
          { d with result_null_map := d.result_null_map.set index_now 1 }.insert_default
        else { d with result_column := d.result_column ++ [ts_value2] }

/-- Function `execute_tz_const` (lines 281-294); `from_tz` and `to_tz` are the
strings at position 0 of the two constant columns. -/
def execute_tz_const {τ υ : Type} (ops : TzOps τ υ) (date_column : List Int)
    (from_tz to_tz : String) (d : TzDest) (input_rows_count : Nat) : TzDest :=
  tzRows (fun i d =>
    if d.result_null_map.getD i 0 ≠ 0 then d.insert_default
    else execute_inner_loop ops date_column from_tz to_tz d i) input_rows_count 0 d

/-- Time zone functions for examples: the zones are offsets in hours, a name is
known when it is `"UTC"` or `"+08:00"`, a value is a number of hours, and every
value but the negative ones is a valid date. -/
def sampleTzOps : TzOps Int Int :=
  { default_tz := 0,
    find_cctz_time_zone := fun name =>
      if name = "UTC" then some 0 else if name = "+08:00" then some 8 else none,
    unix_timestamp := fun v tz => if v < 0 then none else some (v - tz),
    from_unixtime := fun t tz => t + tz,
    is_valid_date := fun v => decide (0 ≤ v) }

/-! ## Theorems: `array_range` -/

theorem wrapInt32_of_range (x : Int) (h1 : -2147483648 ≤ x) (h2 : x ≤ 2147483647) :
    wrapInt32 x = x := by
  unfold wrapInt32; omega

/-- Whatever the loop does, it only appends. -/
theorem int32Loop_appends (e t : Int) : ∀ (fuel : Nat) (idx : Int) (s s1 : LoopState),
    int32Loop e t fuel idx s = some s1 →
    ∃ xs : List Int, s1.nested_column = s.nested_column ++ xs ∧
      s1.dest_nested_null_map = s.dest_nested_null_map ++ List.replicate xs.length 0 ∧
      s1.offset = s.offset + xs.length := by
  intro fuel
  induction fuel with
  | zero => intro idx s s1 h; simp [int32Loop] at h
  | succ f ih =>
    intro idx s s1 h
    unfold int32Loop at h
    split at h
    · obtain ⟨xs, h1, h2, h3⟩ := ih _ _ _ h
      refine ⟨idx :: xs, ?_, ?_, ?_⟩
      · simpa using h1
      · simp only [h2, List.length_cons, List.replicate_succ]; simp
      · simp only [h3, List.length_cons]; omega
    · simp only [Option.some.injEq] at h
      subst h
      exact ⟨[], by simp, by simp, by simp⟩

theorem progression_succ (start step : Int) (n : Nat) :
    progression start step (n + 1) = start :: progression (start + step) step n := by
  unfold progression
  rw [List.range_succ_eq_map]
  simp only [List.map_cons, List.map_map, Nat.cast_zero, zero_mul, add_zero, List.cons.injEq,
    true_and]
  apply List.map_congr_left
  intro k _
  simp only [Function.comp, Nat.succ_eq_add_one, Nat.cast_add, Nat.cast_one]
  ring

theorem progression_length (start step : Int) (n : Nat) :
    (progression start step n).length = n := by
  simp [progression]

/-- Without Int32 overflow the loop yields the progression, when it has the fuel. -/
theorem int32Loop_progression (e t : Int) (ht : 0 < t) : ∀ (n fuel : Nat) (idx : Int)
    (s : LoopState), -2147483648 ≤ idx → idx + (n : Int) * t ≤ 2147483647 →
    (∀ k : Nat, k < n → idx + (k : Int) * t < e) → e ≤ idx + (n : Int) * t →
    int32Loop e t fuel idx s =
      if n < fuel then
        some { nested_column := s.nested_column ++ progression idx t n,
               dest_nested_null_map := s.dest_nested_null_map ++ List.replicate n 0,
               offset := s.offset + n }
      else none := by
  intro n
  induction n with
  | zero =>
    intro fuel idx s _ _ _ hge
    cases fuel with
    | zero => simp [int32Loop]
    | succ f =>
      have : ¬ idx < e := by simpa using hge
      simp [int32Loop, this, progression]
  | succ m ih =>
    intro fuel idx s hlo hhi hlt hge
    cases fuel with
    | zero => simp [int32Loop]
    | succ f =>
      have h0 : idx < e := by simpa using hlt 0 (Nat.succ_pos m)
      have hm : (0 : Int) ≤ (m : Int) * t := mul_nonneg (Int.ofNat_nonneg m) (le_of_lt ht)
      have hexp : idx + ((m + 1 : Nat) : Int) * t = idx + t + (m : Int) * t := by
        push_cast; ring
      rw [hexp] at hhi hge
      have hw : wrapInt32 (idx + t) = idx + t := wrapInt32_of_range _ (by omega) (by omega)
      unfold int32Loop
      rw [if_pos h0, hw, ih f (idx + t) _ (by omega) hhi ?_ hge]
      · by_cases hf : m < f
        · have : m + 1 < f + 1 := by omega
          simp [hf, this, progression_succ, List.replicate_succ, Nat.add_assoc, Nat.add_comm 1 m]
        · have : ¬ m + 1 < f + 1 := by omega
          simp [hf, this]
      · intro k hk
        have := hlt (k + 1) (by omega)
        have hexp2 : idx + ((k + 1 : Nat) : Int) * t = idx + t + (k : Int) * t := by
          push_cast; ring
        rwa [hexp2] at this

theorem analyticLength_eq (s e t : Int) (hse : s < e) (ht : 0 < t) :
    analyticLength s e t = (e - s - 1) / t + 1 := by
  unfold analyticLength
  rw [Int.tdiv_eq_ediv (by omega) (le_of_lt ht)]

theorem rangeCount_spec (s e t : Int) (ht : 0 < t) (k : Nat) :
    k < rangeCount s e t ↔ s + (k : Int) * t < e := by
  unfold rangeCount
  by_cases hse : s < e
  · rw [if_pos hse, analyticLength_eq s e t hse ht]
    have hq : 0 ≤ (e - s - 1) / t := Int.ediv_nonneg (by omega) (le_of_lt ht)
    have hiff : (k : Int) ≤ (e - s - 1) / t ↔ (k : Int) * t ≤ e - s - 1 :=
      Int.le_ediv_iff_mul_le ht
    constructor
    · intro h
      have : (k : Int) ≤ (e - s - 1) / t := by omega
      have := hiff.mp this
      omega
    · intro h
      have : (k : Int) ≤ (e - s - 1) / t := hiff.mpr (by omega)
      omega
  · rw [if_neg hse]
    have hk : (0 : Int) ≤ (k : Int) * t := mul_nonneg (Int.ofNat_nonneg k) (le_of_lt ht)
    constructor
    · intro h; omega
    · intro h; omega

theorem rangeCount_le_iff (s e t : Int) (maxSize : Nat) (hse : s < e) (ht : 0 < t) :
    rangeCount s e t ≤ maxSize ↔ ¬ analyticLength s e t > (maxSize : Int) := by
  unfold rangeCount
  rw [if_pos hse]
  have h1 := analyticLength_eq s e t hse ht
  have hq : 0 ≤ (e - s - 1) / t := Int.ediv_nonneg (by omega) (le_of_lt ht)
  omega

theorem vectorInt32Row_null (maxSize fuel : Nat) (start end_ step : List Int) (row : Nat)
    (d : RangeDest)
    (h : d.args_null_map.getD row 0 ≠ 0 ∨
      int32NullRule (start.getD row 0) (end_.getD row 0) (step.getD row 0)) :
    vectorInt32Row maxSize fuel start end_ step row d = some (Except.ok (d.pushNull row)) := by
  unfold vectorInt32Row
  simp only []
  rw [if_pos (by simpa [int32NullRule] using h)]
  rfl

/-- A row that passes the null rule and the size check and does not overflow. -/
theorem vectorInt32Row_generates (maxSize fuel : Nat) (start end_ step : List Int) (row : Nat)
    (d : RangeDest) (hflag : d.args_null_map.getD row 0 = 0)
    (hs : 0 ≤ start.getD row 0) (he : 0 ≤ end_.getD row 0) (ht : 0 < step.getD row 0)
    (hsize : rangeCount (start.getD row 0) (end_.getD row 0) (step.getD row 0) ≤ maxSize)
    (hov : start.getD row 0 +
      (rangeCount (start.getD row 0) (end_.getD row 0) (step.getD row 0) : Int) *
        step.getD row 0 ≤ 2147483647) :
    vectorInt32Row maxSize fuel start end_ step row d =
      if rangeCount (start.getD row 0) (end_.getD row 0) (step.getD row 0) < fuel then
        some (Except.ok (d.pushRow (progression (start.getD row 0) (step.getD row 0)
          (rangeCount (start.getD row 0) (end_.getD row 0) (step.getD row 0)))))
      else none := by
  unfold vectorInt32Row
  simp only []
  generalize start.getD row 0 = s at *
  generalize end_.getD row 0 = e at *
  generalize step.getD row 0 = t at *
  rw [if_neg (by rw [hflag]; simp; omega)]
  have hchk : ¬ (s < e ∧ t > 0 ∧ analyticLength s e t > (maxSize : Int)) := by
    rintro ⟨h1, _, h3⟩
    exact (rangeCount_le_iff s e t maxSize h1 ht).mp hsize h3
  rw [if_neg hchk]
  rw [int32Loop_progression e t ht (rangeCount s e t) fuel s _ (by omega) hov
    (fun k hk => (rangeCount_spec s e t ht k).mp hk)
    (by
      have := (rangeCount_spec s e t ht (rangeCount s e t)).not.mp (lt_irrefl _)
      omega)]
  by_cases hf : rangeCount s e t < fuel
  · simp [hf, RangeDest.pushRow, progression_length]
  · simp [hf]

/-- Every successful row body is one of the two pushes. -/
theorem vectorInt32Row_shape (maxSize fuel : Nat) (start end_ step : List Int) (row : Nat)
    (d d1 : RangeDest)
    (h : vectorInt32Row maxSize fuel start end_ step row d = some (Except.ok d1)) :
    ((d.args_null_map.getD row 0 ≠ 0 ∨
        int32NullRule (start.getD row 0) (end_.getD row 0) (step.getD row 0)) ∧
      d1 = d.pushNull row) ∨
    ((d.args_null_map.getD row 0 = 0 ∧
        ¬ int32NullRule (start.getD row 0) (end_.getD row 0) (step.getD row 0)) ∧
      ∃ xs, d1 = d.pushRow xs) := by
  by_cases hn : d.args_null_map.getD row 0 ≠ 0 ∨
      int32NullRule (start.getD row 0) (end_.getD row 0) (step.getD row 0)
  · left
    rw [vectorInt32Row_null maxSize fuel start end_ step row d hn] at h
    simp only [Option.some.injEq, Except.ok.injEq] at h
    exact ⟨hn, h.symm⟩
  · right
    have hn1 : d.args_null_map.getD row 0 = 0 ∧
        ¬ int32NullRule (start.getD row 0) (end_.getD row 0) (step.getD row 0) := by
      push_neg at hn; exact hn
    refine ⟨hn1, ?_⟩
    unfold vectorInt32Row at h
    simp only [] at h
    rw [if_neg (by simpa [int32NullRule] using hn)] at h
    split at h
    · simp at h
    · split at h
      · simp at h
      · rename_i s hs
        obtain ⟨xs, h1, h2, h3⟩ := int32Loop_appends _ _ _ _ _ _ hs
        simp only [Option.some.injEq, Except.ok.injEq] at h
        refine ⟨xs, ?_⟩
        rw [← h]
        simp only [RangeDest.pushRow, h1, h2, h3]

theorem offsetsBack_concat (l : List Nat) (o : Nat) : offsetsBack (l ++ [o]) = o := by
  simp [offsetsBack]

theorem offsetBefore_append (l l1 : List Nat) (row : Nat) (h : row ≤ l.length) :
    offsetBefore (l ++ l1) row = offsetBefore l row := by
  cases row with
  | zero => rfl
  | succ r => exact List.getD_append l l1 0 r (by omega)

theorem offsetBefore_length (l : List Nat) : offsetBefore l l.length = offsetsBack l := by
  cases hl : l.length with
  | zero =>
    have : l = [] := List.length_eq_zero.mp hl
    subst this; rfl
  | succ r =>
    simp only [offsetBefore, offsetsBack, List.getD_eq_getElem?_getD,
      List.getLast?_eq_getElem?, hl, Nat.add_sub_cancel]

theorem getD_concat_length (l : List Nat) (o : Nat) : (l ++ [o]).getD l.length 0 = o := by
  simp [List.getD_eq_getElem?_getD]

theorem rowSegment_append_old {α : Type} (nested xs : List α) (offsets l1 : List Nat)
    (i : Nat) (hi : i < offsets.length) (hle : ∀ o ∈ offsets, o ≤ nested.length) :
    rowSegment (nested ++ xs) (offsets ++ l1) i = rowSegment nested offsets i := by
  unfold rowSegment
  rw [offsetBefore_append offsets l1 i (by omega), List.getD_append offsets l1 0 i hi]
  have h1 : offsets.getD i 0 ≤ nested.length := by
    apply hle
    rw [List.getD_eq_getElem?_getD, List.getElem?_eq_getElem hi]
    simp
  by_cases hb : offsetBefore offsets i ≤ nested.length
  · rw [List.drop_append_of_le_length hb, List.take_append_of_le_length]
    rw [List.length_drop]; omega
  · have h0 : offsets.getD i 0 - offsetBefore offsets i = 0 := by omega
    rw [h0]; simp

theorem rowSegment_append_new {α : Type} (nested xs : List α) (offsets : List Nat)
    (hback : offsetsBack offsets = nested.length) :
    rowSegment (nested ++ xs) (offsets ++ [offsetsBack offsets + xs.length]) offsets.length
      = xs := by
  unfold rowSegment
  rw [offsetBefore_append offsets _ _ (le_refl _), offsetBefore_length, getD_concat_length,
    hback]
  simp

theorem rangeShape_pushNull {d : RangeDest} (h : RangeShape d) (row : Nat) :
    RangeShape (d.pushNull row) := by
  refine ⟨?_, ?_, ?_, ?_⟩
  · intro o ho
    simp only [RangeDest.pushNull, List.mem_append, List.mem_singleton] at ho
    rcases ho with ho | ho
    · exact h.offsets_le o ho
    · simp only [RangeDest.pushNull, ho, h.back_eq, le_refl]
  · simp only [RangeDest.pushNull, offsetsBack_concat, h.back_eq]
  · simp only [RangeDest.pushNull, List.pairwise_append, h.sorted, List.pairwise_singleton,
      List.mem_singleton, true_and]
    intro a ha b hb
    rw [hb, h.back_eq]
    exact h.offsets_le a ha
  · exact h.nulls

theorem rangeShape_pushRow {d : RangeDest} (h : RangeShape d) (xs : List Int) :
    RangeShape (d.pushRow xs) := by
  refine ⟨?_, ?_, ?_, ?_⟩
  · intro o ho
    simp only [RangeDest.pushRow, List.mem_append, List.mem_singleton] at ho
    simp only [RangeDest.pushRow, List.length_append]
    rcases ho with ho | ho
    · have := h.offsets_le o ho; omega
    · rw [ho, h.back_eq]
  · simp only [RangeDest.pushRow, offsetsBack_concat, h.back_eq, List.length_append]
  · simp only [RangeDest.pushRow, List.pairwise_append, h.sorted, List.pairwise_singleton,
      List.mem_singleton, true_and]
    intro a ha b hb
    rw [hb, h.back_eq]
    have := h.offsets_le a ha; omega
  · simp only [RangeDest.pushRow, h.nulls, List.length_append, List.replicate_add]

theorem rangeBase_pushNull {row : Nat} {d : RangeDest} (h : RangeBase row d) :
    RangeBase (row + 1) (d.pushNull row) := by
  refine ⟨?_, rangeShape_pushNull h.shape row, ?_⟩
  · simp [RangeDest.pushNull, h.rows_done]
  · intro j hj
    have := h.pending j (by omega)
    simp only [RangeDest.pushNull, List.getD_eq_getElem?_getD] at this ⊢
    rw [List.getElem?_set_ne (by omega)]
    exact this

theorem rangeBase_pushRow {row : Nat} {d : RangeDest} (h : RangeBase row d) (xs : List Int) :
    RangeBase (row + 1) (d.pushRow xs) := by
  refine ⟨?_, rangeShape_pushRow h.shape xs, ?_⟩
  · simp [RangeDest.pushRow, h.rows_done]
  · intro j hj
    exact h.pending j (by omega)

theorem rangeBase_init (n : Nat) : RangeBase 0 (RangeDest.init n) := by
  refine ⟨rfl, ⟨?_, rfl, ?_, rfl⟩, ?_⟩
  · intro o ho; simp [RangeDest.init] at ho
  · simp [RangeDest.init]
  · intro j _
    simp only [RangeDest.init, List.getD_eq_getElem?_getD]
    by_cases hj : j < n
    · simp [List.getElem?_replicate, hj]
    · simp [List.getElem?_replicate, hj]

theorem view_pushNull_old {row : Nat} {d : RangeDest} (h : RangeBase row d) (i : Nat)
    (hi : i < row) : (d.pushNull row).view i = d.view i := by
  have hlen := h.rows_done
  simp only [RangeDest.view, RangeDest.pushNull, RowView.mk.injEq]
  refine ⟨?_, offsetBefore_append _ _ _ (by omega), List.getD_append _ _ _ _ (by omega), ?_⟩
  · simp only [List.getD_eq_getElem?_getD]
    rw [List.getElem?_set_ne (by omega)]
  · have := rowSegment_append_old d.nested_column [] d.dest_offsets
      [offsetsBack d.dest_offsets] i (by omega) h.shape.offsets_le
    simpa using this

theorem view_pushRow_old {row : Nat} {d : RangeDest} (h : RangeBase row d) (xs : List Int)
    (i : Nat) (hi : i < row) : (d.pushRow xs).view i = d.view i := by
  have hlen := h.rows_done
  simp only [RangeDest.view, RangeDest.pushRow, RowView.mk.injEq]
  exact ⟨trivial, offsetBefore_append _ _ _ (by omega), List.getD_append _ _ _ _ (by omega),
    rowSegment_append_old _ _ _ _ i (by omega) h.shape.offsets_le⟩

/-- The frame rule of the row loop: a successful run keeps the base invariant,
and for every row it ran there is the state the body started from, the state
it produced, and the final result shows that row as the body left it. -/
theorem forRows_frame (body : Nat → RangeDest → Option (Except Status RangeDest))
    (hbody : PushBody body) : ∀ (n row : Nat) (d dN : RangeDest), RangeBase row d →
    forRows body n row d = some (Except.ok dN) →
    RangeBase (row + n) dN ∧
    (∀ i, i < row → dN.view i = d.view i) ∧
    ∀ i, row ≤ i → i < row + n → ∃ di di1, RangeBase i di ∧
      di.args_null_map.length = d.args_null_map.length ∧
      body i di = some (Except.ok di1) ∧ dN.view i = di1.view i := by
  intro n
  induction n with
  | zero =>
    intro row d dN hb h
    simp only [forRows, Option.some.injEq, Except.ok.injEq] at h
    subst h
    exact ⟨hb, fun _ _ => rfl, fun i h1 h2 => absurd h2 (by omega)⟩
  | succ m ih =>
    intro row d dN hb h
    unfold forRows at h
    split at h
    · simp at h
    · simp at h
    · rename_i d1 hrow
      have hb1 : RangeBase (row + 1) d1 := by
        rcases hbody row d d1 hrow with h1 | ⟨xs, h1⟩
        · rw [h1]; exact rangeBase_pushNull hb
        · rw [h1]; exact rangeBase_pushRow hb xs
      have hold : ∀ i, i < row → d1.view i = d.view i := by
        intro i hi
        rcases hbody row d d1 hrow with h1 | ⟨xs, h1⟩
        · rw [h1]; exact view_pushNull_old hb i hi
        · rw [h1]; exact view_pushRow_old hb xs i hi
      obtain ⟨hN, hpast, hrest⟩ := ih (row + 1) d1 dN hb1 h
      refine ⟨by rw [Nat.add_succ, ← Nat.succ_add]; exact hN, ?_, ?_⟩
      · intro i hi
        rw [hpast i (by omega), hold i hi]
      · intro i h1 h2
        by_cases hi : i = row
        · subst hi
          exact ⟨d, d1, hb, rfl, hrow, hpast i (by omega)⟩
        · obtain ⟨di, di1, h3, h4, h5⟩ := hrest i (by omega) (by omega)
          refine ⟨di, di1, h3, ?_, h5⟩
          rw [h4]
          rcases hbody row d d1 hrow with h1 | ⟨xs, h1⟩
          · rw [h1]; simp [RangeDest.pushNull]
          · rw [h1]; rfl

theorem view_pushNull_new {row : Nat} {d : RangeDest} (h : RangeBase row d)
    (hrow : row < d.args_null_map.length) :
    (d.pushNull row).view row =
      { flag := 1, before := offsetsBack d.dest_offsets,
        offset := offsetsBack d.dest_offsets, segment := [] } := by
  have hlen := h.rows_done
  subst hlen
  simp only [RangeDest.view, RangeDest.pushNull, RowView.mk.injEq]
  refine ⟨?_, ?_, getD_concat_length _ _, ?_⟩
  · simp [List.getD_eq_getElem?_getD, List.getElem?_set_self, hrow]
  · rw [offsetBefore_append _ _ _ (le_refl _), offsetBefore_length]
  · have := rowSegment_append_new d.nested_column [] d.dest_offsets h.shape.back_eq
    simpa using this

theorem view_pushRow_new {row : Nat} {d : RangeDest} (h : RangeBase row d) (xs : List Int) :
    (d.pushRow xs).view row =
      { flag := 0, before := offsetsBack d.dest_offsets,
        offset := offsetsBack d.dest_offsets + xs.length, segment := xs } := by
  have hlen := h.rows_done
  subst hlen
  simp only [RangeDest.view, RangeDest.pushRow, RowView.mk.injEq]
  refine ⟨h.pending _ (le_refl _), ?_, getD_concat_length _ _, ?_⟩
  · rw [offsetBefore_append _ _ _ (le_refl _), offsetBefore_length]
  · exact rowSegment_append_new d.nested_column xs d.dest_offsets h.shape.back_eq

theorem vectorInt32Row_pushBody (maxSize fuel : Nat) (start end_ step : List Int) :
    PushBody (vectorInt32Row maxSize fuel start end_ step) := by
  intro row d d1 h
  rcases vectorInt32Row_shape maxSize fuel start end_ step row d d1 h with
    ⟨_, h1⟩ | ⟨_, h1⟩
  · exact Or.inl h1
  · exact Or.inr h1

/-- The temporal loop only appends, when it ends without the size error. -/
theorem dateTimeLoop_appends (ops : TimeOps) (maxSize : Nat) (e t : Int) :
    ∀ (fuel : Nat) (idx : Int) (move : Nat) (s s1 : LoopState),
    dateTimeLoop ops maxSize e t fuel idx move s = some (Except.ok s1) →
    ∃ xs : List Int, s1.nested_column = s.nested_column ++ xs ∧
      s1.dest_nested_null_map = s.dest_nested_null_map ++ List.replicate xs.length 0 ∧
      s1.offset = s.offset + xs.length := by
  intro fuel
  induction fuel with
  | zero => intro idx move s s1 h; simp [dateTimeLoop] at h
  | succ f ih =>
    intro idx move s s1 h
    unfold dateTimeLoop at h
    split at h
    · split at h
      · simp at h
      · obtain ⟨xs, h1, h2, h3⟩ := ih _ _ _ _ h
        refine ⟨idx :: xs, ?_, ?_, ?_⟩
        · simpa using h1
        · simp only [h2, List.length_cons, List.replicate_succ]; simp
        · simp only [h3, List.length_cons]; omega
    · simp only [Option.some.injEq, Except.ok.injEq] at h
      subst h
      exact ⟨[], by simp, by simp, by simp⟩

theorem vectorDateTimeRow_pushBody (ops : TimeOps) (maxSize fuel : Nat)
    (start end_ step : List Int) :
    PushBody (vectorDateTimeRow ops maxSize fuel start end_ step) := by
  intro row d d1 h
  unfold vectorDateTimeRow at h
  simp only [] at h
  split at h
  · simp only [Option.some.injEq, Except.ok.injEq] at h
    exact Or.inl h.symm
  · split at h
    · simp at h
    · simp at h
    · rename_i s hs
      obtain ⟨xs, h1, h2, h3⟩ := dateTimeLoop_appends _ _ _ _ _ _ _ _ _ hs
      simp only [Option.some.injEq, Except.ok.injEq] at h
      refine Or.inr ⟨xs, ?_⟩
      rw [← h]
      simp only [RangeDest.pushRow, h1, h2, h3]

/-- A valid row with `start >= end`: the loop body never runs. -/
theorem vectorInt32Row_empty (maxSize fuel : Nat) (start end_ step : List Int) (row : Nat)
    (d : RangeDest) (hflag : d.args_null_map.getD row 0 = 0)
    (hs : 0 ≤ start.getD row 0) (he : 0 ≤ end_.getD row 0) (ht : 0 < step.getD row 0)
    (hge : end_.getD row 0 ≤ start.getD row 0) :
    vectorInt32Row maxSize (fuel + 1) start end_ step row d =
      some (Except.ok (d.pushRow [])) := by
  unfold vectorInt32Row
  simp only []
  generalize start.getD row 0 = s at *
  generalize end_.getD row 0 = e at *
  generalize step.getD row 0 = t at *
  rw [if_neg (by rw [hflag]; simp; omega), if_neg (by omega)]
  unfold int32Loop
  rw [if_neg (by omega)]
  simp [RangeDest.pushRow]

/-- Every row of a successful run from the initial destination is shown either
as a null row of length zero or as a non-null row holding some elements. -/
theorem forRows_row_cases (body : Nat → RangeDest → Option (Except Status RangeDest))
    (hbody : PushBody body) (n : Nat) (dN : RangeDest)
    (h : forRows body n 0 (RangeDest.init n) = some (Except.ok dN)) :
    dN.dest_offsets.length = n ∧
    ∀ i, i < n → ∃ di di1, RangeBase i di ∧ body i di = some (Except.ok di1) ∧
      ((di1 = di.pushNull i ∧ dN.view i =
          { flag := 1, before := offsetsBack di.dest_offsets,
            offset := offsetsBack di.dest_offsets, segment := [] }) ∨
       (∃ xs, di1 = di.pushRow xs ∧ dN.view i =
          { flag := 0, before := offsetsBack di.dest_offsets,
            offset := offsetsBack di.dest_offsets + xs.length, segment := xs })) := by
  obtain ⟨hN, _, hrows⟩ := forRows_frame body hbody n 0 (RangeDest.init n) dN
    (rangeBase_init n) h
  refine ⟨by simpa using hN.rows_done, ?_⟩
  intro i hi
  obtain ⟨di, di1, hb, hlen, hrun, hview⟩ := hrows i (Nat.zero_le i) (by omega)
  have hlen1 : i < di.args_null_map.length := by
    rw [hlen]; simpa [RangeDest.init] using hi
  refine ⟨di, di1, hb, hrun, ?_⟩
  rcases hbody i di di1 hrun with h1 | ⟨xs, h1⟩
  · left
    refine ⟨h1, ?_⟩
    rw [hview, h1]
    exact view_pushNull_new hb hlen1
  · right
    refine ⟨xs, h1, ?_⟩
    rw [hview, h1]
    exact view_pushRow_new hb xs

/-- The loop of the row `(0, 2147483647, 1073741824)` cycles through four values
of `idx`, all of them below `end`. -/
theorem int32Loop_overflow_cycle : ∀ (fuel : Nat) (idx : Int) (s : LoopState),
    idx = 0 ∨ idx = 1073741824 ∨ idx = -2147483648 ∨ idx = -1073741824 →
    int32Loop 2147483647 1073741824 fuel idx s = none := by
  intro fuel
  induction fuel with
  | zero => intro idx s _; rfl
  | succ f ih =>
    intro idx s h
    unfold int32Loop
    have hlt : idx < 2147483647 := by omega
    rw [if_pos hlt]
    apply ih
    unfold wrapInt32
    omega

theorem vectorInt32Row_overflow (m fuel : Nat) (start end_ step : List Int) (row : Nat)
    (d : RangeDest) (hflag : d.args_null_map.getD row 0 = 0)
    (hs : start.getD row 0 = 0) (he : end_.getD row 0 = 2147483647)
    (ht : step.getD row 0 = 1073741824) :
    vectorInt32Row (m + 2) fuel start end_ step row d = none := by
  unfold vectorInt32Row
  simp only []
  rw [hs, he, ht, if_neg (by rw [hflag]; simp)]
  have h2 : analyticLength 0 2147483647 1073741824 = 2 := by decide
  rw [if_neg (by rw [h2]; push_cast; omega)]
  rw [int32Loop_overflow_cycle fuel 0 _ (Or.inl rfl)]

/-- C1, amended.  Integer domain, row `row` with `start >= 0`, `end >= 0`,
`step > 0`, whose analytic length is at most `max_array_size_as_field` and whose
running value stays in the Int32 range (`start + length * step <= 2147483647`).
(1) `rangeCount` is the number of terms below `end`: the `k`-th term
`start + k * step` is below `end` exactly when `k < rangeCount`.  (2) On any
destination in which the row is not yet null, and with more fuel than
`max_array_size_as_field`, the loop body returns and appends exactly the
progression `start, start + step, ...` of `rangeCount` terms, in that order.
(3) In the result of every successful call the row is not null and its segment of
the nested data is exactly that progression. -/
theorem array_range_int32_progression (maxSize fuel : Nat) (start end_ step : List Int)
    (row : Nat) (hrow : row < start.length)
    (hs : 0 ≤ start.getD row 0) (he : 0 ≤ end_.getD row 0) (ht : 0 < step.getD row 0)
    (hsize : rangeCount (start.getD row 0) (end_.getD row 0) (step.getD row 0) ≤ maxSize)
    (hov : start.getD row 0 +
      (rangeCount (start.getD row 0) (end_.getD row 0) (step.getD row 0) : Int) *
        step.getD row 0 ≤ 2147483647) :
    (∀ k : Nat, k < rangeCount (start.getD row 0) (end_.getD row 0) (step.getD row 0) ↔
      start.getD row 0 + (k : Int) * step.getD row 0 < end_.getD row 0) ∧
    (∀ d : RangeDest, d.args_null_map.getD row 0 = 0 → maxSize < fuel →
      vectorInt32Row maxSize fuel start end_ step row d =
        some (Except.ok (d.pushRow (progression (start.getD row 0) (step.getD row 0)
          (rangeCount (start.getD row 0) (end_.getD row 0) (step.getD row 0)))))) ∧
    (∀ dN : RangeDest,
      vectorInt32 maxSize fuel start end_ step (RangeDest.init start.length) =
        some (Except.ok dN) →
      dN.args_null_map.getD row 0 = 0 ∧
      rowSegment dN.nested_column dN.dest_offsets row =
        progression (start.getD row 0) (step.getD row 0)
          (rangeCount (start.getD row 0) (end_.getD row 0) (step.getD row 0))) := by
  refine ⟨fun k => rangeCount_spec _ _ _ ht k, ?_, ?_⟩
  · intro d hflag hfuel
    rw [vectorInt32Row_generates maxSize fuel start end_ step row d hflag hs he ht hsize hov,
      if_pos (by omega)]
  · intro dN h
    obtain ⟨_, _, hframe⟩ := forRows_frame _
      (vectorInt32Row_pushBody maxSize fuel start end_ step) start.length 0
      (RangeDest.init start.length) dN (rangeBase_init _) h
    obtain ⟨dj, dj1, hbj, _, hrunj, hview⟩ := hframe row (Nat.zero_le _) (by omega)
    have hflagj : dj.args_null_map.getD row 0 = 0 := hbj.pending row (le_refl _)
    rw [vectorInt32Row_generates maxSize fuel start end_ step row dj hflagj hs he ht hsize
      hov] at hrunj
    by_cases hf : rangeCount (start.getD row 0) (end_.getD row 0) (step.getD row 0) < fuel
    · rw [if_pos hf] at hrunj
      have e1 := Except.ok.inj (Option.some.inj hrunj)
      rw [← e1, view_pushRow_new hbj] at hview
      exact ⟨congrArg RowView.flag hview, congrArg RowView.segment hview⟩
    · rw [if_neg hf] at hrunj
      exact absurd hrunj (by simp)

/-- C1, counterexample.  Two rows with `start >= 0`, `end >= 0`, `step > 0` for
which no progression is generated: for the row `(0, max + 1, 1)` the call returns
the size-limit error, and for the row `(0, 2147483647, 1073741824)`, whose
analytic length is 2, the sum `idx + step` leaves the Int32 range and the loop
does not end, whatever the fuel. -/
theorem array_range_int32_progression_counterexample :
    (∀ maxSize fuel : Nat,
      vectorInt32 maxSize fuel [0] [(maxSize : Int) + 1] [1] (RangeDest.init 1) =
        some (Except.error (Status.InvalidArgument maxSize))) ∧
    (∀ m fuel : Nat,
      vectorInt32 (m + 2) fuel [0] [2147483647] [1073741824] (RangeDest.init 1) = none) := by
  constructor
  · intro maxSize fuel
    have h1 : analyticLength 0 ((maxSize : Int) + 1) 1 = (maxSize : Int) + 1 := by
      simp [analyticLength]
    have hlt : (0 : Int) < (maxSize : Int) + 1 := by omega
    have hge : ¬ ((maxSize : Int) + 1 < 0) := by omega
    simp [vectorInt32, forRows, vectorInt32Row, RangeDest.init, h1, hlt, hge]
  · intro m fuel
    simp only [vectorInt32, List.length_singleton, forRows]
    rw [vectorInt32Row_overflow m fuel [0] [2147483647] [1073741824] 0 (RangeDest.init 1)
      rfl rfl rfl rfl]

/-- Witness of C1 (amended): `sequence(1, 10, 2) = [1,3,5,7,9]`. -/
theorem array_range_int32_progression_witness :
    progression 1 2 (rangeCount 1 10 2) = [1, 3, 5, 7, 9] ∧
    rowSegment [1, 3, 5, 7, 9] [5] 0 = progression 1 2 (rangeCount 1 10 2) :=
  ⟨by decide,
   ((array_range_int32_progression 1000000 10 [1] [10] [2] 0 (by decide) (by decide)
      (by decide) (by decide) (by decide) (by decide)).2.2
      { args_null_map := [0], nested_column := [1, 3, 5, 7, 9],
        dest_nested_null_map := [0, 0, 0, 0, 0], dest_offsets := [5] } (by decide)).2⟩

/-- C5, counterexample.  The row `sequence(5, 1, 1)` is not marked null: the
null map stays 0 and the row is an empty array (offset 0, no element). -/
theorem array_range_int32_start_ge_end_counterexample :
    vectorInt32 1000000 1 [5] [1] [1] (RangeDest.init 1) =
      some (Except.ok { args_null_map := [0], nested_column := [],
                        dest_nested_null_map := [], dest_offsets := [0] }) := by
  decide

/-- C5, amended.  Integer domain, row `row` with `start >= end`, `start >= 0`,
`end >= 0` and `step > 0`: the loop body returns at once and pushes an empty
non-null row, and in the result of every successful call the row is not marked
null (its entry in the row-level null mask is 0) and it is a zero-length
segment. -/
theorem array_range_int32_start_ge_end (maxSize fuel : Nat) (start end_ step : List Int)
    (row : Nat) (hrow : row < start.length)
    (hs : 0 ≤ start.getD row 0) (he : 0 ≤ end_.getD row 0) (ht : 0 < step.getD row 0)
    (hge : end_.getD row 0 ≤ start.getD row 0) :
    (∀ d : RangeDest, d.args_null_map.getD row 0 = 0 →
      vectorInt32Row maxSize (fuel + 1) start end_ step row d =
        some (Except.ok { d with
          dest_offsets := d.dest_offsets ++ [offsetsBack d.dest_offsets] })) ∧
    (∀ dN : RangeDest,
      vectorInt32 maxSize (fuel + 1) start end_ step (RangeDest.init start.length) =
        some (Except.ok dN) →
      dN.args_null_map.getD row 0 = 0 ∧
      dN.dest_offsets.getD row 0 = offsetBefore dN.dest_offsets row ∧
      rowSegment dN.nested_column dN.dest_offsets row = []) := by
  constructor
  · intro d hflag
    rw [vectorInt32Row_empty maxSize fuel start end_ step row d hflag hs he ht hge]
    simp [RangeDest.pushRow]
  · intro dN h
    obtain ⟨_, _, hframe⟩ := forRows_frame _
      (vectorInt32Row_pushBody maxSize (fuel + 1) start end_ step) start.length 0
      (RangeDest.init start.length) dN (rangeBase_init _) h
    obtain ⟨dj, dj1, hbj, _, hrunj, hview⟩ := hframe row (Nat.zero_le _) (by omega)
    have hflagj : dj.args_null_map.getD row 0 = 0 := hbj.pending row (le_refl _)
    rw [vectorInt32Row_empty maxSize fuel start end_ step row dj hflagj hs he ht hge] at hrunj
    have e1 := Except.ok.inj (Option.some.inj hrunj)
    rw [← e1, view_pushRow_new hbj] at hview
    refine ⟨congrArg RowView.flag hview, ?_, congrArg RowView.segment hview⟩
    have h1 := congrArg RowView.offset hview
    have h2 := congrArg RowView.before hview
    simp only [RangeDest.view, List.length_nil, Nat.add_zero] at h1 h2
    rw [h1, h2]

/-- Witness of C5 (amended): `sequence(5, 1, 1)`. -/
theorem array_range_int32_start_ge_end_witness :
    (([0] : List Nat).getD 0 0 = 0 ∧ ([0] : List Nat).getD 0 0 = offsetBefore [0] 0 ∧
      rowSegment ([] : List Int) [0] 0 = []) :=
  (array_range_int32_start_ge_end 1000000 0 [5] [1] [1] 0 (by decide) (by decide)
    (by decide) (by decide) (by decide)).2
    { args_null_map := [0], nested_column := [], dest_nested_null_map := [],
      dest_offsets := [0] } (by decide)

/-- C6.  Integer domain, row `row` with `start < 0`, or `end < 0`, or
`step <= 0`.  (1) On every destination the loop body returns without error, sets
the row's entry of the row-level null mask to 1, repeats the previous offset and
leaves the nested data and its null map as they are.  (2) The loop goes on with
the remaining rows.  (3) In the result of every successful call the row is
marked null and is a zero-length segment. -/
theorem array_range_int32_null_rule (maxSize fuel : Nat) (start end_ step : List Int)
    (row : Nat) (hrow : row < start.length)
    (hrule : start.getD row 0 < 0 ∨ end_.getD row 0 < 0 ∨ step.getD row 0 ≤ 0) :
    (∀ d : RangeDest,
      vectorInt32Row maxSize fuel start end_ step row d =
        some (Except.ok { args_null_map := d.args_null_map.set row 1,
                          nested_column := d.nested_column,
                          dest_nested_null_map := d.dest_nested_null_map,
                          dest_offsets := d.dest_offsets ++ [offsetsBack d.dest_offsets] })) ∧
    (∀ (n : Nat) (d : RangeDest),
      forRows (vectorInt32Row maxSize fuel start end_ step) (n + 1) row d =
        forRows (vectorInt32Row maxSize fuel start end_ step) n (row + 1)
          (d.pushNull row)) ∧
    (∀ dN : RangeDest,
      vectorInt32 maxSize fuel start end_ step (RangeDest.init start.length) =
        some (Except.ok dN) →
      dN.args_null_map.getD row 0 = 1 ∧
      dN.dest_offsets.getD row 0 = offsetBefore dN.dest_offsets row ∧
      rowSegment dN.nested_column dN.dest_offsets row = []) := by
  have hbody : ∀ d : RangeDest, vectorInt32Row maxSize fuel start end_ step row d =
      some (Except.ok (d.pushNull row)) :=
    fun d => vectorInt32Row_null maxSize fuel start end_ step row d (Or.inr hrule)
  refine ⟨fun d => hbody d, ?_, ?_⟩
  · intro n d
    conv => lhs; unfold forRows
    rw [hbody d]
  · intro dN h
    obtain ⟨_, _, hframe⟩ := forRows_frame _
      (vectorInt32Row_pushBody maxSize fuel start end_ step) start.length 0
      (RangeDest.init start.length) dN (rangeBase_init _) h
    obtain ⟨dj, dj1, hbj, hlen, hrunj, hview⟩ := hframe row (Nat.zero_le _) (by omega)
    rw [hbody dj] at hrunj
    have e1 := Except.ok.inj (Option.some.inj hrunj)
    have hlen1 : row < dj.args_null_map.length := by
      rw [hlen]; simpa [RangeDest.init] using hrow
    rw [← e1, view_pushNull_new hbj hlen1] at hview
    refine ⟨congrArg RowView.flag hview, ?_, congrArg RowView.segment hview⟩
    have h1 := congrArg RowView.offset hview
    have h2 := congrArg RowView.before hview
    simp only [RangeDest.view] at h1 h2
    rw [h1, h2]

/-- Witness of C6: the call on the rows `(1, 10, 2)` and `(3, 4, -1)`; the
second row has a negative step. -/
theorem array_range_int32_null_rule_witness :
    (([0, 1] : List Nat).getD 1 0 = 1 ∧ ([5, 5] : List Nat).getD 1 0 = offsetBefore [5, 5] 1 ∧
      rowSegment ([1, 3, 5, 7, 9] : List Int) [5, 5] 1 = []) :=
  (array_range_int32_null_rule 1000000 10 [1, 3] [10, 4] [2, -1] 1 (by decide)
    (by decide)).2.2
    { args_null_map := [0, 1], nested_column := [1, 3, 5, 7, 9],
      dest_nested_null_map := [0, 0, 0, 0, 0], dest_offsets := [5, 5] } (by decide)

/-- C8, the failing input.  For `start = 0`, `end = 2147483647`,
`step = 1073741824` the analytic length is 2, which passes the size check for
every maximum of at least 2, but the third value of `idx` is
`wrapInt32 2147483648 = -2147483648 < end`: the loop goes on and never returns,
so it materializes more than 2 elements. -/
theorem array_range_int32_count_overflow :
    analyticLength 0 2147483647 1073741824 = 2 ∧
    wrapInt32 (1073741824 + 1073741824) = -2147483648 ∧
    (∀ (fuel : Nat) (s : LoopState), int32Loop 2147483647 1073741824 fuel 0 s = none) ∧
    (∀ m fuel : Nat,
      vectorInt32Row (m + 2) fuel [0] [2147483647] [1073741824] 0 (RangeDest.init 1) =
        none) :=
  ⟨by decide, by decide, fun fuel s => int32Loop_overflow_cycle fuel 0 s (Or.inl rfl),
   fun m fuel => vectorInt32Row_overflow m fuel [0] [2147483647] [1073741824] 0
     (RangeDest.init 1) rfl rfl rfl rfl⟩

/-- C10.  In both domains, for every successful call of `vector` on the
destination `range_execute` creates for `n = start.size()` rows, the offsets have
exactly `n` entries, and every row marked null in the row-level null mask has
its offset equal to the previous offset (`offsets[i] = offsets[i-1]`, with
`offsets[-1] = 0`). -/
theorem array_range_offsets_length (dom : Domain) (maxSize fuel : Nat)
    (start end_ step : List Int) (dN : RangeDest)
    (h : vector dom maxSize fuel start end_ step (RangeDest.init start.length) =
      some (Except.ok dN)) :
    dN.dest_offsets.length = start.length ∧
    ∀ i, i < start.length → dN.args_null_map.getD i 0 ≠ 0 →
      dN.dest_offsets.getD i 0 = offsetBefore dN.dest_offsets i := by
  have key : ∀ body, PushBody body →
      forRows body start.length 0 (RangeDest.init start.length) = some (Except.ok dN) →
      dN.dest_offsets.length = start.length ∧
      ∀ i, i < start.length → dN.args_null_map.getD i 0 ≠ 0 →
        dN.dest_offsets.getD i 0 = offsetBefore dN.dest_offsets i := by
    intro body hbody hrun
    obtain ⟨hlen, hrows⟩ := forRows_row_cases body hbody start.length dN hrun
    refine ⟨hlen, ?_⟩
    intro i hi hflag
    obtain ⟨di, di1, _, _, hcase⟩ := hrows i hi
    rcases hcase with ⟨_, hview⟩ | ⟨xs, _, hview⟩
    · have h1 := congrArg RowView.offset hview
      have h2 := congrArg RowView.before hview
      simp only [RangeDest.view] at h1 h2
      rw [h1, h2]
    · have h1 := congrArg RowView.flag hview
      simp only [RangeDest.view] at h1
      exact absurd h1 hflag
  cases dom with
  | int32 => exact key _ (vectorInt32Row_pushBody maxSize fuel start end_ step) h
  | dateTimeV2 ops => exact key _ (vectorDateTimeRow_pushBody ops maxSize fuel start end_ step) h

/-- Witness of C10: the integer call on the rows `(1, 10, 2)` and `(3, 4, -1)`. -/
theorem array_range_offsets_length_witness :
    ([5, 5] : List Nat).length = ([1, 3] : List Int).length ∧
    ∀ i, i < ([1, 3] : List Int).length → ([0, 1] : List Nat).getD i 0 ≠ 0 →
      ([5, 5] : List Nat).getD i 0 = offsetBefore [5, 5] i :=
  array_range_offsets_length Domain.int32 1000000 10 [1, 3] [10, 4] [2, -1]
    { args_null_map := [0, 1], nested_column := [1, 3, 5, 7, 9],
      dest_nested_null_map := [0, 0, 0, 0, 0], dest_offsets := [5, 5] } (by decide)

theorem forRows_error (body : Nat → RangeDest → Option (Except Status RangeDest))
    (e : Status) : ∀ (n row : Nat) (d : RangeDest),
    forRows body n row d = some (Except.error e) →
    ∃ r d1, body r d1 = some (Except.error e) := by
  intro n
  induction n with
  | zero => intro row d h; simp [forRows] at h
  | succ m ih =>
    intro row d h
    unfold forRows at h
    split at h
    · simp at h
    · rename_i e1 hrow
      simp only [Option.some.injEq, Except.error.injEq] at h
      subst h
      exact ⟨row, d, hrow⟩
    · exact ih _ _ h

theorem dateTimeLoop_error (ops : TimeOps) (maxSize : Nat) (e t : Int) (st : Status) :
    ∀ (fuel : Nat) (idx : Int) (move : Nat) (s : LoopState),
    dateTimeLoop ops maxSize e t fuel idx move s = some (Except.error st) →
    st = Status.InvalidArgument maxSize := by
  intro fuel
  induction fuel with
  | zero => intro idx move s h; simp [dateTimeLoop] at h
  | succ f ih =>
    intro idx move s h
    unfold dateTimeLoop at h
    split at h
    · split at h
      · simp only [Option.some.injEq, Except.error.injEq] at h
        exact h.symm
      · exact ih _ _ _ h
    · simp at h

/-- The only error `vector` returns is the size-limit error. -/
theorem vector_error (dom : Domain) (maxSize fuel : Nat) (start end_ step : List Int)
    (d : RangeDest) (st : Status)
    (h : vector dom maxSize fuel start end_ step d = some (Except.error st)) :
    st = Status.InvalidArgument maxSize := by
  cases dom with
  | int32 =>
    obtain ⟨r, d1, hr⟩ := forRows_error _ st _ _ _ h
    unfold vectorInt32Row at hr
    simp only [] at hr
    split at hr
    · simp at hr
    · split at hr
      · simp only [Option.some.injEq, Except.error.injEq] at hr
        exact hr.symm
      · split at hr
        · simp at hr
        · simp at hr
  | dateTimeV2 ops =>
    obtain ⟨r, d1, hr⟩ := forRows_error _ st _ _ _ h
    unfold vectorDateTimeRow at hr
    simp only [] at hr
    split at hr
    · simp at hr
    · split at hr
      · simp at hr
      · rename_i e1 hloop
        simp only [Option.some.injEq, Except.error.injEq] at hr
        subst hr
        exact dateTimeLoop_error _ _ _ _ _ _ _ _ _ hloop
      · simp at hr

theorem getElem?_two_appended_fst (b : Block) (x y : Column) :
    ((b ++ [x]) ++ [y])[b.length]? = some x := by
  rw [List.append_assoc, List.getElem?_append_right (le_refl _)]
  simp

theorem getElem?_two_appended_snd (b : Block) (x y : Column) :
    ((b ++ [x]) ++ [y])[b.length + 1]? = some y := by
  rw [List.append_assoc, List.getElem?_append_right (by omega)]
  simp

theorem getElem?_one_appended (b : Block) (x : Column) :
    (b ++ [x])[b.length]? = some x := by
  rw [List.getElem?_append_right (le_refl _)]
  simp

/-- The call `range_execute` reads only the data of its three argument columns. -/
theorem range_execute_resultColumn (dom : Domain) (maxSize fuel : Nat) (block : Block)
    (a0 a1 a2 result rows : Nat) (start end_ step : List Int)
    (h0 : block[a0]?.bind Column.fullData = some start)
    (h1 : block[a1]?.bind Column.fullData = some end_)
    (h2 : block[a2]?.bind Column.fullData = some step)
    (hres : result < block.length) :
    resultColumn (range_execute dom maxSize fuel block [a0, a1, a2] result rows) result =
      rangeResult dom maxSize fuel start end_ step rows := by
  cases hb0 : block[a0]? with
  | none => rw [hb0] at h0; simp at h0
  | some c0 =>
  cases hb1 : block[a1]? with
  | none => rw [hb1] at h1; simp at h1
  | some c1 =>
  cases hb2 : block[a2]? with
  | none => rw [hb2] at h2; simp at h2
  | some c2 =>
  rw [hb0] at h0; rw [hb1] at h1; rw [hb2] at h2
  have h0 : c0.fullData = some start := h0
  have h1 : c1.fullData = some end_ := h1
  have h2 : c2.fullData = some step := h2
  unfold range_execute rangeResult
  simp only [hb0, hb1, hb2, h0, h1, h2]
  cases hv : vector dom maxSize fuel start end_ step (RangeDest.init rows) with
  | none => rfl
  | some r =>
    cases r with
    | error st =>
      have hst := vector_error dom maxSize fuel start end_ step _ st hv
      subst hst
      rfl
    | ok d =>
      simp [resultColumn, hres]

/-- C7, the failing input.  With `max_array_size_as_field = 1000000`, the call
on the rows `(0, 2147483647, 1073741824)` and `(0, 2147483647, 1)`: the second
row has `0 <= start < end`, `step > 0` and analytic length 2147483647, above the
maximum, but the loop of the first row, whose analytic length is 2, overflows
Int32 and never ends, so the call does not return the size-limit error. -/
theorem array_range_size_limit_behind_overflow :
    analyticLength 0 2147483647 1 = 2147483647 ∧
    analyticLength 0 2147483647 1073741824 = 2 ∧
    ∀ fuel : Nat,
      range_execute Domain.int32 1000000 fuel
        [Column.vec [0, 0], Column.vec [2147483647, 2147483647],
         Column.vec [1073741824, 1], Column.vec []] [0, 1, 2] 3 2 = none := by
  refine ⟨by decide, by decide, ?_⟩
  intro fuel
  have hrow : vectorInt32Row 1000000 fuel [0, 0] [2147483647, 2147483647]
      [1073741824, 1] 0 (RangeDest.init 2) = none :=
    vectorInt32Row_overflow 999998 fuel [0, 0] [2147483647, 2147483647]
      [1073741824, 1] 0 (RangeDest.init 2) rfl rfl rfl rfl
  unfold range_execute
  simp only [List.getElem?_cons_zero, List.getElem?_cons_succ, Column.fullData, vector,
    vectorInt32, List.length_cons, List.length_nil]
  simp [forRows, hrow]

/-- C9.  Call shapes.  Let `block3` hold, at the positions `s`, `e`, `t`, a
start column of `rows` zeros, an end column with the data `n` of the argument of
the one-argument form, and a step column of `rows` ones: then
`RangeOneImpl::execute_impl` on `block` returns the same status and, on success,
the same result column as `RangeThreeImpl::execute_impl` on `block3`.  Likewise
`RangeTwoImpl::execute_impl` on the arguments `(b0, b1)` with data `(ds, de)`
agrees with the three-argument form on `(ds, de, rows ones)` at the positions
`s2`, `e2`, `t2`. -/
theorem array_range_call_shapes (dom : Domain) (maxSize fuel : Nat) (block block3 : Block)
    (a s e t b0 b1 s2 e2 t2 result rows : Nat) (n ds de : List Int)
    (hres : result < block.length) (hres3 : result < block3.length)
    (ha : block[a]?.bind Column.fullData = some n)
    (hs : block3[s]?.bind Column.fullData = some (List.replicate rows 0))
    (he : block3[e]?.bind Column.fullData = some n)
    (ht : block3[t]?.bind Column.fullData = some (List.replicate rows 1))
    (hb0 : block[b0]?.bind Column.fullData = some ds)
    (hb1 : block[b1]?.bind Column.fullData = some de)
    (hs2 : block3[s2]?.bind Column.fullData = some ds)
    (he2 : block3[e2]?.bind Column.fullData = some de)
    (ht2 : block3[t2]?.bind Column.fullData = some (List.replicate rows 1)) :
    resultColumn (RangeOneImpl.execute_impl dom maxSize fuel block [a] result rows) result =
      resultColumn
        (RangeThreeImpl.execute_impl dom maxSize fuel block3 [s, e, t] result rows) result ∧
    resultColumn (RangeTwoImpl.execute_impl dom maxSize fuel block [b0, b1] result rows)
        result =
      resultColumn
        (RangeThreeImpl.execute_impl dom maxSize fuel block3 [s2, e2, t2] result rows)
        result := by
  have hlt : ∀ (i : Nat) (x : List Int), block[i]?.bind Column.fullData = some x →
      i < block.length := by
    intro i x hx
    by_contra hcon
    rw [List.getElem?_eq_none (by omega)] at hx
    simp at hx
  constructor
  · unfold RangeOneImpl.execute_impl RangeThreeImpl.execute_impl
    simp only [List.getD_cons_zero, List.length_append, List.length_singleton]
    rw [range_execute_resultColumn dom maxSize fuel block3 s e t result rows _ _ _ hs he ht
      hres3]
    have ha1 := hlt a n ha
    have e1 : block.length + 1 + 1 - 2 = block.length := by omega
    have e2 : block.length + 1 + 1 - 1 = block.length + 1 := by omega
    rw [e1, e2]
    apply range_execute_resultColumn
    · rw [getElem?_two_appended_fst]; rfl
    · rw [List.append_assoc, List.getElem?_append_left ha1]; exact ha
    · rw [getElem?_two_appended_snd]; rfl
    · simp only [List.length_append, List.length_singleton]; omega
  · unfold RangeTwoImpl.execute_impl RangeThreeImpl.execute_impl
    simp only [List.getD_cons_zero, List.getD_cons_succ, List.length_append,
      List.length_singleton]
    rw [range_execute_resultColumn dom maxSize fuel block3 s2 e2 t2 result rows _ _ _ hs2 he2
      ht2 hres3]
    have h0 := hlt b0 ds hb0
    have h1 := hlt b1 de hb1
    have e1 : block.length + 1 - 1 = block.length := by omega
    rw [e1]
    apply range_execute_resultColumn
    · rw [List.getElem?_append_left h0]; exact hb0
    · rw [List.getElem?_append_left h1]; exact hb1
    · rw [getElem?_one_appended]; rfl
    · simp only [List.length_append, List.length_singleton]; omega

/-- Witness of C9: `sequence(5)` against `sequence(0, 5, 1)`, and
`sequence(2, 5)` against `sequence(2, 5, 1)`. -/
theorem array_range_call_shapes_witness :
    resultColumn (RangeOneImpl.execute_impl Domain.int32 1000000 10
        [Column.vec [5], Column.vec [2], Column.vec []] [0] 2 1) 2 =
      resultColumn (RangeThreeImpl.execute_impl Domain.int32 1000000 10
        [Column.const 0 1, Column.vec [5], Column.vec [], Column.const 1 1, Column.vec [2]]
        [0, 1, 3] 2 1) 2 ∧
    resultColumn (RangeTwoImpl.execute_impl Domain.int32 1000000 10
        [Column.vec [5], Column.vec [2], Column.vec []] [1, 0] 2 1) 2 =
      resultColumn (RangeThreeImpl.execute_impl Domain.int32 1000000 10
        [Column.const 0 1, Column.vec [5], Column.vec [], Column.const 1 1, Column.vec [2]]
        [4, 1, 3] 2 1) 2 :=
  array_range_call_shapes Domain.int32 1000000 10
    [Column.vec [5], Column.vec [2], Column.vec []]
    [Column.const 0 1, Column.vec [5], Column.vec [], Column.const 1 1, Column.vec [2]]
    0 0 1 3 1 0 4 1 3 2 1 [5] [2] [5]
    (by decide) (by decide) (by decide) (by decide) (by decide) (by decide) (by decide)
    (by decide) (by decide) (by decide) (by decide)

theorem vectorInt32Row_good (maxSize fuel : Nat) (start end_ step : List Int) (row : Nat)
    (d : RangeDest) (hb : RangeBase row d) (hfuel : maxSize < fuel)
    (hgood : Int32RowGood maxSize (start.getD row 0) (end_.getD row 0) (step.getD row 0)) :
    ∃ d1, vectorInt32Row maxSize fuel start end_ step row d = some (Except.ok d1) ∧
      RangeBase (row + 1) d1 := by
  by_cases hrule : int32NullRule (start.getD row 0) (end_.getD row 0) (step.getD row 0)
  · exact ⟨_, vectorInt32Row_null maxSize fuel start end_ step row d (Or.inr hrule),
      rangeBase_pushNull hb⟩
  · rcases hgood with h | ⟨hs, he, ht, hsize, hov⟩
    · exact absurd h hrule
    · refine ⟨d.pushRow (progression (start.getD row 0) (step.getD row 0)
        (rangeCount (start.getD row 0) (end_.getD row 0) (step.getD row 0))), ?_,
        rangeBase_pushRow hb _⟩
      rw [vectorInt32Row_generates maxSize fuel start end_ step row d
        (hb.pending row (le_refl _)) hs he ht hsize hov, if_pos (by omega)]

theorem vectorInt32Row_oversize (maxSize fuel : Nat) (start end_ step : List Int) (row : Nat)
    (d : RangeDest) (hflag : d.args_null_map.getD row 0 = 0)
    (hs : 0 ≤ start.getD row 0) (hse : start.getD row 0 < end_.getD row 0)
    (ht : 0 < step.getD row 0)
    (hbig : analyticLength (start.getD row 0) (end_.getD row 0) (step.getD row 0) >
      (maxSize : Int)) :
    vectorInt32Row maxSize fuel start end_ step row d =
      some (Except.error (Status.InvalidArgument maxSize)) := by
  unfold vectorInt32Row
  simp only []
  generalize start.getD row 0 = s at *
  generalize end_.getD row 0 = e at *
  generalize step.getD row 0 = t at *
  rw [if_neg (by rw [hflag]; simp; omega), if_pos ⟨hse, ht, hbig⟩]

/-- Apart from the Int32 overflow: when every row before row `r` is good and row
`r` has `0 <= start < end`, `step > 0` and an analytic length above `maxSize`,
the loop returns the size-limit error. -/
theorem forRows_int32_size_limit (maxSize fuel : Nat) (start end_ step : List Int) (r : Nat)
    (hfuel : maxSize < fuel)
    (hs : 0 ≤ start.getD r 0) (hse : start.getD r 0 < end_.getD r 0)
    (ht : 0 < step.getD r 0)
    (hbig : analyticLength (start.getD r 0) (end_.getD r 0) (step.getD r 0) >
      (maxSize : Int)) :
    ∀ (n row : Nat) (d : RangeDest), RangeBase row d → row ≤ r → r < row + n →
    (∀ i, row ≤ i → i < r →
      Int32RowGood maxSize (start.getD i 0) (end_.getD i 0) (step.getD i 0)) →
    forRows (vectorInt32Row maxSize fuel start end_ step) n row d =
      some (Except.error (Status.InvalidArgument maxSize)) := by
  intro n
  induction n with
  | zero => intro row d _ h1 h2 _; omega
  | succ k ih =>
    intro row d hb h1 h2 hgood
    unfold forRows
    by_cases hr : row = r
    · subst hr
      rw [vectorInt32Row_oversize maxSize fuel start end_ step row d
        (hb.pending row (le_refl _)) hs hse ht hbig]
    · obtain ⟨d1, hrun, hb1⟩ := vectorInt32Row_good maxSize fuel start end_ step row d hb
        hfuel (hgood row (le_refl _) (by omega))
      rw [hrun]
      exact ih (row + 1) d1 hb1 (by omega) (by omega)
        (fun i hi1 hi2 => hgood i (by omega) hi2)

/-- Apart from the Int32 overflow, the call returns with enough fuel: when every
row is good, `vector` in the integer domain returns a destination. -/
theorem forRows_int32_total (maxSize fuel : Nat) (start end_ step : List Int)
    (hfuel : maxSize < fuel) :
    ∀ (n row : Nat) (d : RangeDest), RangeBase row d →
    (∀ i, row ≤ i → i < row + n →
      Int32RowGood maxSize (start.getD i 0) (end_.getD i 0) (step.getD i 0)) →
    ∃ dN, forRows (vectorInt32Row maxSize fuel start end_ step) n row d =
      some (Except.ok dN) := by
  intro n
  induction n with
  | zero => intro row d _ _; exact ⟨d, rfl⟩
  | succ k ih =>
    intro row d hb hgood
    unfold forRows
    obtain ⟨d1, hrun, hb1⟩ := vectorInt32Row_good maxSize fuel start end_ step row d hb
      hfuel (hgood row (le_refl _) (by omega))
    rw [hrun]
    exact ih (row + 1) d1 hb1 (fun i hi1 hi2 => hgood i (by omega) (by omega))

/-- Apart from the Int32 overflow, the size limit fails the whole call and leaves
the block as it was: when every row before row `r` is good and row `r` has
`0 <= start < end`, `step > 0` and an analytic length above `maxSize`,
`range_execute` returns `InvalidArgument` together with the unchanged block. -/
theorem range_execute_int32_size_limit (maxSize fuel : Nat) (block : Block)
    (a0 a1 a2 result rows : Nat) (start end_ step : List Int)
    (h0 : block[a0]?.bind Column.fullData = some start)
    (h1 : block[a1]?.bind Column.fullData = some end_)
    (h2 : block[a2]?.bind Column.fullData = some step)
    (r : Nat) (hr : r < start.length) (hfuel : maxSize < fuel)
    (hs : 0 ≤ start.getD r 0) (hse : start.getD r 0 < end_.getD r 0)
    (ht : 0 < step.getD r 0)
    (hbig : analyticLength (start.getD r 0) (end_.getD r 0) (step.getD r 0) >
      (maxSize : Int))
    (hprev : ∀ i, i < r →
      Int32RowGood maxSize (start.getD i 0) (end_.getD i 0) (step.getD i 0)) :
    range_execute Domain.int32 maxSize fuel block [a0, a1, a2] result rows =
      some (Status.InvalidArgument maxSize, block) := by
  cases hb0 : block[a0]? with
  | none => rw [hb0] at h0; simp at h0
  | some c0 =>
  cases hb1 : block[a1]? with
  | none => rw [hb1] at h1; simp at h1
  | some c1 =>
  cases hb2 : block[a2]? with
  | none => rw [hb2] at h2; simp at h2
  | some c2 =>
  rw [hb0] at h0; rw [hb1] at h1; rw [hb2] at h2
  have h0 : c0.fullData = some start := h0
  have h1 : c1.fullData = some end_ := h1
  have h2 : c2.fullData = some step := h2
  have hv : vector Domain.int32 maxSize fuel start end_ step (RangeDest.init rows) =
      some (Except.error (Status.InvalidArgument maxSize)) :=
    forRows_int32_size_limit maxSize fuel start end_ step r hfuel hs hse ht hbig
      start.length 0 (RangeDest.init rows) (rangeBase_init rows) (Nat.zero_le r)
      (by omega) (fun i _ hi => hprev i hi)
  unfold range_execute
  simp only [hb0, hb1, hb2, h0, h1, h2, hv]

/-- A successful `vector` call on the initial destination ends in a destination
with the base invariant for all `start.size()` rows. -/
theorem vector_rangeBase (dom : Domain) (maxSize fuel : Nat) (start end_ step : List Int)
    (dN : RangeDest)
    (h : vector dom maxSize fuel start end_ step (RangeDest.init start.length) =
      some (Except.ok dN)) :
    RangeBase start.length dN := by
  have key : ∀ body, PushBody body →
      forRows body start.length 0 (RangeDest.init start.length) = some (Except.ok dN) →
      RangeBase start.length dN := by
    intro body hbody hrun
    have h1 := (forRows_frame body hbody start.length 0 (RangeDest.init start.length) dN
      (rangeBase_init _) hrun).1
    simpa using h1
  cases dom with
  | int32 => exact key _ (vectorInt32Row_pushBody maxSize fuel start end_ step) h
  | dateTimeV2 ops =>
    exact key _ (vectorDateTimeRow_pushBody ops maxSize fuel start end_ step) h

/-- C11.  In both domains, for every successful call of `vector` on the
destination `range_execute` creates, the offsets of the result are
non-decreasing and the last offset (`offsets.back()`, which is 0 when there are
no rows) is the length of the nested data; this covers the calls in which every
row is null or empty. -/
theorem array_range_offsets_invariant (dom : Domain) (maxSize fuel : Nat)
    (start end_ step : List Int) (dN : RangeDest)
    (h : vector dom maxSize fuel start end_ step (RangeDest.init start.length) =
      some (Except.ok dN)) :
    dN.dest_offsets.Pairwise (fun a b => a ≤ b) ∧
    (∀ i j, i ≤ j → j < dN.dest_offsets.length →
      dN.dest_offsets.getD i 0 ≤ dN.dest_offsets.getD j 0) ∧
    offsetsBack dN.dest_offsets = dN.nested_column.length ∧
    (start.length = 0 → dN.dest_offsets = [] ∧ dN.nested_column = []) := by
  have hb := vector_rangeBase dom maxSize fuel start end_ step dN h
  refine ⟨hb.shape.sorted, ?_, hb.shape.back_eq, ?_⟩
  · intro i j hij hj
    have hi : i < dN.dest_offsets.length := by omega
    rw [List.getD_eq_getElem?_getD, List.getD_eq_getElem?_getD,
      List.getElem?_eq_getElem hi, List.getElem?_eq_getElem hj]
    simp only [Option.getD_some]
    rcases Nat.lt_or_eq_of_le hij with hlt | heq
    · exact List.pairwise_iff_getElem.mp hb.shape.sorted i j hi hj hlt
    · subst heq; exact le_refl _
  · intro h0
    have hlen := hb.rows_done
    rw [h0] at hlen
    have hoff : dN.dest_offsets = [] := List.length_eq_zero.mp hlen
    refine ⟨hoff, ?_⟩
    have hback := hb.shape.back_eq
    rw [hoff] at hback
    exact List.length_eq_zero.mp hback.symm

/-- Witness of C11: the integer call on the rows `(1, 10, 2)`, `(3, 4, -1)` and
`(5, 1, 1)`, the last two being a null row and an empty row. -/
theorem array_range_offsets_invariant_witness :
    ([5, 5, 5] : List Nat).Pairwise (fun a b => a ≤ b) ∧
    offsetsBack [5, 5, 5] = ([1, 3, 5, 7, 9] : List Int).length :=
  have h := array_range_offsets_invariant Domain.int32 1000000 10 [1, 3, 5] [10, 4, 1]
    [2, -1, 1]
    { args_null_map := [0, 1, 0], nested_column := [1, 3, 5, 7, 9],
      dest_nested_null_map := [0, 0, 0, 0, 0], dest_offsets := [5, 5, 5] } (by decide)
  ⟨h.1, h.2.2.1⟩

/-- C13.  In both domains, in the result of every successful call of `vector`
the element-level null map of the nested column has the length of the nested
data and every entry of it is 0. -/
theorem array_range_elements_not_null (dom : Domain) (maxSize fuel : Nat)
    (start end_ step : List Int) (dN : RangeDest)
    (h : vector dom maxSize fuel start end_ step (RangeDest.init start.length) =
      some (Except.ok dN)) :
    dN.dest_nested_null_map.length = dN.nested_column.length ∧
    ∀ x ∈ dN.dest_nested_null_map, x = 0 := by
  have hb := vector_rangeBase dom maxSize fuel start end_ step dN h
  have hn := hb.shape.nulls
  constructor
  · rw [hn, List.length_replicate]
  · intro x hx
    rw [hn] at hx
    exact (List.mem_replicate.mp hx).2

/-- Witness of C13: the integer call on the rows `(1, 10, 2)` and `(3, 4, -1)`. -/
theorem array_range_elements_not_null_witness :
    ([0, 0, 0, 0, 0] : List Nat).length = ([1, 3, 5, 7, 9] : List Int).length ∧
    ∀ x ∈ ([0, 0, 0, 0, 0] : List Nat), x = 0 :=
  array_range_elements_not_null Domain.int32 1000000 10 [1, 3] [10, 4] [2, -1]
    { args_null_map := [0, 1], nested_column := [1, 3, 5, 7, 9],
      dest_nested_null_map := [0, 0, 0, 0, 0], dest_offsets := [5, 5] } (by decide)

/-! ## Theorems: `array_remove` -/

theorem cumFrom_append (c : Nat) (l1 l2 : List Nat) :
    cumFrom c (l1 ++ l2) = cumFrom c l1 ++ cumFrom (c + l1.sum) l2 := by
  induction l1 generalizing c with
  | nil => simp [cumFrom]
  | cons x xs ih => simp [cumFrom, ih, Nat.add_assoc]

theorem length_cumFrom (c : Nat) (ls : List Nat) : (cumFrom c ls).length = ls.length := by
  induction ls generalizing c with
  | nil => rfl
  | cons x xs ih => simp [cumFrom, ih]

theorem mem_cumFrom (c : Nat) (ls : List Nat) :
    ∀ o ∈ cumFrom c ls, c ≤ o ∧ o ≤ c + ls.sum := by
  induction ls generalizing c with
  | nil => intro o ho; simp [cumFrom] at ho
  | cons x xs ih =>
    intro o ho
    simp only [cumFrom, List.mem_cons] at ho
    simp only [List.sum_cons]
    rcases ho with ho | ho
    · omega
    · have := ih (c + x) o ho
      omega

theorem sorted_cumFrom (c : Nat) (ls : List Nat) :
    (cumFrom c ls).Pairwise (fun x y => x ≤ y) := by
  induction ls generalizing c with
  | nil => simp [cumFrom]
  | cons x xs ih =>
    simp only [cumFrom, List.pairwise_cons]
    exact ⟨fun o ho => (mem_cumFrom (c + x) xs o ho).1, ih (c + x)⟩

theorem offsetsBack_cumFrom (ls : List Nat) : offsetsBack (cumFrom 0 ls) = ls.sum := by
  induction ls using List.reverseRecOn with
  | nil => rfl
  | append_singleton xs x _ =>
    rw [cumFrom_append]
    simp [cumFrom, offsetsBack]

theorem length_flatten_eq_sum {α : Type} (rs : List (List α)) :
    rs.flatten.length = (rs.map List.length).sum := by
  induction rs with
  | nil => rfl
  | cons r rs ih => simp [ih]

/-- Row `i` of the flattened rows, cut out by the cumulative offsets, is `rs[i]`. -/
theorem rowSegment_flatten {α : Type} (rs : List (List α)) (i : Nat) (hi : i < rs.length) :
    rowSegment rs.flatten (cumFrom 0 (rs.map List.length)) i = rs.getD i [] := by
  induction rs using List.reverseRecOn with
  | nil => simp at hi
  | append_singleton xs x ih =>
    have hback : offsetsBack (cumFrom 0 (xs.map List.length)) = xs.flatten.length := by
      rw [offsetsBack_cumFrom, length_flatten_eq_sum]
    have hcum : cumFrom 0 ((xs ++ [x]).map List.length) =
        cumFrom 0 (xs.map List.length) ++
          [offsetsBack (cumFrom 0 (xs.map List.length)) + x.length] := by
      rw [List.map_append, cumFrom_append, hback, length_flatten_eq_sum]
      simp [cumFrom]
    have hflat : (xs ++ [x]).flatten = xs.flatten ++ x := by simp
    rw [hcum, hflat]
    by_cases hlt : i < xs.length
    · rw [rowSegment_append_old _ _ _ _ i (by rw [length_cumFrom]; simpa using hlt)
        (by
          intro o ho
          have := (mem_cumFrom 0 _ o ho).2
          rw [length_flatten_eq_sum]; omega),
        ih hlt, List.getD_append _ _ _ _ hlt]
    · have hieq : i = xs.length := by
        simp only [List.length_append, List.length_singleton] at hi; omega
      have hl : (cumFrom 0 (xs.map List.length)).length = i := by
        rw [length_cumFrom, List.length_map, hieq]
      rw [← hl, rowSegment_append_new _ _ _ hback, hl, hieq]
      simp [List.getD_eq_getElem?_getD]

theorem rowSegment_map {α β : Type} (f : α → β) (l : List α) (offsets : List Nat) (i : Nat) :
    rowSegment (l.map f) offsets i = (rowSegment l offsets i).map f := by
  simp [rowSegment, List.map_take, List.map_drop]

theorem getD_replicate_zero (n i : Nat) : (List.replicate n 0).getD i 0 = 0 := by
  simp only [List.getD_eq_getElem?_getD, List.getElem?_replicate]
  split <;> rfl

theorem removeStep_eq (src : List Int) (nm : Option (List Nat)) (off : Nat) (t : Int)
    (pos : Nat) (s : RemoveInner) :
    removeStep src nm off t pos s =
      match keepPair t (src.getD (off + pos) 0,
          (effFlags nm src.length).getD (off + pos) 0) with
      | none => { s with count := s.count + 1 }
      | some q =>
        { s with
          dst_data := s.dst_data ++ [q.1],
          dst_null_map :=
            if nm.isSome then s.dst_null_map ++ [q.2] else s.dst_null_map } := by
  cases nm with
  | none =>
    simp only [removeStep, nullAt, effFlags, getD_replicate_zero, keepPair]
    generalize src.getD (off + pos) 0 = x
    by_cases h : x = t <;> simp [h]
  | some m =>
    simp only [removeStep, nullAt, effFlags, keepPair]
    generalize src.getD (off + pos) 0 = x
    by_cases hf : m.getD (off + pos) 0 = 0
    · have hb : ¬ (m.getD (off + pos) 0 != 0) = true := by rw [hf]; simp
      rw [if_neg hb, if_neg (not_not.mpr hf)]
      by_cases h : x = t <;> simp [h]
    · have hb : (m.getD (off + pos) 0 != 0) = true := bne_iff_ne.mpr hf
      rw [if_pos hb, if_pos hf]
      simp

/-- The inner loop appends the kept elements of the positions it visits. -/
theorem removeInner_eq (src : List Int) (nm : Option (List Nat)) (off : Nat) (t : Int) :
    ∀ (n pos : Nat) (s : RemoveInner), off + pos + n ≤ src.length →
    src.length ≤ (effFlags nm src.length).length →
    removeInner src nm off t n pos s =
      { dst_data := s.dst_data ++
          ((((List.zip src (effFlags nm src.length)).drop (off + pos)).take n).filterMap
            (keepPair t)).map Prod.fst,
        dst_null_map :=
          if nm.isSome then s.dst_null_map ++
            ((((List.zip src (effFlags nm src.length)).drop (off + pos)).take n).filterMap
              (keepPair t)).map Prod.snd
          else s.dst_null_map,
        count := s.count + (n -
          ((((List.zip src (effFlags nm src.length)).drop (off + pos)).take n).filterMap
            (keepPair t)).length) } := by
  intro n
  induction n with
  | zero =>
    intro pos s _ _
    cases s
    simp [removeInner]
  | succ k ih =>
    intro pos s hb hfl
    have hlt : off + pos < (List.zip src (effFlags nm src.length)).length := by
      rw [List.length_zip]; omega
    have h1 : off + pos < src.length := by omega
    have h2 : off + pos < (effFlags nm src.length).length := by omega
    have hdrop := List.drop_eq_getElem_cons hlt
    have hsrc : src.getD (off + pos) 0 = src[off + pos] := by
      rw [List.getD_eq_getElem?_getD, List.getElem?_eq_getElem h1]; rfl
    have hflag : (effFlags nm src.length).getD (off + pos) 0 =
        (effFlags nm src.length)[off + pos] := by
      rw [List.getD_eq_getElem?_getD, List.getElem?_eq_getElem h2]; rfl
    have hlen := List.length_filterMap_le (keepPair t)
      (((List.zip src (effFlags nm src.length)).drop (off + pos + 1)).take k)
    have hlen2 : (((List.zip src (effFlags nm src.length)).drop (off + pos + 1)).take k).length
        ≤ k := List.length_take_le _ _
    unfold removeInner
    rw [ih (pos + 1) _ (by omega) hfl, removeStep_eq, hdrop, List.take_succ_cons,
      List.filterMap_cons, List.getElem_zip, hsrc, hflag, ← Nat.add_assoc]
    cases hk : keepPair t (src[off + pos], (effFlags nm src.length)[off + pos]) with
    | none =>
      simp only [RemoveInner.mk.injEq, true_and]
      omega
    | some q =>
      cases hn : nm.isSome <;>
        simp only [List.map_cons, List.length_cons, RemoveInner.mk.injEq, hn,
          List.append_assoc, List.singleton_append, Bool.false_eq_true, if_false, if_true,
          true_and] <;> omega

theorem offsetsBack_mem (l : List Nat) (h : l ≠ []) : offsetsBack l ∈ l := by
  unfold offsetsBack
  rw [List.getLast?_eq_getLast l h]
  exact List.getLast_mem h

theorem pairwise_le_back (l : List Nat) (h : l.Pairwise (fun x y => x ≤ y)) :
    ∀ o ∈ l, o ≤ offsetsBack l := by
  induction l with
  | nil => intro o ho; simp at ho
  | cons x xs ih =>
    intro o ho
    rw [List.pairwise_cons] at h
    by_cases hxs : xs = []
    · subst hxs
      simp only [List.mem_singleton] at ho
      simp [offsetsBack, ho]
    · have hback : offsetsBack (x :: xs) = offsetsBack xs := by
        unfold offsetsBack
        cases xs with
        | nil => exact absurd rfl hxs
        | cons y ys => rw [List.getLast?_cons_cons]
      rw [hback]
      simp only [List.mem_cons] at ho
      rcases ho with ho | ho
      · rw [ho]; exact h.1 _ (offsetsBack_mem xs hxs)
      · exact ih h.2 o ho

theorem ArrayColumn.WF.getD_le {a : ArrayColumn} (h : a.WF) (row : Nat) :
    a.offsets.getD row 0 ≤ a.nested.length := by
  by_cases hrow : row < a.offsets.length
  · rw [← h.back_eq]
    apply pairwise_le_back _ h.sorted
    rw [List.getD_eq_getElem?_getD, List.getElem?_eq_getElem hrow]
    exact List.getElem_mem hrow
  · rw [List.getD_eq_getElem?_getD, List.getElem?_eq_none (by omega)]
    exact Nat.zero_le _

theorem ArrayColumn.WF.flags_length {a : ArrayColumn} (h : a.WF) :
    (effFlags a.nested_null_map a.nested.length).length = a.nested.length := by
  cases hm : a.nested_null_map with
  | none => simp [effFlags]
  | some m => simpa [effFlags] using h.null_len m hm

/-- The row body appends the kept elements of the row and pushes the new offset. -/
theorem removeRow_eq (a : ArrayColumn) (v : List Int) (h : a.WF) (row : Nat)
    (s : RemoveOuter) :
    removeRow a.offsets a.nested v a.nested_null_map row s =
      s.pushOut a.nested_null_map.isSome (keptRow a v row) := by
  have hle := h.getD_le row
  have hfl := h.flags_length
  unfold removeRow
  simp only []
  by_cases hlen : a.offsets.getD row 0 - offsetBefore a.offsets row = 0
  · rw [if_pos hlen]
    have hk : keptRow a v row = [] := by
      unfold keptRow ArrayColumn.rawRow rowSegment
      rw [hlen, List.take_zero, List.filterMap_nil]
    rw [hk]
    cases hn : a.nested_null_map.isSome <;> simp [RemoveOuter.pushOut]
  · rw [if_neg hlen]
    rw [removeInner_eq a.nested a.nested_null_map (offsetBefore a.offsets row)
      (v.getD row 0) _ 0 _ (by omega) (by omega)]
    have hk : keptRow a v row =
        (((List.zip a.nested (effFlags a.nested_null_map a.nested.length)).drop
          (offsetBefore a.offsets row + 0)).take
          (a.offsets.getD row 0 - offsetBefore a.offsets row)).filterMap
            (keepPair (v.getD row 0)) := rfl
    rw [← hk]
    have hlen1 : (keptRow a v row).length ≤
        a.offsets.getD row 0 - offsetBefore a.offsets row := by
      rw [hk]
      exact le_trans (List.length_filterMap_le _ _) (List.length_take_le _ _)
    have hcnt : a.offsets.getD row 0 - offsetBefore a.offsets row -
        (0 + (a.offsets.getD row 0 - offsetBefore a.offsets row - (keptRow a v row).length))
        = (keptRow a v row).length := by omega
    simp only [RemoveOuter.pushOut, hcnt]

theorem removeRows_eq (a : ArrayColumn) (v : List Int) (h : a.WF) :
    ∀ (n row : Nat) (s : RemoveOuter),
    removeRows a.offsets a.nested v a.nested_null_map n row s =
      ((List.range' row n).map (keptRow a v)).foldl
        (RemoveOuter.pushOut a.nested_null_map.isSome) s := by
  intro n
  induction n with
  | zero => intro row s; rfl
  | succ k ih =>
    intro row s
    unfold removeRows
    rw [removeRow_eq a v h, ih]
    rfl

theorem foldl_pushOut (nullable : Bool) (rs : List (List (Int × Nat))) :
    ∀ s : RemoveOuter, rs.foldl (RemoveOuter.pushOut nullable) s =
      { cur := s.cur + (rs.map List.length).sum,
        dst_data := s.dst_data ++ rs.flatten.map Prod.fst,
        dst_null_map :=
          if nullable then s.dst_null_map ++ rs.flatten.map Prod.snd else s.dst_null_map,
        dst_offsets := s.dst_offsets ++ cumFrom s.cur (rs.map List.length) } := by
  induction rs with
  | nil => intro s; cases s; cases nullable <;> simp [cumFrom]
  | cons r rs ih =>
    intro s
    rw [List.foldl_cons, ih]
    cases nullable <;>
      simp [RemoveOuter.pushOut, cumFrom, Nat.add_assoc]

/-- Closed form of `array_remove` on a well-formed column: the column made of the
kept elements of every row. -/
theorem array_remove_eq_ofRows (a : ArrayColumn) (v : List Int) (h : a.WF) :
    array_remove a v =
      ArrayColumn.ofRows a.nested_null_map.isSome
        ((List.range a.offsets.length).map (keptRow a v)) := by
  unfold array_remove _execute_number
  simp only []
  rw [removeRows_eq a v h, foldl_pushOut, List.range_eq_range']
  cases hn : a.nested_null_map.isSome <;> simp [ArrayColumn.ofRows]

theorem zip_fst_replicate (l : List (Int × Nat)) (h : ∀ p ∈ l, p.2 = 0) :
    List.zip (l.map Prod.fst) (List.replicate (l.map Prod.fst).length 0) = l := by
  induction l with
  | nil => rfl
  | cons p ps ih =>
    have hp := h p (List.mem_cons_self _ _)
    have ih1 := ih (fun q hq => h q (List.mem_cons_of_mem _ hq))
    simp only [List.map_cons, List.length_cons, List.replicate_succ, List.zip_cons_cons,
      List.cons.injEq]
    exact ⟨Prod.ext rfl hp.symm, ih1⟩

theorem rawPairs_ofRows (nullable : Bool) (rs : List (List (Int × Nat)))
    (h : nullable = true ∨ ∀ p ∈ rs.flatten, p.2 = 0) :
    (ArrayColumn.ofRows nullable rs).rawPairs = rs.flatten := by
  unfold ArrayColumn.rawPairs ArrayColumn.ofRows
  cases nullable with
  | true =>
    simp only [if_true, effFlags]
    exact (List.zip_of_prod rfl rfl).symm
  | false =>
    rcases h with h | h
    · exact absurd h (by simp)
    · simp only [Bool.false_eq_true, if_false, effFlags]
      exact zip_fst_replicate _ h

theorem rawRow_ofRows (nullable : Bool) (rs : List (List (Int × Nat)))
    (h : nullable = true ∨ ∀ p ∈ rs.flatten, p.2 = 0) (i : Nat) (hi : i < rs.length) :
    (ArrayColumn.ofRows nullable rs).rawRow i = rs.getD i [] := by
  unfold ArrayColumn.rawRow
  rw [rawPairs_ofRows nullable rs h]
  exact rowSegment_flatten rs i hi

theorem WF_ofRows (nullable : Bool) (rs : List (List (Int × Nat))) :
    (ArrayColumn.ofRows nullable rs).WF := by
  refine ⟨sorted_cumFrom 0 _, ?_, ?_⟩
  · simp only [ArrayColumn.ofRows, offsetsBack_cumFrom, List.length_map,
      length_flatten_eq_sum]
  · intro m hm
    cases nullable with
    | true =>
      simp only [ArrayColumn.ofRows, if_true, Option.some.injEq] at hm
      rw [← hm]
      simp only [ArrayColumn.ofRows, List.length_map]
    | false => simp [ArrayColumn.ofRows] at hm

theorem keepPair_snd_zero (t : Int) (p q : Int × Nat) (hp : p.2 = 0)
    (h : keepPair t p = some q) : q.2 = 0 := by
  unfold keepPair at h
  rw [if_neg (by simp [hp])] at h
  split at h
  · simp at h
  · simp only [Option.some.injEq] at h
    rw [← h]

theorem rawRow_snd_zero (a : ArrayColumn) (hn : a.nested_null_map = none) (row : Nat) :
    ∀ p ∈ a.rawRow row, p.2 = 0 := by
  intro p hp
  unfold ArrayColumn.rawRow rowSegment at hp
  have h1 := List.mem_of_mem_drop (List.mem_of_mem_take hp)
  unfold ArrayColumn.rawPairs at h1
  rw [hn] at h1
  obtain ⟨x, f⟩ := p
  have h2 := (List.of_mem_zip h1).2
  simp only [effFlags] at h2
  exact (List.mem_replicate.mp h2).2

theorem keptRow_snd_zero (a : ArrayColumn) (v : List Int) (hn : a.nested_null_map = none)
    (row : Nat) : ∀ q ∈ keptRow a v row, q.2 = 0 := by
  intro q hq
  unfold keptRow at hq
  obtain ⟨p, hp, hpq⟩ := List.mem_filterMap.mp hq
  exact keepPair_snd_zero _ p q (rawRow_snd_zero a hn row p hp) hpq

theorem keepPair_idem (t : Int) (p : Int × Nat) :
    (keepPair t p).bind (keepPair t) = keepPair t p := by
  unfold keepPair
  by_cases hf : p.2 ≠ 0
  · simp [hf]
  · by_cases hv : p.1 = t
    · simp [hf, hv]
    · simp [hf, hv]

theorem filterMap_keepPair_idem (t : Int) (l : List (Int × Nat)) :
    (l.filterMap (keepPair t)).filterMap (keepPair t) = l.filterMap (keepPair t) := by
  rw [List.filterMap_filterMap]
  congr 1
  funext p
  exact keepPair_idem t p

theorem condition_ofRows (a : ArrayColumn) (v : List Int) :
    a.nested_null_map.isSome = true ∨
      ∀ p ∈ ((List.range a.offsets.length).map (keptRow a v)).flatten, p.2 = 0 := by
  cases hn : a.nested_null_map with
  | some m => left; rfl
  | none =>
    right
    intro p hp
    obtain ⟨r, hr, hpr⟩ := List.mem_flatten.mp hp
    obtain ⟨row, _, hrow⟩ := List.mem_map.mp hr
    rw [← hrow] at hpr
    exact keptRow_snd_zero a v hn row p hpr

/-- In the result of `array_remove` on a well-formed column, row `row` holds the
kept elements of the input row. -/
theorem rawRow_array_remove (a : ArrayColumn) (v : List Int) (h : a.WF) (row : Nat)
    (hrow : row < a.offsets.length) :
    (array_remove a v).rawRow row = keptRow a v row := by
  rw [array_remove_eq_ofRows a v h,
    rawRow_ofRows _ _ (condition_ofRows a v) row (by simpa using hrow)]
  simp [List.getD_eq_getElem?_getD, hrow]

theorem map_elem_filterMap_keepPair (t : Int) (l : List (Int × Nat)) :
    (l.filterMap (keepPair t)).map elemOf =
      (l.map elemOf).filter (fun x => decide (x ≠ some t)) := by
  induction l with
  | nil => rfl
  | cons p ps ih =>
    rw [List.map_cons, List.filter_cons, ← ih]
    by_cases hf : p.2 ≠ 0
    · have hk : keepPair t p = some (0, 1) := by simp [keepPair, hf]
      have e1 : elemOf p = none := by simp [elemOf, hf]
      rw [List.filterMap_cons_some hk, List.map_cons, e1]
      simp [elemOf]
    · by_cases hv : p.1 = t
      · have hk : keepPair t p = none := by simp [keepPair, hf, hv]
        have e1 : elemOf p = some t := by simp [elemOf, hf, hv]
        rw [List.filterMap_cons_none hk, e1]
        simp
      · have hk : keepPair t p = some (p.1, 0) := by simp [keepPair, hf, hv]
        have e1 : elemOf p = some p.1 := by simp [elemOf, hf]
        rw [List.filterMap_cons_some hk, List.map_cons, e1]
        simp [elemOf, hv]

theorem countP_null_filterMap_keepPair (t : Int) (l : List (Int × Nat)) :
    (l.filterMap (keepPair t)).countP (fun p => p.2 != 0) =
      l.countP (fun p => p.2 != 0) := by
  induction l with
  | nil => rfl
  | cons p ps ih =>
    by_cases hf : p.2 ≠ 0
    · have hk : keepPair t p = some (0, 1) := by simp [keepPair, hf]
      rw [List.filterMap_cons_some hk, List.countP_cons, List.countP_cons, ih]
      simp [hf]
    · by_cases hv : p.1 = t
      · have hk : keepPair t p = none := by simp [keepPair, hf, hv]
        rw [List.filterMap_cons_none hk, List.countP_cons, ih]
        simp [hf]
      · have hk : keepPair t p = some (p.1, 0) := by simp [keepPair, hf, hv]
        rw [List.filterMap_cons_some hk, List.countP_cons, List.countP_cons, ih]
        simp [hf]

/-- C2.  For a well-formed array column `a` and one scalar per row, row `row` of
`array_remove a v`, read as a list of elements (`none` for a null element), is
row `row` of `a` with exactly the elements equal to `some v[row]` filtered out:
the non-null elements equal to the scalar are deleted, every other element is
kept, and the kept elements keep their order. -/
theorem array_remove_rows (a : ArrayColumn) (v : List Int) (hwf : a.WF)
    (_hv : v.length = a.offsets.length) (row : Nat) (hrow : row < a.offsets.length) :
    (array_remove a v).rowElems row =
      (a.rowElems row).filter (fun x => decide (x ≠ some (v.getD row 0))) := by
  unfold ArrayColumn.rowElems
  rw [rawRow_array_remove a v hwf row hrow]
  exact map_elem_filterMap_keepPair _ _

/-- Witness of C2: `array_remove([1,2,2,3], 2) = [1,3]`. -/
theorem array_remove_rows_witness :
    (array_remove ⟨[1, 2, 2, 3], none, [4]⟩ [2]).rowElems 0 = [some 1, some 3] ∧
    (ArrayColumn.rowElems ⟨[1, 2, 2, 3], none, [4]⟩ 0).filter
      (fun x => decide (x ≠ some (([2] : List Int).getD 0 0))) = [some 1, some 3] :=
  ⟨by decide,
   (array_remove_rows ⟨[1, 2, 2, 3], none, [4]⟩ [2]
      ⟨by decide, by decide, fun m h => by cases h⟩ (by decide) 0 (by decide)).symm.trans
      (by decide)⟩

/-- C3.  For a well-formed array column, row `row` of `array_remove a v`, read as
pairs `(raw value, null flag)`, is the input row in which every element with a
non-zero null flag is kept, whatever its raw value, as `(0, 1)`, every non-null
element equal to the scalar is dropped, and every other non-null element is kept
with null flag 0, all in the original order.  The row has as many null elements
as the input row, and the result is nullable exactly when the input is. -/
theorem array_remove_nulls (a : ArrayColumn) (v : List Int) (hwf : a.WF)
    (_hv : v.length = a.offsets.length) (row : Nat) (hrow : row < a.offsets.length) :
    (array_remove a v).rawRow row =
      (a.rawRow row).filterMap (fun p =>
        if p.2 ≠ 0 then some (0, 1)
        else if p.1 = v.getD row 0 then none
        else some (p.1, 0)) ∧
    ((array_remove a v).rawRow row).countP (fun p => p.2 != 0) =
      (a.rawRow row).countP (fun p => p.2 != 0) ∧
    (array_remove a v).nested_null_map.isSome = a.nested_null_map.isSome := by
  refine ⟨rawRow_array_remove a v hwf row hrow, ?_, ?_⟩
  · rw [rawRow_array_remove a v hwf row hrow]
    exact countP_null_filterMap_keepPair _ _
  · unfold array_remove _execute_number
    cases a.nested_null_map <;> rfl

/-- Witness of C3: `array_remove([NULL,1,2], 1) = [NULL,2]`, the null element
having the raw value 1 of the scalar. -/
theorem array_remove_nulls_witness :
    (array_remove ⟨[1, 1, 2], some [1, 0, 0], [3]⟩ [1]).rawRow 0 = [(0, 1), (2, 0)] ∧
    ((array_remove ⟨[1, 1, 2], some [1, 0, 0], [3]⟩ [1]).rawRow 0).countP
        (fun p => p.2 != 0) =
      (ArrayColumn.rawRow ⟨[1, 1, 2], some [1, 0, 0], [3]⟩ 0).countP (fun p => p.2 != 0) :=
  ⟨by decide,
   (array_remove_nulls ⟨[1, 1, 2], some [1, 0, 0], [3]⟩ [1]
      ⟨by decide, by decide, fun m h => by cases h; rfl⟩ (by decide) 0 (by decide)).2.1⟩

/-- C4.  On a well-formed array column, `array_remove` is idempotent:
`array_remove (array_remove a v) v = array_remove a v` as columns, with the same
offsets, the same nested data and the same element null map. -/
theorem array_remove_idempotent (a : ArrayColumn) (v : List Int) (hwf : a.WF)
    (_hv : v.length = a.offsets.length) :
    array_remove (array_remove a v) v = array_remove a v := by
  have hout := array_remove_eq_ofRows a v hwf
  have hwf2 : (array_remove a v).WF := by rw [hout]; exact WF_ofRows _ _
  have hlen : (array_remove a v).offsets.length = a.offsets.length := by
    rw [hout]; simp [ArrayColumn.ofRows, length_cumFrom]
  have hnull : (array_remove a v).nested_null_map.isSome = a.nested_null_map.isSome := by
    unfold array_remove _execute_number
    cases a.nested_null_map <;> rfl
  rw [array_remove_eq_ofRows (array_remove a v) v hwf2, hlen, hnull]
  conv => rhs; rw [hout]
  congr 1
  apply List.map_congr_left
  intro row hrow
  have hrow1 : row < a.offsets.length := List.mem_range.mp hrow
  unfold keptRow
  rw [rawRow_array_remove a v hwf row hrow1]
  unfold keptRow
  exact filterMap_keepPair_idem _ _

/-- Witness of C4: a column of four rows with null elements. -/
theorem array_remove_idempotent_witness :
    array_remove (array_remove ⟨[1, 1, 2, 5, 6, 5, 7], some [1, 0, 0, 0, 0, 2, 0],
        [3, 3, 6, 7]⟩ [1, 9, 5, 7]) [1, 9, 5, 7] =
      array_remove ⟨[1, 1, 2, 5, 6, 5, 7], some [1, 0, 0, 0, 0, 2, 0], [3, 3, 6, 7]⟩
        [1, 9, 5, 7] :=
  array_remove_idempotent ⟨[1, 1, 2, 5, 6, 5, 7], some [1, 0, 0, 0, 0, 2, 0], [3, 3, 6, 7]⟩
    [1, 9, 5, 7] ⟨by decide, by decide, fun m h => by cases h; rfl⟩ (by decide)

theorem getD_cumFrom (ls : List Nat) : ∀ (c i : Nat), i < ls.length →
    (cumFrom c ls).getD i 0 =
      (match i with
        | 0 => c
        | r + 1 => (cumFrom c ls).getD r 0) + ls.getD i 0 := by
  induction ls with
  | nil => intro c i hi; simp at hi
  | cons x xs ih =>
    intro c i hi
    cases i with
    | zero => simp [cumFrom]
    | succ j =>
      have hj : j < xs.length := by simpa using hi
      have h1 := ih (c + x) j hj
      cases j with
      | zero => simpa [cumFrom] using h1
      | succ k => simpa [cumFrom] using h1

theorem getD_cumFrom_zero (ls : List Nat) (i : Nat) (hi : i < ls.length) :
    (cumFrom 0 ls).getD i 0 = offsetBefore (cumFrom 0 ls) i + ls.getD i 0 := by
  rw [getD_cumFrom ls 0 i hi]
  cases i <;> rfl

theorem length_filterMap_keepPair (t : Int) (l : List (Int × Nat)) :
    (l.filterMap (keepPair t)).length + l.countP (fun p => p.2 == 0 && p.1 == t) =
      l.length := by
  induction l with
  | nil => rfl
  | cons p ps ih =>
    by_cases hf : p.2 ≠ 0
    · have hk : keepPair t p = some (0, 1) := by simp [keepPair, hf]
      rw [List.filterMap_cons_some hk, List.countP_cons]
      simp only [List.length_cons]
      have : (p.2 == 0 && p.1 == t) = false := by simp [hf]
      rw [this]
      simp only [Bool.false_eq_true, if_false]
      omega
    · have hf0 : p.2 = 0 := not_not.mp hf
      by_cases hv : p.1 = t
      · have hk : keepPair t p = none := by simp [keepPair, hf, hv]
        rw [List.filterMap_cons_none hk, List.countP_cons]
        have : (p.2 == 0 && p.1 == t) = true := by simp [hf0, hv]
        rw [this]
        simp only [if_true, List.length_cons]
        omega
      · have hk : keepPair t p = some (p.1, 0) := by simp [keepPair, hf, hv]
        rw [List.filterMap_cons_some hk, List.countP_cons]
        have : (p.2 == 0 && p.1 == t) = false := by simp [hv]
        rw [this]
        simp only [Bool.false_eq_true, if_false, List.length_cons]
        omega

theorem ArrayColumn.WF.length_rawRow {a : ArrayColumn} (h : a.WF) (row : Nat) :
    (a.rawRow row).length = a.offsets.getD row 0 - offsetBefore a.offsets row := by
  have hle := h.getD_le row
  have hfl := h.flags_length
  unfold ArrayColumn.rawRow rowSegment ArrayColumn.rawPairs
  rw [List.length_take, List.length_drop, List.length_zip, hfl]
  omega

theorem length_keptRow (a : ArrayColumn) (v : List Int) (h : a.WF) (row : Nat) :
    (keptRow a v row).length + removedCount a v row =
      a.offsets.getD row 0 - offsetBefore a.offsets row := by
  rw [← h.length_rawRow row]
  exact length_filterMap_keepPair _ _

theorem offsets_array_remove (a : ArrayColumn) (v : List Int) (h : a.WF) (row : Nat)
    (hrow : row < a.offsets.length) :
    (array_remove a v).offsets.getD row 0 =
      offsetBefore (array_remove a v).offsets row + (keptRow a v row).length := by
  rw [array_remove_eq_ofRows a v h]
  simp only [ArrayColumn.ofRows]
  rw [getD_cumFrom_zero _ row (by simpa using hrow)]
  congr 1
  simp [List.getD_eq_getElem?_getD, hrow]

/-- C12.  For a well-formed input column (offsets non-decreasing and ending at
the nested length), the output of `array_remove` has one offset per input row;
for every row `i` the output offset is the previous output offset plus
`len_i - removed_i`, where `len_i = offsets[i] - offsets[i-1]` and `removed_i`
counts the non-null elements of the row equal to the scalar; the output offsets
are non-decreasing; the last output offset is the length of the output nested
data, and of the output element null map when the input is nullable. -/
theorem array_remove_offsets (a : ArrayColumn) (v : List Int) (hwf : a.WF)
    (_hv : v.length = a.offsets.length) :
    (array_remove a v).offsets.length = a.offsets.length ∧
    (∀ i, i < a.offsets.length →
      removedCount a v i ≤ a.offsets.getD i 0 - offsetBefore a.offsets i ∧
      (array_remove a v).offsets.getD i 0 =
        offsetBefore (array_remove a v).offsets i +
          (a.offsets.getD i 0 - offsetBefore a.offsets i - removedCount a v i)) ∧
    (array_remove a v).offsets.Pairwise (fun x y => x ≤ y) ∧
    offsetsBack (array_remove a v).offsets = (array_remove a v).nested.length ∧
    (array_remove a v).nested_null_map.isSome = a.nested_null_map.isSome ∧
    (∀ m, (array_remove a v).nested_null_map = some m →
      offsetsBack (array_remove a v).offsets = m.length) := by
  have hout := array_remove_eq_ofRows a v hwf
  have hwf2 : (array_remove a v).WF := by rw [hout]; exact WF_ofRows _ _
  refine ⟨?_, ?_, hwf2.sorted, hwf2.back_eq, ?_, ?_⟩
  · rw [hout]; simp [ArrayColumn.ofRows, length_cumFrom]
  · intro i hi
    have h1 := length_keptRow a v hwf i
    have h2 := offsets_array_remove a v hwf i hi
    constructor
    · omega
    · rw [h2]; omega
  · unfold array_remove _execute_number
    cases a.nested_null_map <;> rfl
  · intro m hm
    rw [hwf2.back_eq, hwf2.null_len m hm]

/-- Witness of C12: a column of four rows with null elements. -/
theorem array_remove_offsets_witness :
    (array_remove ⟨[1, 1, 2, 5, 6, 5, 7], some [1, 0, 0, 0, 0, 2, 0], [3, 3, 6, 7]⟩
        [1, 9, 5, 7]).offsets = [2, 2, 4, 4] ∧
    (array_remove ⟨[1, 1, 2, 5, 6, 5, 7], some [1, 0, 0, 0, 0, 2, 0], [3, 3, 6, 7]⟩
        [1, 9, 5, 7]).offsets.length = ([3, 3, 6, 7] : List Nat).length :=
  ⟨by decide,
   (array_remove_offsets ⟨[1, 1, 2, 5, 6, 5, 7], some [1, 0, 0, 0, 0, 2, 0], [3, 3, 6, 7]⟩
      [1, 9, 5, 7] ⟨by decide, by decide, fun m h => by cases h; rfl⟩ (by decide)).1⟩

/-! ## Theorems: `array_remove`, type dispatch -/

theorem _execute_number_expanded_none (cls : ColumnClass) (offsets : List Nat)
    (nested_column right_column : PlainColumn) (nm : Option (List Nat))
    (h : right_column.is_column cls = false) :
    _execute_number_expanded cls offsets nested_column right_column nm = none := by
  unfold _execute_number_expanded
  rw [if_neg (by rw [h]; simp)]

/-- A pair that is not a pair of two text types, with a right column that is not
of the class the branch of the element type instantiates, gets no column from
`_execute_non_nullable`. -/
theorem _execute_non_nullable_none (preds : TypePredicates) (left : ArrayArg)
    (left_type right_type : DataTypeInfo) (right_column : PlainColumn)
    (hstr : ¬ (preds.is_string_type right_type.primitive_type = true ∧
      preds.is_string_type left_type.nested_primitive_type = true))
    (hcls : ∀ cls, (preds.is_number right_type.primitive_type = true ∧
        preds.is_number left_type.nested_primitive_type = true) ∨
      (preds.is_date_or_datetime right_type.primitive_type = true ∧
        preds.is_date_or_datetime left_type.nested_primitive_type = true) ∨
      (preds.is_date_v2_or_datetime_v2 right_type.primitive_type = true ∧
        preds.is_date_v2_or_datetime_v2 left_type.nested_primitive_type = true) →
      nestedColumnType left_type.nested_primitive_type = some cls →
      right_column.is_column cls = false) :
    _execute_non_nullable preds left left_type right_column right_type = none := by
  unfold _execute_non_nullable
  simp only [Bool.and_eq_true]
  rw [if_neg hstr]
  by_cases hnum : preds.is_number right_type.primitive_type = true ∧
      preds.is_number left_type.nested_primitive_type = true
  · rw [if_pos hnum]
    have hc := fun cls => hcls cls (Or.inl hnum)
    cases he : left_type.nested_primitive_type <;> rw [he] at hc <;>
      first
        | rfl
        | exact _execute_number_expanded_none _ _ _ _ _ (hc _ rfl)
  · rw [if_neg hnum]
    by_cases hdate : preds.is_date_or_datetime right_type.primitive_type = true ∧
        preds.is_date_or_datetime left_type.nested_primitive_type = true
    · rw [if_pos hdate]
      have hc := fun cls => hcls cls (Or.inr (Or.inl hdate))
      split
      · rename_i he
        rw [he] at hc
        exact _execute_number_expanded_none _ _ _ _ _ (hc _ rfl)
      · split
        · rename_i he
          rw [he] at hc
          exact _execute_number_expanded_none _ _ _ _ _ (hc _ rfl)
        · rfl
    · rw [if_neg hdate]
      by_cases hd2 : preds.is_date_v2_or_datetime_v2 right_type.primitive_type = true ∧
          preds.is_date_v2_or_datetime_v2 left_type.nested_primitive_type = true
      · rw [if_pos hd2]
        have hc := fun cls => hcls cls (Or.inr (Or.inr hd2))
        split
        · rename_i he
          rw [he] at hc
          exact _execute_number_expanded_none _ _ _ _ _ (hc _ rfl)
        · split
          · rename_i he
            rw [he] at hc
            exact _execute_number_expanded_none _ _ _ _ _ (hc _ rfl)
          · rfl
      · rw [if_neg hd2]

/-- Two text types, the same or not, take the text path, which produces a
column. -/
theorem _execute_non_nullable_text (preds : TypePredicates) (left : ArrayArg)
    (left_type right_type : DataTypeInfo) (right_column : PlainColumn)
    (hr : preds.is_string_type right_type.primitive_type = true)
    (hl : preds.is_string_type left_type.nested_primitive_type = true) :
    _execute_non_nullable preds left left_type right_column right_type =
      some (_execute_string left.offsets left.nested right_column left.nested_null_map) := by
  unfold _execute_non_nullable
  simp only [hr, hl, Bool.and_self, if_true]

/-- Every type with a column class in the dispatch is one of the dispatched
types. -/
theorem mem_dispatchedTypes (t : PrimitiveType) (cls : ColumnClass)
    (h : nestedColumnType t = some cls) : t ∈ dispatchedTypes := by
  cases t <;> first | (simp [nestedColumnType] at h; done) | decide

/-- Counterexample to C14: with two different text types, text type 0 for the
array elements and text type 1 for the scalar (as `array<string>` with a
`varchar` scalar), the pair is not of the same concrete type, and yet
`_execute_non_nullable` produces a column, `execute_impl` returns OK and the
destination of the block is replaced: `array_remove(["a", "b"], "b") = ["a"]`. -/
theorem array_remove_type_mismatch_counterexample :
    ¬ SameConcreteType sampleTypePredicates (PrimitiveType.other 0) (PrimitiveType.other 1) ∧
    _execute_non_nullable sampleTypePredicates
        ⟨[2], PlainColumn.strings [1, 2] [97, 98], none⟩
        ⟨"Array(String)", PrimitiveType.TYPE_ARRAY, PrimitiveType.other 0⟩
        (PlainColumn.strings [1] [98])
        ⟨"Varchar(10)", PrimitiveType.other 1, PrimitiveType.other 1⟩ =
      some ⟨[1], PlainColumn.strings [1] [97], none⟩ ∧
    FunctionArrayRemove.execute_impl sampleTypePredicates
      [⟨RemoveColumn.array ⟨[2], PlainColumn.strings [1, 2] [97, 98], none⟩,
          ⟨"Array(String)", PrimitiveType.TYPE_ARRAY, PrimitiveType.other 0⟩⟩,
       ⟨RemoveColumn.plain (PlainColumn.strings [1] [98]),
          ⟨"Varchar(10)", PrimitiveType.other 1, PrimitiveType.other 1⟩⟩,
       ⟨RemoveColumn.plain (PlainColumn.strings [] []),
          ⟨"Array(String)", PrimitiveType.TYPE_ARRAY, PrimitiveType.other 0⟩⟩]
      [0, 1] 2 =
      some (Status.OK,
        [⟨RemoveColumn.array ⟨[2], PlainColumn.strings [1, 2] [97, 98], none⟩,
            ⟨"Array(String)", PrimitiveType.TYPE_ARRAY, PrimitiveType.other 0⟩⟩,
         ⟨RemoveColumn.plain (PlainColumn.strings [1] [98]),
            ⟨"Varchar(10)", PrimitiveType.other 1, PrimitiveType.other 1⟩⟩,
         ⟨RemoveColumn.array ⟨[1], PlainColumn.strings [1] [97], none⟩,
            ⟨"Array(String)", PrimitiveType.TYPE_ARRAY, PrimitiveType.other 0⟩⟩]) :=
  ⟨by decide, by decide, by decide⟩

/-- C14, amended.  The scalar column being a column of the scalar's type:
(1) when the pair (array element type, scalar type) is not of the same concrete
type inside one supported family and is not a pair of two text types,
`_execute_non_nullable` produces no column, and `execute_impl` on a block holding
the two arguments returns a `RuntimeError` whose message names the types of both
operands, with the block, the destination position included, as it was;
(2) a pair of two text types, the same or not, takes the text path:
`_execute_non_nullable` produces the column of `_execute_string`, and
`execute_impl` returns OK and replaces the destination by it. -/
theorem array_remove_type_mismatch (preds : TypePredicates) (left : ArrayArg)
    (left_type right_type : DataTypeInfo) (right_column : PlainColumn)
    (hcol : ColumnOfType right_type.primitive_type right_column) :
    (¬ SameConcreteType preds left_type.nested_primitive_type right_type.primitive_type →
      ¬ (preds.is_string_type right_type.primitive_type = true ∧
        preds.is_string_type left_type.nested_primitive_type = true) →
      _execute_non_nullable preds left left_type right_column right_type = none ∧
      ∀ (block : List ColumnWithTypeAndName) (arguments : List Nat) (result : Nat),
        block[arguments.getD 0 0]? = some ⟨RemoveColumn.array left, left_type⟩ →
        block[arguments.getD 1 0]? = some ⟨RemoveColumn.plain right_column, right_type⟩ →
        FunctionArrayRemove.execute_impl preds block arguments result =
          some (Status.RuntimeError
            ("unsupported types for function array_remove(" ++ left_type.name ++ ", " ++
              right_type.name ++ ")"), block)) ∧
    (preds.is_string_type right_type.primitive_type = true →
      preds.is_string_type left_type.nested_primitive_type = true →
      _execute_non_nullable preds left left_type right_column right_type =
        some (_execute_string left.offsets left.nested right_column left.nested_null_map) ∧
      ∀ (block : List ColumnWithTypeAndName) (arguments : List Nat) (result : Nat)
        (dest : ColumnWithTypeAndName),
        block[arguments.getD 0 0]? = some ⟨RemoveColumn.array left, left_type⟩ →
        block[arguments.getD 1 0]? = some ⟨RemoveColumn.plain right_column, right_type⟩ →
        block[result]? = some dest →
        FunctionArrayRemove.execute_impl preds block arguments result =
          some (Status.OK, block.set result
            { dest with
              column := RemoveColumn.array (_execute_string left.offsets left.nested
                right_column left.nested_null_map) })) := by
  constructor
  · intro hmis hstr
    have hnone : _execute_non_nullable preds left left_type right_column right_type =
        none := by
      apply _execute_non_nullable_none preds left left_type right_type right_column hstr
      intro cls hfam hc
      cases hb : right_column.is_column cls with
      | false => rfl
      | true =>
        exfalso
        have heq := hcol _ (mem_dispatchedTypes _ _ hc) cls hc hb
        apply hmis
        refine ⟨heq, ?_⟩
        rw [← heq] at hfam
        rcases hfam with h | h | h
        · exact Or.inr (Or.inl h.2)
        · exact Or.inr (Or.inr (Or.inl h.2))
        · exact Or.inr (Or.inr (Or.inr h.2))
    refine ⟨hnone, ?_⟩
    intro block arguments result h0 h1
    unfold FunctionArrayRemove.execute_impl
    simp only [h0, h1, hnone]
  · intro hr hl
    have hsome := _execute_non_nullable_text preds left left_type right_type right_column hr hl
    refine ⟨hsome, ?_⟩
    intro block arguments result dest h0 h1 hd
    unfold FunctionArrayRemove.execute_impl
    simp only [h0, h1, hsome, hd]

/-- Witness of C14 (amended): `array<int>` with a `bigint` scalar, `array<date>`
with a `datetime` scalar and `array<int>` with a text scalar get no column; an
array of text type 0 with a scalar of text type 1 gets a column. -/
theorem array_remove_type_mismatch_witness :
    _execute_non_nullable sampleTypePredicates
        ⟨[2], PlainColumn.numbers ColumnClass.ColumnInt32 [1, 2], none⟩
        ⟨"Array(Int32)", PrimitiveType.TYPE_ARRAY, PrimitiveType.TYPE_INT⟩
        (PlainColumn.numbers ColumnClass.ColumnInt64 [2])
        ⟨"Int64", PrimitiveType.TYPE_BIGINT, PrimitiveType.TYPE_BIGINT⟩ = none ∧
    _execute_non_nullable sampleTypePredicates
        ⟨[2], PlainColumn.numbers ColumnClass.ColumnDate [1, 2], none⟩
        ⟨"Array(Date)", PrimitiveType.TYPE_ARRAY, PrimitiveType.TYPE_DATE⟩
        (PlainColumn.numbers ColumnClass.ColumnDateTime [2])
        ⟨"DateTime", PrimitiveType.TYPE_DATETIME, PrimitiveType.TYPE_DATETIME⟩ = none ∧
    _execute_non_nullable sampleTypePredicates
        ⟨[2], PlainColumn.numbers ColumnClass.ColumnInt32 [1, 2], none⟩
        ⟨"Array(Int32)", PrimitiveType.TYPE_ARRAY, PrimitiveType.TYPE_INT⟩
        (PlainColumn.strings [1] [97])
        ⟨"String", PrimitiveType.other 0, PrimitiveType.other 0⟩ = none ∧
    _execute_non_nullable sampleTypePredicates
        ⟨[2], PlainColumn.strings [1, 2] [97, 98], none⟩
        ⟨"Array(String)", PrimitiveType.TYPE_ARRAY, PrimitiveType.other 0⟩
        (PlainColumn.strings [1] [98])
        ⟨"Varchar(10)", PrimitiveType.other 1, PrimitiveType.other 1⟩ =
      some (_execute_string [2] (PlainColumn.strings [1, 2] [97, 98])
        (PlainColumn.strings [1] [98]) none) :=
  ⟨((array_remove_type_mismatch sampleTypePredicates
      ⟨[2], PlainColumn.numbers ColumnClass.ColumnInt32 [1, 2], none⟩
      ⟨"Array(Int32)", PrimitiveType.TYPE_ARRAY, PrimitiveType.TYPE_INT⟩
      ⟨"Int64", PrimitiveType.TYPE_BIGINT, PrimitiveType.TYPE_BIGINT⟩
      (PlainColumn.numbers ColumnClass.ColumnInt64 [2]) (by decide)).1
        (by decide) (by decide)).1,
   ((array_remove_type_mismatch sampleTypePredicates
      ⟨[2], PlainColumn.numbers ColumnClass.ColumnDate [1, 2], none⟩
      ⟨"Array(Date)", PrimitiveType.TYPE_ARRAY, PrimitiveType.TYPE_DATE⟩
      ⟨"DateTime", PrimitiveType.TYPE_DATETIME, PrimitiveType.TYPE_DATETIME⟩
      (PlainColumn.numbers ColumnClass.ColumnDateTime [2]) (by decide)).1
        (by decide) (by decide)).1,
   ((array_remove_type_mismatch sampleTypePredicates
      ⟨[2], PlainColumn.numbers ColumnClass.ColumnInt32 [1, 2], none⟩
      ⟨"Array(Int32)", PrimitiveType.TYPE_ARRAY, PrimitiveType.TYPE_INT⟩
      ⟨"String", PrimitiveType.other 0, PrimitiveType.other 0⟩
      (PlainColumn.strings [1] [97]) (by decide)).1
        (by decide) (by decide)).1,
   ((array_remove_type_mismatch sampleTypePredicates
      ⟨[2], PlainColumn.strings [1, 2] [97, 98], none⟩
      ⟨"Array(String)", PrimitiveType.TYPE_ARRAY, PrimitiveType.other 0⟩
      ⟨"Varchar(10)", PrimitiveType.other 1, PrimitiveType.other 1⟩
      (PlainColumn.strings [1] [98]) (by decide)).2 rfl rfl).1⟩

theorem length_removeRows (offsets : List Nat) (src target : List Int)
    (nm : Option (List Nat)) : ∀ (n row : Nat) (s : RemoveOuter),
    (removeRows offsets src target nm n row s).dst_offsets.length =
      s.dst_offsets.length + n := by
  intro n
  induction n with
  | zero => intro row s; rfl
  | succ k ih =>
    intro row s
    unfold removeRows
    rw [ih]
    unfold removeRow
    simp only []
    split <;> simp only [List.length_append, List.length_singleton] <;> omega

theorem length_offsets_execute_number (offsets : List Nat) (src target : List Int)
    (nm : Option (List Nat)) :
    (_execute_number offsets src target nm).offsets.length = offsets.length := by
  unfold _execute_number
  simp only []
  rw [length_removeRows]
  simp

theorem length_stringRows (offsets src_offs src_chars target_offs target_chars : List Nat)
    (nm : Option (List Nat)) : ∀ (n row : Nat) (s : StringOuter),
    (stringRows offsets src_offs src_chars target_offs target_chars nm n row
      s).dst_offsets.length = s.dst_offsets.length + n := by
  intro n
  induction n with
  | zero => intro row s; rfl
  | succ k ih =>
    intro row s
    unfold stringRows
    rw [ih]
    unfold stringRow
    simp only []
    split <;> simp only [List.length_append, List.length_singleton] <;> omega

theorem length_offsets_execute_string (offsets : List Nat)
    (nested_column right_column : PlainColumn) (nm : Option (List Nat)) :
    (_execute_string offsets nested_column right_column nm).offsets.length =
      offsets.length := by
  unfold _execute_string
  simp only []
  rw [length_stringRows]
  simp

theorem length_offsets_execute_number_expanded (cls : ColumnClass) (offsets : List Nat)
    (nested_column right_column : PlainColumn) (nm : Option (List Nat)) (res : ArrayArg)
    (h : _execute_number_expanded cls offsets nested_column right_column nm = some res) :
    res.offsets.length = offsets.length := by
  unfold _execute_number_expanded at h
  split at h
  · simp only [Option.some.injEq] at h
    rw [← h]
    exact length_offsets_execute_number _ _ _ _
  · simp at h

/-- Whatever path `_execute_non_nullable` takes, the column it produces has one
offset per row of the array column. -/
theorem length_offsets_execute_non_nullable (preds : TypePredicates) (left : ArrayArg)
    (left_type right_type : DataTypeInfo) (right_column : PlainColumn) (res : ArrayArg)
    (h : _execute_non_nullable preds left left_type right_column right_type = some res) :
    res.offsets.length = left.offsets.length := by
  unfold _execute_non_nullable at h
  simp only [] at h
  split at h
  · simp only [Option.some.injEq] at h
    rw [← h]
    exact length_offsets_execute_string _ _ _ _
  · split at h
    · split at h
      all_goals
        first
          | exact length_offsets_execute_number_expanded _ _ _ _ _ _ h
          | simp at h
    · split at h
      · split at h
        · exact length_offsets_execute_number_expanded _ _ _ _ _ _ h
        · split at h
          · exact length_offsets_execute_number_expanded _ _ _ _ _ _ h
          · simp at h
      · split at h
        · split at h
          · exact length_offsets_execute_number_expanded _ _ _ _ _ _ h
          · split at h
            · exact length_offsets_execute_number_expanded _ _ _ _ _ _ h
            · simp at h
        · simp at h

/-- C15.  (1) On a well-formed column the number path keeps the rows: the output
of `array_remove` has as many offsets as the input, and every empty input row
(`offsets[i] = offsets[i-1]`) gives an empty output row whose offset is the
previous output offset.  (2) Whenever `execute_impl` returns OK, on either path,
the destination holds an array column with as many rows as the input array
column and the rest of the block is as it was. -/
theorem array_remove_preserves_rows (a : ArrayColumn) (v : List Int) (hwf : a.WF)
    (_hv : v.length = a.offsets.length) :
    ((array_remove a v).offsets.length = a.offsets.length ∧
      ∀ i, i < a.offsets.length → a.offsets.getD i 0 = offsetBefore a.offsets i →
        (array_remove a v).offsets.getD i 0 = offsetBefore (array_remove a v).offsets i ∧
        (array_remove a v).rawRow i = []) ∧
    ∀ (preds : TypePredicates) (block block1 : List ColumnWithTypeAndName)
      (arguments : List Nat) (result : Nat) (left : ArrayArg) (left_type : DataTypeInfo),
      block[arguments.getD 0 0]? = some ⟨RemoveColumn.array left, left_type⟩ →
      FunctionArrayRemove.execute_impl preds block arguments result =
        some (Status.OK, block1) →
      ∃ dest res, block[result]? = some dest ∧
        block1 = block.set result { dest with column := RemoveColumn.array res } ∧
        res.offsets.length = left.offsets.length := by
  constructor
  · refine ⟨length_offsets_execute_number _ _ _ _, ?_⟩
    intro i hi hempty
    have hk : keptRow a v i = [] := by
      have h1 := length_keptRow a v hwf i
      rw [hempty, Nat.sub_self] at h1
      exact List.length_eq_zero.mp (by omega)
    have h2 := offsets_array_remove a v hwf i hi
    rw [hk] at h2
    exact ⟨by simpa using h2, by rw [rawRow_array_remove a v hwf i hi, hk]⟩
  · intro preds block block1 arguments result left left_type h0 hrun
    unfold FunctionArrayRemove.execute_impl at hrun
    rw [h0] at hrun
    cases h1 : block[arguments.getD 1 0]? with
    | none => rw [h1] at hrun; simp at hrun
    | some arg1 =>
      rw [h1] at hrun
      simp only [] at hrun
      cases hc : arg1.column with
      | array x => rw [hc] at hrun; simp at hrun
      | plain right_column =>
        rw [hc] at hrun
        simp only [] at hrun
        cases hres : _execute_non_nullable preds left left_type right_column arg1.type with
        | none => rw [hres] at hrun; simp at hrun
        | some res =>
          rw [hres] at hrun
          simp only [] at hrun
          cases hdest : block[result]? with
          | none => rw [hdest] at hrun; simp at hrun
          | some dest =>
            rw [hdest] at hrun
            simp only [Option.some.injEq, Prod.mk.injEq, true_and] at hrun
            exact ⟨dest, res, rfl, hrun.symm,
              length_offsets_execute_non_nullable _ _ _ _ _ _ hres⟩

/-- Witness of C15: a column whose first row is empty; and `execute_impl` on
`array_remove([[], [1, 2]], [1, 1])`. -/
theorem array_remove_preserves_rows_witness :
    (array_remove ⟨[1, 2], none, [0, 2]⟩ [1, 1]).offsets = [0, 1] ∧
    (array_remove ⟨[1, 2], none, [0, 2]⟩ [1, 1]).offsets.length =
      ([0, 2] : List Nat).length ∧
    FunctionArrayRemove.execute_impl sampleTypePredicates
      [⟨RemoveColumn.array ⟨[0, 2], PlainColumn.numbers ColumnClass.ColumnInt32 [1, 2], none⟩,
          ⟨"Array(Int32)", PrimitiveType.TYPE_ARRAY, PrimitiveType.TYPE_INT⟩⟩,
       ⟨RemoveColumn.plain (PlainColumn.numbers ColumnClass.ColumnInt32 [1, 1]),
          ⟨"Int32", PrimitiveType.TYPE_INT, PrimitiveType.TYPE_INT⟩⟩,
       ⟨RemoveColumn.plain (PlainColumn.numbers ColumnClass.ColumnInt32 []),
          ⟨"Array(Int32)", PrimitiveType.TYPE_ARRAY, PrimitiveType.TYPE_INT⟩⟩]
      [0, 1] 2 =
      some (Status.OK,
        [⟨RemoveColumn.array ⟨[0, 2], PlainColumn.numbers ColumnClass.ColumnInt32 [1, 2],
            none⟩,
            ⟨"Array(Int32)", PrimitiveType.TYPE_ARRAY, PrimitiveType.TYPE_INT⟩⟩,
         ⟨RemoveColumn.plain (PlainColumn.numbers ColumnClass.ColumnInt32 [1, 1]),
            ⟨"Int32", PrimitiveType.TYPE_INT, PrimitiveType.TYPE_INT⟩⟩,
         ⟨RemoveColumn.array ⟨[0, 1], PlainColumn.numbers ColumnClass.ColumnInt32 [2], none⟩,
            ⟨"Array(Int32)", PrimitiveType.TYPE_ARRAY, PrimitiveType.TYPE_INT⟩⟩]) :=
  ⟨by decide,
   (array_remove_preserves_rows ⟨[1, 2], none, [0, 2]⟩ [1, 1]
      ⟨by decide, by decide, fun m h => by cases h⟩ (by decide)).1.1,
   by decide⟩

/-! ## Theorems: array aggregation -/

theorem nonNullValues_cons (p : Int × Nat) (l : List (Int × Nat)) :
    nonNullValues (p :: l) =
      if p.2 = 0 then p.1 :: nonNullValues l else nonNullValues l := by
  unfold nonNullValues
  by_cases h : p.2 = 0
  · simp [List.filter_cons, h]
  · simp [List.filter_cons, h]

theorem addAt_eq {σ ρ : Type} (f : NestedAggregate σ ρ) (data : List Int)
    (nm : Option (List Nat)) (i : Nat) (place : AggregatePlace σ) :
    f.addAt data nm i place =
      if (effFlags nm data.length).getD i 0 = 0 then
        { flag := true, nested := f.add place.nested (data.getD i 0) }
      else place := by
  cases nm with
  | none =>
    simp only [NestedAggregate.addAt, nullAt, effFlags, getD_replicate_zero]
    simp
  | some m =>
    simp only [NestedAggregate.addAt, nullAt, effFlags]
    by_cases hf : m.getD i 0 = 0
    · have hb : ¬ (m.getD i 0 != 0) = true := by rw [hf]; simp
      rw [if_neg hb, if_pos hf]
    · have hb : (m.getD i 0 != 0) = true := bne_iff_ne.mpr hf
      rw [if_pos hb, if_neg hf]

/-- The fold over a range of positions folds the non-null values of the range in
order, and raises the flag when there is one. -/
theorem addFrom_eq {σ ρ : Type} (f : NestedAggregate σ ρ) (data : List Int)
    (nm : Option (List Nat)) : ∀ (n i : Nat) (place : AggregatePlace σ),
    i + n ≤ data.length → data.length ≤ (effFlags nm data.length).length →
    f.addFrom data nm n i place =
      { flag := place.flag ||
          decide (nonNullValues
            (((List.zip data (effFlags nm data.length)).drop i).take n) ≠ []),
        nested := (nonNullValues
          (((List.zip data (effFlags nm data.length)).drop i).take n)).foldl f.add
            place.nested } := by
  intro n
  induction n with
  | zero =>
    intro i place _ _
    cases place
    simp [NestedAggregate.addFrom, nonNullValues]
  | succ k ih =>
    intro i place hb hfl
    have hlt : i < (List.zip data (effFlags nm data.length)).length := by
      rw [List.length_zip]; omega
    have h1 : i < data.length := by omega
    have h2 : i < (effFlags nm data.length).length := by omega
    have hdrop := List.drop_eq_getElem_cons hlt
    have hsrc : data.getD i 0 = data[i] := by
      rw [List.getD_eq_getElem?_getD, List.getElem?_eq_getElem h1]; rfl
    have hflag : (effFlags nm data.length).getD i 0 = (effFlags nm data.length)[i] := by
      rw [List.getD_eq_getElem?_getD, List.getElem?_eq_getElem h2]; rfl
    unfold NestedAggregate.addFrom
    rw [ih (i + 1) _ (by omega) hfl, addAt_eq, hdrop, List.take_succ_cons,
      nonNullValues_cons, List.getElem_zip, hsrc, hflag]
    by_cases hz : (effFlags nm data.length)[i] = 0
    · simp [hz]
    · simp [hz]

theorem ArrayColumn.WF.before_le {a : ArrayColumn} (h : a.WF) (i : Nat)
    (hi : i < a.offsets.length) : offsetBefore a.offsets i ≤ a.offsets.getD i 0 := by
  cases i with
  | zero => exact Nat.zero_le _
  | succ r =>
    have hr : r < a.offsets.length := by omega
    simp only [offsetBefore]
    rw [List.getD_eq_getElem?_getD, List.getD_eq_getElem?_getD,
      List.getElem?_eq_getElem hr, List.getElem?_eq_getElem hi]
    exact List.pairwise_iff_getElem.mp h.sorted r (r + 1) hr hi (Nat.lt_succ_self r)

/-- The row body of `execute_type` on a well-formed column: the entry it appends
is the aggregate of the row. -/
theorem aggregateRow_eq {σ ρ : Type} (f : NestedAggregate σ ρ) (a : ArrayColumn)
    (h : a.WF) (i : Nat) (hi : i < a.offsets.length) (s : AggregateLoop σ ρ) :
    (aggregateRow f a.offsets a.nested a.nested_null_map i s).res_column =
      s.res_column ++ [rowAggregate f (a.rawRow i)] := by
  have hle := h.getD_le i
  have hfl := h.flags_length
  have hbe := h.before_le i hi
  unfold aggregateRow
  simp only [beq_iff_eq]
  by_cases hemp : offsetBefore a.offsets i = a.offsets.getD i 0
  · rw [if_pos hemp]
    have hrow : a.rawRow i = [] := by
      unfold ArrayColumn.rawRow rowSegment
      rw [hemp, Nat.sub_self, List.take_zero]
    simp [insert_default, hrow, rowAggregate, nonNullValues]
  · rw [if_neg hemp]
    simp only [NestedAggregate.insert_result_into, NestedAggregate.add_batch_range,
      NestedAggregate.reset]
    have hn : a.offsets.getD i 0 - 1 + 1 - offsetBefore a.offsets i =
        a.offsets.getD i 0 - offsetBefore a.offsets i := by omega
    rw [hn, addFrom_eq f a.nested a.nested_null_map _ _ _ (by omega) (by omega)]
    have hrow : a.rawRow i =
        ((List.zip a.nested (effFlags a.nested_null_map a.nested.length)).drop
          (offsetBefore a.offsets i)).take
          (a.offsets.getD i 0 - offsetBefore a.offsets i) := rfl
    rw [← hrow]
    unfold rowAggregate
    by_cases hnn : nonNullValues (a.rawRow i) = []
    · simp [hnn]
    · simp [hnn]

theorem aggregateRows_eq {σ ρ : Type} (f : NestedAggregate σ ρ) (a : ArrayColumn)
    (h : a.WF) : ∀ (n i : Nat) (s : AggregateLoop σ ρ), i + n ≤ a.offsets.length →
    (aggregateRows f a.offsets a.nested a.nested_null_map n i s).res_column =
      s.res_column ++ (List.range' i n).map (fun j => rowAggregate f (a.rawRow j)) := by
  intro n
  induction n with
  | zero => intro i s _; simp [aggregateRows]
  | succ k ih =>
    intro i s hb
    unfold aggregateRows
    rw [ih (i + 1) _ (by omega), aggregateRow_eq f a h i (by omega)]
    simp [List.range'_succ]

/-- Closed form of the result column on a well-formed column: entry `i` is the
aggregate of row `i`. -/
theorem arrayAggregate_eq {σ ρ : Type} (f : NestedAggregate σ ρ) (a : ArrayColumn)
    (h : a.WF) :
    arrayAggregate f a =
      (List.range a.offsets.length).map (fun j => rowAggregate f (a.rawRow j)) := by
  unfold arrayAggregate
  rw [aggregateRows_eq f a h _ 0 _ (by omega), List.range_eq_range']
  simp

theorem getElem?_arrayAggregate {σ ρ : Type} (f : NestedAggregate σ ρ) (a : ArrayColumn)
    (h : a.WF) (i : Nat) (hi : i < a.offsets.length) :
    (arrayAggregate f a)[i]? = some (rowAggregate f (a.rawRow i)) := by
  rw [arrayAggregate_eq f a h]
  simp [hi]

theorem execute_type_numbers {σ ρ : Type} (f : NestedAggregate σ ρ) (cls : ColumnClass)
    (a : ArrayColumn) :
    execute_type f cls (PlainColumn.numbers cls a.nested) a.nested_null_map a.offsets =
      some (arrayAggregate f a) := by
  simp [execute_type, PlainColumn.is_column, PlainColumn.get_data, arrayAggregate]

theorem wrapSigned_add_wrap (bits : Nat) (x y : Int) :
    wrapSigned bits (wrapSigned bits x + y) = wrapSigned bits (x + y) := by
  unfold wrapSigned
  have e1 : (x + 2 ^ (bits - 1)) % 2 ^ bits - 2 ^ (bits - 1) + y + 2 ^ (bits - 1) =
      (x + 2 ^ (bits - 1)) % 2 ^ bits + y := by ring
  have e2 : x + y + 2 ^ (bits - 1) = x + 2 ^ (bits - 1) + y := by ring
  rw [e1, Int.emod_add_emod, e2]

theorem foldl_sumAggregate (bits : Nat) (l : List Int) : ∀ c : Int,
    l.foldl (sumAggregate bits).add (wrapSigned bits c) = wrapSigned bits (c + l.sum) := by
  induction l with
  | nil => intro c; simp
  | cons x xs ih =>
    intro c
    rw [List.foldl_cons]
    have e : (sumAggregate bits).add (wrapSigned bits c) x = wrapSigned bits (c + x) :=
      wrapSigned_add_wrap bits c x
    rw [e, ih (c + x), List.sum_cons, add_assoc]

theorem foldl_sumAggregate_init (bits : Nat) (l : List Int) (h : l ≠ []) :
    l.foldl (sumAggregate bits).add (sumAggregate bits).init = wrapSigned bits l.sum := by
  cases l with
  | nil => exact absurd rfl h
  | cons x xs =>
    rw [List.foldl_cons]
    have e : (sumAggregate bits).add (sumAggregate bits).init x = wrapSigned bits x := by
      simp [sumAggregate]
    rw [e, foldl_sumAggregate bits xs x, List.sum_cons]

theorem wrapSigned_of_range (b : Bool) (x : Int)
    (h1 : -(2 ^ (sumResultBits b - 1)) ≤ x) (h2 : x < 2 ^ (sumResultBits b - 1)) :
    wrapSigned (sumResultBits b) x = x := by
  cases b
  · simp only [sumResultBits, Bool.false_eq_true, if_false] at h1 h2 ⊢
    norm_num at h1 h2
    unfold wrapSigned
    norm_num
    omega
  · simp only [sumResultBits, if_true] at h1 h2 ⊢
    norm_num at h1 h2
    unfold wrapSigned
    norm_num
    omega

theorem foldl_minAggregate (l : List Int) : ∀ c : Int,
    ∃ m, l.foldl minAggregate.add (some c) = some m ∧ m ∈ c :: l ∧
      ∀ y ∈ c :: l, m ≤ y := by
  induction l with
  | nil => intro c; exact ⟨c, rfl, by simp, by simp⟩
  | cons x xs ih =>
    intro c
    rw [List.foldl_cons]
    by_cases hx : x < c
    · have e : minAggregate.add (some c) x = some x := by simp [minAggregate, hx]
      obtain ⟨m, h1, h2, h3⟩ := ih x
      rw [e]
      refine ⟨m, h1, List.mem_cons_of_mem _ h2, ?_⟩
      intro y hy
      simp only [List.mem_cons] at hy
      rcases hy with hy | hy | hy
      · have := h3 x (List.mem_cons_self _ _); omega
      · rw [hy]; exact h3 x (List.mem_cons_self _ _)
      · exact h3 y (List.mem_cons_of_mem _ hy)
    · have e : minAggregate.add (some c) x = some c := by simp [minAggregate, hx]
      obtain ⟨m, h1, h2, h3⟩ := ih c
      rw [e]
      refine ⟨m, h1, ?_, ?_⟩
      · simp only [List.mem_cons] at h2 ⊢
        rcases h2 with h2 | h2
        · exact Or.inl h2
        · exact Or.inr (Or.inr h2)
      · intro y hy
        simp only [List.mem_cons] at hy
        rcases hy with hy | hy | hy
        · rw [hy]; exact h3 c (List.mem_cons_self _ _)
        · have := h3 c (List.mem_cons_self _ _); omega
        · exact h3 y (List.mem_cons_of_mem _ hy)

theorem foldl_maxAggregate (l : List Int) : ∀ c : Int,
    ∃ m, l.foldl maxAggregate.add (some c) = some m ∧ m ∈ c :: l ∧
      ∀ y ∈ c :: l, y ≤ m := by
  induction l with
  | nil => intro c; exact ⟨c, rfl, by simp, by simp⟩
  | cons x xs ih =>
    intro c
    rw [List.foldl_cons]
    by_cases hx : x > c
    · have e : maxAggregate.add (some c) x = some x := by simp [maxAggregate, hx]
      obtain ⟨m, h1, h2, h3⟩ := ih x
      rw [e]
      refine ⟨m, h1, List.mem_cons_of_mem _ h2, ?_⟩
      intro y hy
      simp only [List.mem_cons] at hy
      rcases hy with hy | hy | hy
      · have := h3 x (List.mem_cons_self _ _); omega
      · rw [hy]; exact h3 x (List.mem_cons_self _ _)
      · exact h3 y (List.mem_cons_of_mem _ hy)
    · have e : maxAggregate.add (some c) x = some c := by simp [maxAggregate, hx]
      obtain ⟨m, h1, h2, h3⟩ := ih c
      rw [e]
      refine ⟨m, h1, ?_, ?_⟩
      · simp only [List.mem_cons] at h2 ⊢
        rcases h2 with h2 | h2
        · exact Or.inl h2
        · exact Or.inr (Or.inr h2)
      · intro y hy
        simp only [List.mem_cons] at hy
        rcases hy with hy | hy | hy
        · rw [hy]; exact h3 c (List.mem_cons_self _ _)
        · have := h3 c (List.mem_cons_self _ _); omega
        · exact h3 y (List.mem_cons_of_mem _ hy)

theorem rowAggregate_min (l : List (Int × Nat)) (h : nonNullValues l ≠ []) :
    ∃ m, rowAggregate minAggregate l = some m ∧ m ∈ nonNullValues l ∧
      ∀ y ∈ nonNullValues l, m ≤ y := by
  unfold rowAggregate
  rw [if_neg h]
  cases hl : nonNullValues l with
  | nil => exact absurd hl h
  | cons c cs =>
    obtain ⟨m, h1, h2, h3⟩ := foldl_minAggregate cs c
    refine ⟨m, ?_, h2, h3⟩
    rw [List.foldl_cons]
    have e : minAggregate.add minAggregate.init c = some c := rfl
    rw [e, h1]
    rfl

theorem rowAggregate_max (l : List (Int × Nat)) (h : nonNullValues l ≠ []) :
    ∃ m, rowAggregate maxAggregate l = some m ∧ m ∈ nonNullValues l ∧
      ∀ y ∈ nonNullValues l, y ≤ m := by
  unfold rowAggregate
  rw [if_neg h]
  cases hl : nonNullValues l with
  | nil => exact absurd hl h
  | cons c cs =>
    obtain ⟨m, h1, h2, h3⟩ := foldl_maxAggregate cs c
    refine ⟨m, ?_, h2, h3⟩
    rw [List.foldl_cons]
    have e : maxAggregate.add maxAggregate.init c = some c := rfl
    rw [e, h1]
    rfl

/-- C16.  For every aggregate function (every aggregate kind and element type),
a row of a well-formed column whose range is empty (`offsets[i-1] = offsets[i]`):
(1) the row body appends a null entry and leaves the aggregate state as it was,
without reset and without fold; (2) entry `i` of the nullable result column is
null; (3) the same holds for the column `execute_type` returns. -/
theorem array_aggregate_empty_row {σ ρ : Type} (f : NestedAggregate σ ρ) (a : ArrayColumn)
    (hwf : a.WF) (i : Nat) (hi : i < a.offsets.length)
    (hempty : offsetBefore a.offsets i = a.offsets.getD i 0) :
    (∀ s : AggregateLoop σ ρ,
      aggregateRow f a.offsets a.nested a.nested_null_map i s =
        { place := s.place, res_column := s.res_column ++ [none] }) ∧
    (arrayAggregate f a)[i]? = some none ∧
    ∀ cls : ColumnClass,
      (execute_type f cls (PlainColumn.numbers cls a.nested) a.nested_null_map
        a.offsets).map (fun c : List (Option ρ) => List.get? c i) = some (some none) := by
  have hentry : (arrayAggregate f a)[i]? = some none := by
    rw [getElem?_arrayAggregate f a hwf i hi]
    have hrow : a.rawRow i = [] := by
      unfold ArrayColumn.rawRow rowSegment
      rw [hempty, Nat.sub_self, List.take_zero]
    simp [hrow, rowAggregate, nonNullValues]
  refine ⟨?_, hentry, ?_⟩
  · intro s
    unfold aggregateRow
    simp only [beq_iff_eq]
    rw [if_pos hempty]
    rfl
  · intro cls
    simp only [execute_type_numbers, Option.map, List.get?_eq_getElem?, hentry]

/-- Witness of C16: `array_sum([[1,2,3], []])`. -/
theorem array_aggregate_empty_row_witness :
    array_sum false ⟨[1, 2, 3], none, [3, 3]⟩ = [some 6, none] ∧
    (arrayAggregate (sumAggregate 64) ⟨[1, 2, 3], none, [3, 3]⟩)[1]? = some none :=
  ⟨by decide,
   (array_aggregate_empty_row (sumAggregate 64) ⟨[1, 2, 3], none, [3, 3]⟩
      ⟨by decide, by decide, fun m h => by cases h⟩ 1 (by decide) (by decide)).2.1⟩

/-- C17.  For every aggregate function (every aggregate kind and element type),
a non-empty row of a well-formed column in which every element is null yields a
null entry of the result column. -/
theorem array_aggregate_all_null_row {σ ρ : Type} (f : NestedAggregate σ ρ)
    (a : ArrayColumn) (hwf : a.WF) (i : Nat) (hi : i < a.offsets.length)
    (_hne : offsetBefore a.offsets i ≠ a.offsets.getD i 0)
    (hnull : ∀ p ∈ a.rawRow i, p.2 ≠ 0) :
    (arrayAggregate f a)[i]? = some none := by
  rw [getElem?_arrayAggregate f a hwf i hi]
  have hnn : nonNullValues (a.rawRow i) = [] := by
    unfold nonNullValues
    rw [List.map_eq_nil_iff, List.filter_eq_nil_iff]
    intro p hp
    simpa using hnull p hp
  simp [rowAggregate, hnn]

/-- Witness of C17: `array_max([[NULL, NULL]])`, the null elements having the
raw values 7 and 9. -/
theorem array_aggregate_all_null_row_witness :
    array_max ⟨[7, 9], some [1, 1], [2]⟩ = [none] ∧
    (arrayAggregate maxAggregate ⟨[7, 9], some [1, 1], [2]⟩)[0]? = some none :=
  ⟨by decide,
   array_aggregate_all_null_row maxAggregate ⟨[7, 9], some [1, 1], [2]⟩
     ⟨by decide, by decide, fun m h => by cases h; rfl⟩ 0 (by decide) (by decide)
     (by decide)⟩

/-- C18, counterexample.  For the `Int64` row `[9223372036854775807, 1]` the
sum of the elements is 9223372036854775808, which the `Int64` result type of
`array_sum` cannot hold: the result is -9223372036854775808. -/
theorem array_sum_row_counterexample :
    array_sum false ⟨[9223372036854775807, 1], none, [2]⟩ =
      [some (-9223372036854775808)] ∧
    (nonNullValues (ArrayColumn.rawRow ⟨[9223372036854775807, 1], none, [2]⟩ 0)).sum =
      9223372036854775808 := by
  constructor <;> decide

/-- C18, amended.  For every row of a well-formed column of an integer element
type with at least one non-null element, the entry of `array_sum` is not null
and is the sum of exactly the non-null elements of the row, each folded once and
the null elements excluded, reduced to the signed result type (64 bits, 128 bits
for `Int128` elements); it is the exact sum whenever the exact sum fits the
result type. -/
theorem array_sum_row (element_is_int128 : Bool) (a : ArrayColumn) (hwf : a.WF) (i : Nat)
    (hi : i < a.offsets.length) (hnn : nonNullValues (a.rawRow i) ≠ []) :
    (array_sum element_is_int128 a)[i]? =
      some (some (wrapSigned (sumResultBits element_is_int128)
        (nonNullValues (a.rawRow i)).sum)) ∧
    (-(2 ^ (sumResultBits element_is_int128 - 1)) ≤ (nonNullValues (a.rawRow i)).sum →
      (nonNullValues (a.rawRow i)).sum < 2 ^ (sumResultBits element_is_int128 - 1) →
      (array_sum element_is_int128 a)[i]? = some (some (nonNullValues (a.rawRow i)).sum)) := by
  have h1 : (array_sum element_is_int128 a)[i]? =
      some (some (wrapSigned (sumResultBits element_is_int128)
        (nonNullValues (a.rawRow i)).sum)) := by
    unfold array_sum
    rw [getElem?_arrayAggregate _ a hwf i hi]
    unfold rowAggregate
    rw [if_neg hnn, foldl_sumAggregate_init _ _ hnn]
    rfl
  refine ⟨h1, ?_⟩
  intro hlo hhi
  rw [h1, wrapSigned_of_range element_is_int128 _ hlo hhi]

/-- Witness of C18 (amended): `array_sum([1,2,3]) = 6` and
`array_sum([1, NULL, 3]) = 4`. -/
theorem array_sum_row_witness :
    array_sum false ⟨[1, 2, 3, 1, 5, 3], some [0, 0, 0, 0, 1, 0], [3, 6]⟩ =
      [some 6, some 4] ∧
    (array_sum false ⟨[1, 2, 3, 1, 5, 3], some [0, 0, 0, 0, 1, 0], [3, 6]⟩)[1]? =
      some (some (nonNullValues
        (ArrayColumn.rawRow ⟨[1, 2, 3, 1, 5, 3], some [0, 0, 0, 0, 1, 0], [3, 6]⟩ 1)).sum) :=
  ⟨by decide,
   (array_sum_row false ⟨[1, 2, 3, 1, 5, 3], some [0, 0, 0, 0, 1, 0], [3, 6]⟩
      ⟨by decide, by decide, fun m h => by cases h; rfl⟩ 1 (by decide) (by decide)).2
      (by decide) (by decide)⟩

/-- C19.  For every row of a well-formed column of an integer element type with
at least one non-null element, the entry of `array_min` is a non-null element of
the row that is less than or equal to every non-null element of the row, and the
entry of `array_max` is a non-null element of the row that is greater than or
equal to every non-null element of the row. -/
theorem array_min_max_row (a : ArrayColumn) (hwf : a.WF) (i : Nat)
    (hi : i < a.offsets.length) (hnn : nonNullValues (a.rawRow i) ≠ []) :
    (∃ m, (array_min a)[i]? = some (some m) ∧ m ∈ nonNullValues (a.rawRow i) ∧
      ∀ y ∈ nonNullValues (a.rawRow i), m ≤ y) ∧
    (∃ m, (array_max a)[i]? = some (some m) ∧ m ∈ nonNullValues (a.rawRow i) ∧
      ∀ y ∈ nonNullValues (a.rawRow i), y ≤ m) := by
  constructor
  · obtain ⟨m, h1, h2, h3⟩ := rowAggregate_min (a.rawRow i) hnn
    refine ⟨m, ?_, h2, h3⟩
    unfold array_min
    rw [getElem?_arrayAggregate _ a hwf i hi, h1]
  · obtain ⟨m, h1, h2, h3⟩ := rowAggregate_max (a.rawRow i) hnn
    refine ⟨m, ?_, h2, h3⟩
    unfold array_max
    rw [getElem?_arrayAggregate _ a hwf i hi, h1]

/-- Witness of C19: `array_min([3,1,2]) = 1` and `array_max([3,1,2]) = 3`. -/
theorem array_min_max_row_witness :
    (array_min ⟨[3, 1, 2], none, [3]⟩ = [some 1] ∧
      array_max ⟨[3, 1, 2], none, [3]⟩ = [some 3]) ∧
    ((∃ m, (array_min ⟨[3, 1, 2], none, [3]⟩)[0]? = some (some m) ∧
        m ∈ nonNullValues (ArrayColumn.rawRow ⟨[3, 1, 2], none, [3]⟩ 0) ∧
        ∀ y ∈ nonNullValues (ArrayColumn.rawRow ⟨[3, 1, 2], none, [3]⟩ 0), m ≤ y) ∧
      (∃ m, (array_max ⟨[3, 1, 2], none, [3]⟩)[0]? = some (some m) ∧
        m ∈ nonNullValues (ArrayColumn.rawRow ⟨[3, 1, 2], none, [3]⟩ 0) ∧
        ∀ y ∈ nonNullValues (ArrayColumn.rawRow ⟨[3, 1, 2], none, [3]⟩ 0), y ≤ m)) :=
  ⟨⟨by decide, by decide⟩,
   array_min_max_row ⟨[3, 1, 2], none, [3]⟩
     ⟨by decide, by decide, fun m h => by cases h⟩ 0 (by decide) (by decide)⟩

/-- C20.  For every aggregate function and every row `i` of a well-formed
column: (1) entry `i` of the result is entry 0 of the result on the one-row
column that holds only the elements and null flags of row `i`; (2) it is the
entry of any row with the same elements and null flags in any other well-formed
column, so the rows before `i` do not influence it; (3) on a non-empty row the
row body leaves the same aggregate state and appends the same entry whatever
state it starts from, the state being reset before the fold. -/
theorem array_aggregate_row_independent {σ ρ : Type} (f : NestedAggregate σ ρ)
    (a : ArrayColumn) (hwf : a.WF) (i : Nat) (hi : i < a.offsets.length) :
    (arrayAggregate f a)[i]? =
      (arrayAggregate f (ArrayColumn.ofRows a.nested_null_map.isSome [a.rawRow i]))[0]? ∧
    (∀ (b : ArrayColumn) (j : Nat), b.WF → j < b.offsets.length →
      b.rawRow j = a.rawRow i → (arrayAggregate f b)[j]? = (arrayAggregate f a)[i]?) ∧
    (offsetBefore a.offsets i ≠ a.offsets.getD i 0 →
      ∀ s s1 : AggregateLoop σ ρ, ∃ (p : AggregatePlace σ) (e : Option ρ),
        aggregateRow f a.offsets a.nested a.nested_null_map i s =
          { place := p, res_column := s.res_column ++ [e] } ∧
        aggregateRow f a.offsets a.nested a.nested_null_map i s1 =
          { place := p, res_column := s1.res_column ++ [e] }) := by
  have hany : ∀ (b : ArrayColumn) (j : Nat), b.WF → j < b.offsets.length →
      b.rawRow j = a.rawRow i → (arrayAggregate f b)[j]? = (arrayAggregate f a)[i]? := by
    intro b j hb hj hrow
    rw [getElem?_arrayAggregate f b hb j hj, getElem?_arrayAggregate f a hwf i hi, hrow]
  refine ⟨?_, hany, ?_⟩
  · symm
    apply hany _ 0 (WF_ofRows _ _)
    · simp [ArrayColumn.ofRows, cumFrom]
    · have hcond : a.nested_null_map.isSome = true ∨
          ∀ p ∈ [a.rawRow i].flatten, p.2 = 0 := by
        cases hn : a.nested_null_map with
        | some m => left; rfl
        | none =>
          right
          intro p hp
          simp only [List.flatten_cons, List.flatten_nil, List.append_nil] at hp
          exact rawRow_snd_zero a hn i p hp
      rw [rawRow_ofRows _ _ hcond 0 (by simp)]
      rfl
  · intro hne s s1
    unfold aggregateRow
    simp only [beq_iff_eq]
    rw [if_neg hne, if_neg hne]
    exact ⟨_, _, rfl, rfl⟩

/-- Witness of C20: the second row of `array_sum([[1,2,3], [1,NULL,3]])` against
the one-row column `[[1,NULL,3]]`. -/
theorem array_aggregate_row_independent_witness :
    (arrayAggregate (sumAggregate 64)
        ⟨[1, 2, 3, 1, 5, 3], some [0, 0, 0, 0, 1, 0], [3, 6]⟩)[1]? =
      (arrayAggregate (sumAggregate 64)
        (ArrayColumn.ofRows true
          [ArrayColumn.rawRow ⟨[1, 2, 3, 1, 5, 3], some [0, 0, 0, 0, 1, 0], [3, 6]⟩ 1]))[0]? ∧
    arrayAggregate (sumAggregate 64)
        (ArrayColumn.ofRows true
          [ArrayColumn.rawRow ⟨[1, 2, 3, 1, 5, 3], some [0, 0, 0, 0, 1, 0], [3, 6]⟩ 1]) =
      [some 4] :=
  ⟨(array_aggregate_row_independent (sumAggregate 64)
      ⟨[1, 2, 3, 1, 5, 3], some [0, 0, 0, 0, 1, 0], [3, 6]⟩
      ⟨by decide, by decide, fun m h => by cases h; rfl⟩ 1 (by decide)).1,
   by decide⟩

/-! ## Theorems: array_range, temporal domain and termination -/

theorem vectorDateTimeRow_null (ops : TimeOps) (maxSize fuel : Nat)
    (start end_ step : List Int) (row : Nat) (d : RangeDest)
    (h : d.args_null_map.getD row 0 ≠ 0 ∨ step.getD row 0 ≤ 0 ∨
      ops.is_valid_date (start.getD row 0) = false ∨
      ops.is_valid_date (end_.getD row 0) = false) :
    vectorDateTimeRow ops maxSize fuel start end_ step row d =
      some (Except.ok (d.pushNull row)) := by
  unfold vectorDateTimeRow
  simp only []
  rw [if_pos (by simpa using h)]
  rfl

/-- C28.  Temporal domain, row `row` with `step <= 0`, or a start value that is
not a valid date, or an end value that is not a valid date.  (1) On every
destination the loop body returns without error, sets the row's entry of the
row-level null mask to 1, repeats the previous offset and leaves the nested data
and its null map as they are.  (2) The loop goes on with the remaining rows.
(3) In the result of every successful call the row is marked null and is a
zero-length segment. -/
theorem array_range_temporal_null_rule (ops : TimeOps) (maxSize fuel : Nat)
    (start end_ step : List Int) (row : Nat) (hrow : row < start.length)
    (hrule : step.getD row 0 ≤ 0 ∨ ops.is_valid_date (start.getD row 0) = false ∨
      ops.is_valid_date (end_.getD row 0) = false) :
    (∀ d : RangeDest,
      vectorDateTimeRow ops maxSize fuel start end_ step row d =
        some (Except.ok { args_null_map := d.args_null_map.set row 1,
                          nested_column := d.nested_column,
                          dest_nested_null_map := d.dest_nested_null_map,
                          dest_offsets := d.dest_offsets ++ [offsetsBack d.dest_offsets] })) ∧
    (∀ (n : Nat) (d : RangeDest),
      forRows (vectorDateTimeRow ops maxSize fuel start end_ step) (n + 1) row d =
        forRows (vectorDateTimeRow ops maxSize fuel start end_ step) n (row + 1)
          (d.pushNull row)) ∧
    (∀ dN : RangeDest,
      vectorDateTime ops maxSize fuel start end_ step (RangeDest.init start.length) =
        some (Except.ok dN) →
      dN.args_null_map.getD row 0 = 1 ∧
      dN.dest_offsets.getD row 0 = offsetBefore dN.dest_offsets row ∧
      rowSegment dN.nested_column dN.dest_offsets row = []) := by
  have hbody : ∀ d : RangeDest, vectorDateTimeRow ops maxSize fuel start end_ step row d =
      some (Except.ok (d.pushNull row)) :=
    fun d => vectorDateTimeRow_null ops maxSize fuel start end_ step row d (Or.inr hrule)
  refine ⟨fun d => hbody d, ?_, ?_⟩
  · intro n d
    conv => lhs; unfold forRows
    rw [hbody d]
  · intro dN h
    obtain ⟨_, _, hframe⟩ := forRows_frame _
      (vectorDateTimeRow_pushBody ops maxSize fuel start end_ step) start.length 0
      (RangeDest.init start.length) dN (rangeBase_init _) h
    obtain ⟨dj, dj1, hbj, hlen, hrunj, hview⟩ := hframe row (Nat.zero_le _) (by omega)
    rw [hbody dj] at hrunj
    have e1 := Except.ok.inj (Option.some.inj hrunj)
    have hlen1 : row < dj.args_null_map.length := by
      rw [hlen]; simpa [RangeDest.init] using hrow
    rw [← e1, view_pushNull_new hbj hlen1] at hview
    refine ⟨congrArg RowView.flag hview, ?_, congrArg RowView.segment hview⟩
    have h1 := congrArg RowView.offset hview
    have h2 := congrArg RowView.before hview
    simp only [RangeDest.view] at h1 h2
    rw [h1, h2]

/-- Witness of C28: two rows on the seconds time line with a unit of one day;
the second row has step 0. -/
theorem array_range_temporal_null_rule_witness :
    (([0, 1] : List Nat).getD 1 0 = 1 ∧ ([2, 2] : List Nat).getD 1 0 = offsetBefore [2, 2] 1 ∧
      rowSegment ([0, 86400] : List Int) [2, 2] 1 = []) :=
  (array_range_temporal_null_rule (timeLineOps 86400) 1000000 10 [0, 0] [172800, 172800]
    [1, 0] 1 (by decide) (by decide)).2.2
    { args_null_map := [0, 1], nested_column := [0, 86400],
      dest_nested_null_map := [0, 0], dest_offsets := [2, 2] } (by decide)

/-- The temporal loop on the seconds time line with a unit of one second, `n`
steps before `end`: it returns the `n` values when the counter `move` ends at
`max_array_size_as_field + 1` or below. -/
theorem dateTimeLoop_unit (maxSize : Nat) (e : Int) : ∀ (n fuel : Nat) (idx : Int)
    (move : Nat) (s : LoopState), n < fuel → idx + (n : Int) = e →
    move + n ≤ maxSize + 1 →
    dateTimeLoop (timeLineOps 1) maxSize e 1 fuel idx move s =
      some (Except.ok
        { nested_column := s.nested_column ++ progression idx 1 n,
          dest_nested_null_map := s.dest_nested_null_map ++ List.replicate n 0,
          offset := s.offset + n }) := by
  intro n
  induction n with
  | zero =>
    intro fuel idx move s hf he _
    cases fuel with
    | zero => omega
    | succ f =>
      have hd : ¬ (timeLineOps 1).datetime_diff idx e > 0 := by
        simp only [timeLineOps]; omega
      unfold dateTimeLoop
      rw [if_neg hd]
      simp [progression]
  | succ m ih =>
    intro fuel idx move s hf he hmove
    cases fuel with
    | zero => omega
    | succ f =>
      have hd : (timeLineOps 1).datetime_diff idx e > 0 := by
        simp only [timeLineOps]; push_cast at he; omega
      have hadd : (timeLineOps 1).date_time_add idx 1 = idx + 1 := by
        simp [timeLineOps]
      unfold dateTimeLoop
      rw [if_pos hd, if_neg (by omega), hadd,
        ih f (idx + 1) (move + 1) _ (by omega) (by push_cast at he; omega) (by omega)]
      simp [progression_succ, List.replicate_succ, Nat.add_assoc, Nat.add_comm 1 m]

/-- More steps before `end` than the counter allows: the loop returns the error. -/
theorem dateTimeLoop_unit_error (maxSize : Nat) (e : Int) : ∀ (n fuel : Nat) (idx : Int)
    (move : Nat) (s : LoopState), n < fuel → idx + (n : Int) < e →
    move + n = maxSize + 1 →
    dateTimeLoop (timeLineOps 1) maxSize e 1 fuel idx move s =
      some (Except.error (Status.InvalidArgument maxSize)) := by
  intro n
  induction n with
  | zero =>
    intro fuel idx move s hf he hmove
    cases fuel with
    | zero => omega
    | succ f =>
      have hd : (timeLineOps 1).datetime_diff idx e > 0 := by
        simp only [timeLineOps]; push_cast at he; omega
      unfold dateTimeLoop
      rw [if_pos hd, if_pos (by omega)]
  | succ m ih =>
    intro fuel idx move s hf he hmove
    cases fuel with
    | zero => omega
    | succ f =>
      have hd : (timeLineOps 1).datetime_diff idx e > 0 := by
        simp only [timeLineOps]; push_cast at he; omega
      have hadd : (timeLineOps 1).date_time_add idx 1 = idx + 1 := by
        simp [timeLineOps]
      unfold dateTimeLoop
      rw [if_pos hd, if_neg (by omega), hadd,
        ih f (idx + 1) (move + 1) _ (by omega) (by push_cast at he; omega) (by omega)]

/-- C27, the failing input.  Temporal domain on the seconds time line with a unit
of one second, one row with start 0, step 1 and end `max + 1`, where `max` is
`max_array_size_as_field`: the call succeeds and the row holds the `max + 1`
values `0, 1, ..., max`, one more than the limit.  The error is returned only
from end `max + 2` on: the test `move > max` of line 222 lets `move = max`
through. -/
theorem array_range_temporal_size_limit_off_by_one :
    (∀ maxSize : Nat,
      vectorDateTime (timeLineOps 1) maxSize (maxSize + 2) [0] [(maxSize : Int) + 1] [1]
          (RangeDest.init 1) =
        some (Except.ok
          { args_null_map := [0],
            nested_column := progression 0 1 (maxSize + 1),
            dest_nested_null_map := List.replicate (maxSize + 1) 0,
            dest_offsets := [maxSize + 1] }) ∧
      (progression 0 1 (maxSize + 1)).length = maxSize + 1) ∧
    (∀ maxSize : Nat,
      vectorDateTime (timeLineOps 1) maxSize (maxSize + 3) [0] [(maxSize : Int) + 2] [1]
          (RangeDest.init 1) =
        some (Except.error (Status.InvalidArgument maxSize))) ∧
    vectorDateTime (timeLineOps 1) 3 10 [0] [4] [1] (RangeDest.init 1) =
      some (Except.ok
        { args_null_map := [0], nested_column := [0, 1, 2, 3],
          dest_nested_null_map := [0, 0, 0, 0], dest_offsets := [4] }) := by
  refine ⟨fun maxSize => ⟨?_, progression_length _ _ _⟩, fun maxSize => ?_, by decide⟩
  · have hloop := dateTimeLoop_unit maxSize ((maxSize : Int) + 1) (maxSize + 1)
      (maxSize + 2) 0 0
      { nested_column := [], dest_nested_null_map := [], offset := 0 }
      (by omega) (by push_cast; omega) (by omega)
    simp only [vectorDateTime, List.length_singleton, forRows, vectorDateTimeRow,
      RangeDest.init, List.replicate, List.getD_cons_zero, offsetsBack]
    rw [if_neg (by simp [timeLineOps])]
    simp only [List.getLast?_nil, Option.getD_none] at hloop ⊢
    rw [hloop]
    simp [List.replicate_succ]
  · have hloop := dateTimeLoop_unit_error maxSize ((maxSize : Int) + 2) (maxSize + 1)
      (maxSize + 3) 0 0
      { nested_column := [], dest_nested_null_map := [], offset := 0 }
      (by omega) (by push_cast; omega) (by omega)
    simp only [vectorDateTime, List.length_singleton, forRows, vectorDateTimeRow,
      RangeDest.init, List.replicate, List.getD_cons_zero, offsetsBack]
    rw [if_neg (by simp [timeLineOps])]
    simp only [List.getLast?_nil, Option.getD_none] at hloop ⊢
    rw [hloop]

/-- The loop of the row `(2147483646, 2147483647, 2)` only sees even values of
`idx`: the sum `2147483646 + 2` wraps to `-2147483648`, and no even Int32 value
reaches the odd `end`. -/
theorem int32Loop_even_cycle : ∀ (fuel : Nat) (idx : Int) (s : LoopState),
    idx % 2 = 0 → -2147483648 ≤ idx → idx ≤ 2147483647 →
    int32Loop 2147483647 2 fuel idx s = none := by
  intro fuel
  induction fuel with
  | zero => intro idx s _ _ _; rfl
  | succ f ih =>
    intro idx s h2 hlo hhi
    unfold int32Loop
    have hlt : idx < 2147483647 := by omega
    rw [if_pos hlt]
    apply ih
    · unfold wrapInt32; omega
    · unfold wrapInt32; omega
    · unfold wrapInt32; omega

/-- C30, the failing input.  Integer domain, row `start = 2147483646`,
`end = 2147483647`, `step = 2`: all three are Int32 values, `start >= 0`,
`end >= 0`, `step > 0`, and the analytic length is 1, which passes the size check
for every maximum of at least 1.  After the first element `idx + step` is
`wrapInt32 2147483648 = -2147483648`, which is below `end` again: with any amount
of fuel the `while` loop, the loop body and the whole call do not return. -/
theorem array_range_int32_termination_overflow :
    analyticLength 2147483646 2147483647 2 = 1 ∧
    wrapInt32 (2147483646 + 2) = -2147483648 ∧
    (∀ (fuel : Nat) (s : LoopState), int32Loop 2147483647 2 fuel 2147483646 s = none) ∧
    (∀ m fuel : Nat,
      vectorInt32Row (m + 1) fuel [2147483646] [2147483647] [2] 0 (RangeDest.init 1) =
        none) ∧
    (∀ m fuel : Nat,
      vectorInt32 (m + 1) fuel [2147483646] [2147483647] [2] (RangeDest.init 1) = none) := by
  have hrow : ∀ m fuel : Nat,
      vectorInt32Row (m + 1) fuel [2147483646] [2147483647] [2] 0 (RangeDest.init 1) =
        none := by
    intro m fuel
    have h1 : analyticLength 2147483646 2147483647 2 = 1 := by decide
    simp only [vectorInt32Row, RangeDest.init, List.replicate, List.getD_cons_zero]
    rw [if_neg (by decide), h1, if_neg (by push_cast; omega),
      int32Loop_even_cycle fuel 2147483646 _ (by decide) (by decide) (by decide)]
  refine ⟨by decide, by decide,
    fun fuel s => int32Loop_even_cycle fuel 2147483646 s (by decide) (by decide) (by decide),
    hrow, fun m fuel => ?_⟩
  simp only [vectorInt32, List.length_singleton, forRows]
  rw [hrow m fuel]

/-- An error of the row loop is the error of the body on one of its rows. -/
theorem forRows_error_row (body : Nat → RangeDest → Option (Except Status RangeDest))
    (e : Status) : ∀ (n row : Nat) (d : RangeDest),
    forRows body n row d = some (Except.error e) →
    ∃ r d1, row ≤ r ∧ r < row + n ∧ body r d1 = some (Except.error e) := by
  intro n
  induction n with
  | zero => intro row d h; simp [forRows] at h
  | succ m ih =>
    intro row d h
    unfold forRows at h
    split at h
    · simp at h
    · rename_i e1 hrow
      simp only [Option.some.injEq, Except.error.injEq] at h
      subst h
      exact ⟨row, d, le_refl _, by omega, hrow⟩
    · obtain ⟨r, d1, h1, h2, h3⟩ := ih _ _ h
      exact ⟨r, d1, by omega, by omega, h3⟩

/-- The integer row body returns an error only on a row that passes the null
rule, has `start < end` and an analytic length above the maximum. -/
theorem vectorInt32Row_error (maxSize fuel : Nat) (start end_ step : List Int) (row : Nat)
    (d : RangeDest) (st : Status)
    (h : vectorInt32Row maxSize fuel start end_ step row d = some (Except.error st)) :
    st = Status.InvalidArgument maxSize ∧
    0 ≤ start.getD row 0 ∧ 0 ≤ end_.getD row 0 ∧ 0 < step.getD row 0 ∧
    start.getD row 0 < end_.getD row 0 ∧
    analyticLength (start.getD row 0) (end_.getD row 0) (step.getD row 0) >
      (maxSize : Int) := by
  unfold vectorInt32Row at h
  simp only [] at h
  split at h
  · simp at h
  · rename_i hrule
    split at h
    · rename_i hbig
      simp only [Option.some.injEq, Except.error.injEq] at h
      refine ⟨h.symm, ?_, ?_, ?_, hbig.1, hbig.2.2⟩
      · by_contra hc; exact hrule (Or.inr (Or.inl (by omega)))
      · by_contra hc; exact hrule (Or.inr (Or.inr (Or.inl (by omega))))
      · by_contra hc; exact hrule (Or.inr (Or.inr (Or.inr (by omega))))
    · split at h
      · simp at h
      · simp at h

/-- C31, the failing input.  (1) In the integer domain `vector` returns an error
only when some row passes the null rule, has `start < end` and an analytic length
strictly above `max_array_size_as_field`, and the error is the size-limit error:
rows of the null rule, rows with `start >= end` and rows of length at most the
maximum never raise it.  (2) The row `start = 1073741824`, `end = 2147483647`,
`step = 1073741824` has analytic length 1, at most every maximum of at least 1,
but the call does not return `OK`: `idx + step` wraps to `-2147483648` and with
any amount of fuel the call does not return. -/
theorem array_range_size_limit_boundary :
    (∀ (maxSize fuel : Nat) (start end_ step : List Int) (d : RangeDest) (st : Status),
      vectorInt32 maxSize fuel start end_ step d = some (Except.error st) →
      st = Status.InvalidArgument maxSize ∧
      ∃ r, r < start.length ∧
        0 ≤ start.getD r 0 ∧ 0 ≤ end_.getD r 0 ∧ 0 < step.getD r 0 ∧
        start.getD r 0 < end_.getD r 0 ∧
        analyticLength (start.getD r 0) (end_.getD r 0) (step.getD r 0) >
          (maxSize : Int)) ∧
    analyticLength 1073741824 2147483647 1073741824 = 1 ∧
    wrapInt32 (1073741824 + 1073741824) = -2147483648 ∧
    (∀ m fuel : Nat,
      vectorInt32 (m + 1) fuel [1073741824] [2147483647] [1073741824] (RangeDest.init 1) =
        none) := by
  refine ⟨?_, by decide, by decide, ?_⟩
  · intro maxSize fuel start end_ step d st h
    obtain ⟨r, d1, _, hr, hrun⟩ := forRows_error_row _ st _ _ _ h
    obtain ⟨h1, h2, h3, h4, h5, h6⟩ :=
      vectorInt32Row_error maxSize fuel start end_ step r d1 st hrun
    exact ⟨h1, r, by omega, h2, h3, h4, h5, h6⟩
  · intro m fuel
    have h1 : analyticLength 1073741824 2147483647 1073741824 = 1 := by decide
    simp only [vectorInt32, List.length_singleton, forRows, vectorInt32Row, RangeDest.init,
      List.replicate, List.getD_cons_zero]
    rw [if_neg (by decide), h1, if_neg (by push_cast; omega),
      int32Loop_overflow_cycle fuel 1073741824 _ (Or.inr (Or.inl rfl))]

/-- What `range_execute` does to the block: on `OK` the column at `result` is
replaced, on an error the block is as it was. -/
theorem range_execute_frame (dom : Domain) (maxSize fuel : Nat) (block : Block)
    (arguments : List Nat) (result rows : Nat) (st : Status) (b1 : Block)
    (h : range_execute dom maxSize fuel block arguments result rows = some (st, b1)) :
    (st = Status.OK ∧ result < block.length ∧ ∃ col, b1 = block.set result col) ∨
    (st = Status.InvalidArgument maxSize ∧ b1 = block) := by
  unfold range_execute at h
  split at h
  · split at h
    · split at h
      · rename_i start end_ step _ _ _
        cases hv : vector dom maxSize fuel start end_ step (RangeDest.init rows) with
        | none => rw [hv] at h; simp at h
        | some r =>
          rw [hv] at h
          cases r with
          | error e =>
            simp only [Option.some.injEq, Prod.mk.injEq] at h
            right
            rw [← h.1, ← h.2]
            exact ⟨vector_error dom maxSize fuel start end_ step _ e hv, rfl⟩
          | ok d =>
            simp only [] at h
            split at h
            · rename_i hres
              simp only [Option.some.injEq, Prod.mk.injEq] at h
              left
              exact ⟨h.1.symm, hres, _, h.2.symm⟩
            · simp at h
      · simp at h
    · simp at h
  · simp at h

theorem set_append_left {α : Type} (l l1 : List α) (i : Nat) (x : α) (h : i < l.length) :
    (l ++ l1).set i x = l.set i x ++ l1 := by
  induction l generalizing i with
  | nil => simp at h
  | cons y ys ih =>
    cases i with
    | zero => rfl
    | succ j =>
      simp only [List.cons_append, List.set_cons_succ, List.cons.injEq, true_and]
      exact ih j (by simpa using h)

/-- The frame of a call that appends the helper columns `helpers` and then runs
`range_execute`. -/
theorem range_execute_append_frame (dom : Domain) (maxSize fuel : Nat) (block helpers : Block)
    (arguments : List Nat) (result rows : Nat) (st : Status) (b1 : Block)
    (hres : result < block.length)
    (h : range_execute dom maxSize fuel (block ++ helpers) arguments result rows =
      some (st, b1)) :
    ∃ blk : Block, b1 = blk ++ helpers ∧ blk.length = block.length ∧
      (∀ i, i ≠ result → blk[i]? = block[i]?) ∧
      (st ≠ Status.OK → blk = block) ∧
      (st = Status.OK ∨ st = Status.InvalidArgument maxSize) := by
  rcases range_execute_frame dom maxSize fuel _ arguments result rows st b1 h with
    ⟨h1, _, col, h3⟩ | ⟨h1, h2⟩
  · refine ⟨block.set result col, ?_, by simp, ?_, fun hne => absurd h1 hne, Or.inl h1⟩
    · rw [h3, set_append_left _ _ _ _ hres]
    · intro i hi
      rw [List.getElem?_set_ne (Ne.symm hi)]
  · exact ⟨block, h2, rfl, fun _ _ => rfl, fun _ => rfl, Or.inr h1⟩

/-- C34.  For a block that has the destination position: (1) when the
one-argument form returns, the block is the caller's block followed by exactly
two helper columns, a start column of `input_rows_count` zeros and a step column
of `input_rows_count` ones; (2) when the two-argument form returns, it is the
caller's block followed by exactly one helper column, a step column of ones.  In
both, every column of the caller's block other than the one at the destination
position is unchanged, the status is `OK` or the size-limit error, and on the
error the column at the destination position is unchanged as well. -/
theorem array_range_frame (dom : Domain) (maxSize fuel : Nat) (block : Block)
    (arguments : List Nat) (result input_rows_count : Nat) (hres : result < block.length) :
    (∀ (st : Status) (b1 : Block),
      RangeOneImpl.execute_impl dom maxSize fuel block arguments result input_rows_count =
        some (st, b1) →
      ∃ blk : Block,
        b1 = blk ++ [Column.vec (List.replicate input_rows_count 0),
                     Column.vec (List.replicate input_rows_count 1)] ∧
        blk.length = block.length ∧
        (∀ i, i ≠ result → blk[i]? = block[i]?) ∧
        (st ≠ Status.OK → blk = block) ∧
        (st = Status.OK ∨ st = Status.InvalidArgument maxSize)) ∧
    (∀ (st : Status) (b1 : Block),
      RangeTwoImpl.execute_impl dom maxSize fuel block arguments result input_rows_count =
        some (st, b1) →
      ∃ blk : Block,
        b1 = blk ++ [Column.vec (List.replicate input_rows_count 1)] ∧
        blk.length = block.length ∧
        (∀ i, i ≠ result → blk[i]? = block[i]?) ∧
        (st ≠ Status.OK → blk = block) ∧
        (st = Status.OK ∨ st = Status.InvalidArgument maxSize)) := by
  constructor
  · intro st b1 h
    unfold RangeOneImpl.execute_impl at h
    simp only [List.append_assoc, List.singleton_append] at h
    exact range_execute_append_frame dom maxSize fuel block _ _ result input_rows_count st b1
      hres h
  · intro st b1 h
    unfold RangeTwoImpl.execute_impl at h
    simp only [] at h
    exact range_execute_append_frame dom maxSize fuel block _ _ result input_rows_count st b1
      hres h

/-- Witness of C34: `array_range(3)` on a block of the argument column and the
destination, and the same call with the maximum 2, which returns the size-limit
error. -/
theorem array_range_frame_witness :
    (∃ blk : Block,
      [Column.vec [3], Column.nullableArray [0, 1, 2] [0, 0, 0] [3] [0], Column.vec [0],
          Column.vec [1]] =
        blk ++ [Column.vec (List.replicate 1 0), Column.vec (List.replicate 1 1)] ∧
      blk.length = [Column.vec [3], Column.vec []].length ∧
      (∀ i, i ≠ 1 → blk[i]? = [Column.vec [3], Column.vec []][i]?) ∧
      (Status.OK ≠ Status.OK → blk = [Column.vec [3], Column.vec []]) ∧
      (Status.OK = Status.OK ∨ Status.OK = Status.InvalidArgument 1000000)) ∧
    RangeOneImpl.execute_impl Domain.int32 2 10 [Column.vec [3], Column.vec []] [0] 1 1 =
      some (Status.InvalidArgument 2,
        [Column.vec [3], Column.vec [], Column.vec [0], Column.vec [1]]) :=
  ⟨(array_range_frame Domain.int32 1000000 10 [Column.vec [3], Column.vec []] [0] 1 1
      (by decide)).1 Status.OK
      [Column.vec [3], Column.nullableArray [0, 1, 2] [0, 0, 0] [3] [0], Column.vec [0],
        Column.vec [1]] (by decide),
   by decide⟩

/-! ## Theorems: array_remove, hidden payloads and the text path -/

theorem removeStep_congr (src src1 : List Int) (nm : Option (List Nat)) (off : Nat)
    (t : Int) (pos : Nat) (s : RemoveInner)
    (h : ∀ i, nullAt nm i = false → src.getD i 0 = src1.getD i 0) :
    removeStep src nm off t pos s = removeStep src1 nm off t pos s := by
  unfold removeStep
  cases hn : nullAt nm (off + pos) with
  | true => simp
  | false => rw [h _ hn]

theorem removeInner_congr (src src1 : List Int) (nm : Option (List Nat)) (off : Nat)
    (t : Int) (h : ∀ i, nullAt nm i = false → src.getD i 0 = src1.getD i 0) :
    ∀ (n pos : Nat) (s : RemoveInner),
    removeInner src nm off t n pos s = removeInner src1 nm off t n pos s := by
  intro n
  induction n with
  | zero => intro pos s; rfl
  | succ k ih =>
    intro pos s
    unfold removeInner
    rw [removeStep_congr src src1 nm off t pos s h, ih]

theorem removeRows_congr (offsets : List Nat) (src src1 v : List Int)
    (nm : Option (List Nat))
    (h : ∀ i, nullAt nm i = false → src.getD i 0 = src1.getD i 0) :
    ∀ (n row : Nat) (s : RemoveOuter),
    removeRows offsets src v nm n row s = removeRows offsets src1 v nm n row s := by
  intro n
  induction n with
  | zero => intro row s; rfl
  | succ k ih =>
    intro row s
    unfold removeRows
    rw [ih]
    congr 1
    unfold removeRow
    simp only [removeInner_congr src src1 nm _ _ h]

theorem forall₂_getD_zero (data : List Int) (m : List Nat)
    (h : List.Forall₂ (fun (x : Int) (f : Nat) => f ≠ 0 → x = 0) data m) :
    ∀ j, m.getD j 0 ≠ 0 → data.getD j 0 = 0 := by
  induction h with
  | nil => intro j hj; simp at hj
  | cons hxy _ ih =>
    intro j hj
    cases j with
    | zero => simpa using hxy (by simpa using hj)
    | succ k => simpa using ih k (by simpa using hj)

theorem removeStep_nullsZero (src : List Int) (m : List Nat) (off : Nat) (t : Int)
    (pos : Nat) (s : RemoveInner)
    (h : List.Forall₂ (fun (x : Int) (f : Nat) => f ≠ 0 → x = 0) s.dst_data s.dst_null_map) :
    List.Forall₂ (fun (x : Int) (f : Nat) => f ≠ 0 → x = 0)
      (removeStep src (some m) off t pos s).dst_data
      (removeStep src (some m) off t pos s).dst_null_map := by
  unfold removeStep
  split
  · exact List.rel_append h (List.Forall₂.cons (fun _ => rfl) List.Forall₂.nil)
  · split
    · exact h
    · simp only [Option.isSome_some, if_true]
      exact List.rel_append h (List.Forall₂.cons (fun hne => absurd rfl hne) List.Forall₂.nil)

theorem removeInner_nullsZero (src : List Int) (m : List Nat) (off : Nat) (t : Int) :
    ∀ (n pos : Nat) (s : RemoveInner),
    List.Forall₂ (fun (x : Int) (f : Nat) => f ≠ 0 → x = 0) s.dst_data s.dst_null_map →
    List.Forall₂ (fun (x : Int) (f : Nat) => f ≠ 0 → x = 0)
      (removeInner src (some m) off t n pos s).dst_data
      (removeInner src (some m) off t n pos s).dst_null_map := by
  intro n
  induction n with
  | zero => intro pos s h; exact h
  | succ k ih =>
    intro pos s h
    unfold removeInner
    exact ih _ _ (removeStep_nullsZero src m off t pos s h)

theorem removeRows_nullsZero (offsets : List Nat) (src v : List Int) (m : List Nat) :
    ∀ (n row : Nat) (s : RemoveOuter),
    List.Forall₂ (fun (x : Int) (f : Nat) => f ≠ 0 → x = 0) s.dst_data s.dst_null_map →
    List.Forall₂ (fun (x : Int) (f : Nat) => f ≠ 0 → x = 0)
      (removeRows offsets src v (some m) n row s).dst_data
      (removeRows offsets src v (some m) n row s).dst_null_map := by
  intro n
  induction n with
  | zero => intro row s h; exact h
  | succ k ih =>
    intro row s h
    unfold removeRows
    apply ih
    unfold removeRow
    simp only []
    split
    · exact h
    · exact removeInner_nullsZero src m _ _ _ _ _ h

/-- C32.  Two array columns with the same offsets and the same element null map
whose raw values agree at every position that is not null (any raw values may
stand under the null flags), with the same scalars: (1) `array_remove` gives
identical outputs, offsets, nested data and null map; (2) in the output the null
map has the length of the nested data and the raw value under every null flag is
zero, the default value of the element type. -/
theorem array_remove_hidden_payloads (a b : ArrayColumn) (v : List Int)
    (hoff : a.offsets = b.offsets) (hnull : a.nested_null_map = b.nested_null_map)
    (hval : ∀ i, nullAt a.nested_null_map i = false →
      a.nested.getD i 0 = b.nested.getD i 0) :
    array_remove a v = array_remove b v ∧
    (∀ m, (array_remove a v).nested_null_map = some m →
      m.length = (array_remove a v).nested.length ∧
      ∀ j, m.getD j 0 ≠ 0 → (array_remove a v).nested.getD j 0 = 0) := by
  constructor
  · unfold array_remove _execute_number
    simp only []
    rw [← hoff, ← hnull, removeRows_congr a.offsets a.nested b.nested v a.nested_null_map hval]
  · intro m hm
    unfold array_remove _execute_number at hm ⊢
    simp only [] at hm ⊢
    cases hn : a.nested_null_map with
    | none => rw [hn] at hm; simp at hm
    | some m0 =>
      rw [hn] at hm
      simp only [Option.isSome_some, if_true, Option.some.injEq] at hm
      have hinv := removeRows_nullsZero a.offsets a.nested v m0 a.offsets.length 0
        { cur := 0, dst_data := [], dst_null_map := [], dst_offsets := [] }
        List.Forall₂.nil
      rw [hm] at hinv
      exact ⟨hinv.length_eq.symm, forall₂_getD_zero _ _ hinv⟩

/-- Witness of C32: `array_remove([9, 1, 2], 1)` and `array_remove([7, 1, 2], 1)`
with the first element null. -/
theorem array_remove_hidden_payloads_witness :
    array_remove ⟨[9, 1, 2], some [1, 0, 0], [3]⟩ [1] =
      array_remove ⟨[7, 1, 2], some [1, 0, 0], [3]⟩ [1] ∧
    array_remove ⟨[9, 1, 2], some [1, 0, 0], [3]⟩ [1] = ⟨[0, 2], some [1, 0], [2]⟩ :=
  ⟨(array_remove_hidden_payloads ⟨[9, 1, 2], some [1, 0, 0], [3]⟩
      ⟨[7, 1, 2], some [1, 0, 0], [3]⟩ [1] rfl rfl
      (fun i hi => by
        match i with
        | 0 => exact absurd hi (by decide)
        | 1 => rfl
        | 2 => rfl
        | k + 3 => rfl)).1,
   by decide⟩

theorem getD_encodedStrings (enc : List Nat → Int) (h0 : enc [] = 0) (offs chars : List Nat)
    (k : Nat) : (encodedStrings enc offs chars).getD k 0 = enc (strElem offs chars k) := by
  unfold encodedStrings
  by_cases hk : k < offs.length
  · simp [List.getD_eq_getElem?_getD, hk]
  · have hnone : offs[k]? = none := List.getElem?_eq_none (by omega)
    have hz : offs.getD k 0 = 0 := by simp [List.getD_eq_getElem?_getD, hnone]
    have he : strElem offs chars k = [] := by
      unfold strElem
      rw [hz, Nat.zero_sub, List.take_zero]
    rw [he, h0, List.getD_eq_getElem?_getD,
      List.getElem?_eq_none (by rw [List.length_map, List.length_range]; omega)]
    rfl

theorem length_strElem (offs chars : List Nat) (k : Nat)
    (hle : offs.getD k 0 ≤ chars.length) :
    (strElem offs chars k).length = offs.getD k 0 - offsetBefore offs k := by
  unfold strElem
  rw [List.length_take, List.length_drop]
  omega

theorem textRefines_push (enc : List Nat → Int) (ks : List (List Nat)) (x : List Nat)
    (dst_offs dst_chars : List Nat) (dst_data : List Int)
    (h : TextRefines enc ks dst_offs dst_chars dst_data) :
    TextRefines enc (ks ++ [x]) (dst_offs ++ [dst_chars.length + x.length]) (dst_chars ++ x)
      (dst_data ++ [enc x]) := by
  obtain ⟨h1, h2, h3⟩ := h
  refine ⟨by simp [h1], ?_, by simp [h3]⟩
  rw [List.map_append, cumFrom_append, h2, h1, length_flatten_eq_sum]
  simp [cumFrom]

theorem textRefines_back (enc : List Nat → Int) (ks : List (List Nat))
    (dst_offs dst_chars : List Nat) (dst_data : List Int)
    (h : TextRefines enc ks dst_offs dst_chars dst_data) :
    offsetsBack dst_offs = dst_chars.length := by
  obtain ⟨h1, h2, _⟩ := h
  rw [h2, h1, offsetsBack_cumFrom, length_flatten_eq_sum]

/-- One pass of the inner loop of the text path against one pass of the inner
loop of the number path on the numbers of the strings. -/
theorem stringStep_refines (enc : List Nat → Int) (hinj : Function.Injective enc)
    (h0 : enc [] = 0) (src_offs src_chars : List Nat) (nm : Option (List Nat))
    (hle : ∀ k, src_offs.getD k 0 ≤ src_chars.length)
    (off : Nat) (target : List Nat) (pos : Nat) (s : StringInner) (r : RemoveInner)
    (ks : List (List Nat)) (hks : TextRefines enc ks s.dst_offs s.dst_chars r.dst_data)
    (hnull : r.dst_null_map = s.dst_null_map) (hcount : r.count = s.count) :
    ∃ ks1 : List (List Nat),
      TextRefines enc ks1
        (stringStep src_offs src_chars nm off target pos s).dst_offs
        (stringStep src_offs src_chars nm off target pos s).dst_chars
        (removeStep (encodedStrings enc src_offs src_chars) nm off (enc target) pos
          r).dst_data ∧
      (removeStep (encodedStrings enc src_offs src_chars) nm off (enc target) pos
          r).dst_null_map =
        (stringStep src_offs src_chars nm off target pos s).dst_null_map ∧
      (removeStep (encodedStrings enc src_offs src_chars) nm off (enc target) pos r).count =
        (stringStep src_offs src_chars nm off target pos s).count := by
  unfold stringStep removeStep
  rw [getD_encodedStrings enc h0]
  cases hn : nullAt nm (off + pos) with
  | true =>
    simp only [if_true]
    refine ⟨ks ++ [[]], ?_, by rw [hnull], hcount⟩
    have hpush := textRefines_push enc ks [] _ _ _ hks
    rw [h0] at hpush
    simpa [textRefines_back enc ks _ _ _ hks] using hpush
  | false =>
    simp only [Bool.false_eq_true, if_false]
    have hstr : (src_chars.drop (offsetBefore src_offs (pos + off))).take
        (src_offs.getD (pos + off) 0 - offsetBefore src_offs (pos + off)) =
        strElem src_offs src_chars (off + pos) := by
      rw [Nat.add_comm pos off]; rfl
    rw [hstr]
    by_cases heq : strElem src_offs src_chars (off + pos) = target
    · rw [if_pos heq, if_pos (by rw [heq])]
      exact ⟨ks, hks, hnull, by simp [hcount]⟩
    · rw [if_neg heq, if_neg (fun h => heq (hinj h))]
      refine ⟨ks ++ [strElem src_offs src_chars (off + pos)], ?_, by simp [hnull], hcount⟩
      have hpush := textRefines_push enc ks (strElem src_offs src_chars (off + pos)) _ _ _ hks
      rw [length_strElem _ _ _ (hle _)] at hpush
      rw [Nat.add_comm pos off]
      exact hpush

theorem stringInner_refines (enc : List Nat → Int) (hinj : Function.Injective enc)
    (h0 : enc [] = 0) (src_offs src_chars : List Nat) (nm : Option (List Nat))
    (hle : ∀ k, src_offs.getD k 0 ≤ src_chars.length) (off : Nat) (target : List Nat) :
    ∀ (n pos : Nat) (s : StringInner) (r : RemoveInner) (ks : List (List Nat)),
    TextRefines enc ks s.dst_offs s.dst_chars r.dst_data →
    r.dst_null_map = s.dst_null_map → r.count = s.count →
    ∃ ks1 : List (List Nat),
      TextRefines enc ks1
        (stringInner src_offs src_chars nm off target n pos s).dst_offs
        (stringInner src_offs src_chars nm off target n pos s).dst_chars
        (removeInner (encodedStrings enc src_offs src_chars) nm off (enc target) n pos
          r).dst_data ∧
      (removeInner (encodedStrings enc src_offs src_chars) nm off (enc target) n pos
          r).dst_null_map =
        (stringInner src_offs src_chars nm off target n pos s).dst_null_map ∧
      (removeInner (encodedStrings enc src_offs src_chars) nm off (enc target) n pos
          r).count =
        (stringInner src_offs src_chars nm off target n pos s).count := by
  intro n
  induction n with
  | zero => intro pos s r ks h1 h2 h3; exact ⟨ks, h1, h2, h3⟩
  | succ k ih =>
    intro pos s r ks h1 h2 h3
    obtain ⟨ks1, g1, g2, g3⟩ := stringStep_refines enc hinj h0 src_offs src_chars nm hle off
      target pos s r ks h1 h2 h3
    unfold stringInner removeInner
    exact ih (pos + 1) _ _ ks1 g1 g2 g3

/-- One row of the text path against one row of the number path. -/
theorem stringRow_refines (enc : List Nat → Int) (hinj : Function.Injective enc)
    (h0 : enc [] = 0) (offsets src_offs src_chars target_offs target_chars : List Nat)
    (nm : Option (List Nat)) (hle : ∀ k, src_offs.getD k 0 ≤ src_chars.length)
    (row : Nat) (s : StringOuter) (r : RemoveOuter) (ks : List (List Nat))
    (hks : TextRefines enc ks s.dst_offs s.dst_chars r.dst_data)
    (hnull : r.dst_null_map = s.dst_null_map) (hcur : r.cur = s.cur)
    (hoffs : r.dst_offsets = s.dst_offsets) :
    ∃ ks1 : List (List Nat),
      TextRefines enc ks1
        (stringRow offsets src_offs src_chars target_offs target_chars nm row s).dst_offs
        (stringRow offsets src_offs src_chars target_offs target_chars nm row s).dst_chars
        (removeRow offsets (encodedStrings enc src_offs src_chars)
          (encodedStrings enc target_offs target_chars) nm row r).dst_data ∧
      (removeRow offsets (encodedStrings enc src_offs src_chars)
          (encodedStrings enc target_offs target_chars) nm row r).dst_null_map =
        (stringRow offsets src_offs src_chars target_offs target_chars nm row
          s).dst_null_map ∧
      (removeRow offsets (encodedStrings enc src_offs src_chars)
          (encodedStrings enc target_offs target_chars) nm row r).cur =
        (stringRow offsets src_offs src_chars target_offs target_chars nm row s).cur ∧
      (removeRow offsets (encodedStrings enc src_offs src_chars)
          (encodedStrings enc target_offs target_chars) nm row r).dst_offsets =
        (stringRow offsets src_offs src_chars target_offs target_chars nm row
          s).dst_offsets := by
  unfold stringRow removeRow
  simp only []
  by_cases hlen : offsets.getD row 0 - offsetBefore offsets row = 0
  · rw [if_pos hlen, if_pos hlen]
    exact ⟨ks, hks, hnull, hcur, by simp [hcur, hoffs]⟩
  · rw [if_neg hlen, if_neg hlen, getD_encodedStrings enc h0]
    obtain ⟨ks1, g1, g2, g3⟩ := stringInner_refines enc hinj h0 src_offs src_chars nm hle
      (offsetBefore offsets row) (strElem target_offs target_chars row)
      (offsets.getD row 0 - offsetBefore offsets row) 0
      { dst_offs := s.dst_offs, dst_chars := s.dst_chars, dst_null_map := s.dst_null_map,
        count := 0 }
      { dst_data := r.dst_data, dst_null_map := r.dst_null_map, count := 0 }
      ks hks hnull rfl
    refine ⟨ks1, g1, g2, ?_, ?_⟩
    · simp only [g3, hcur]; rfl
    · simp only [g3, hcur, hoffs]; rfl

theorem stringRows_refines (enc : List Nat → Int) (hinj : Function.Injective enc)
    (h0 : enc [] = 0) (offsets src_offs src_chars target_offs target_chars : List Nat)
    (nm : Option (List Nat)) (hle : ∀ k, src_offs.getD k 0 ≤ src_chars.length) :
    ∀ (n row : Nat) (s : StringOuter) (r : RemoveOuter) (ks : List (List Nat)),
    TextRefines enc ks s.dst_offs s.dst_chars r.dst_data →
    r.dst_null_map = s.dst_null_map → r.cur = s.cur → r.dst_offsets = s.dst_offsets →
    ∃ ks1 : List (List Nat),
      TextRefines enc ks1
        (stringRows offsets src_offs src_chars target_offs target_chars nm n row s).dst_offs
        (stringRows offsets src_offs src_chars target_offs target_chars nm n row s).dst_chars
        (removeRows offsets (encodedStrings enc src_offs src_chars)
          (encodedStrings enc target_offs target_chars) nm n row r).dst_data ∧
      (removeRows offsets (encodedStrings enc src_offs src_chars)
          (encodedStrings enc target_offs target_chars) nm n row r).dst_null_map =
        (stringRows offsets src_offs src_chars target_offs target_chars nm n row
          s).dst_null_map ∧
      (removeRows offsets (encodedStrings enc src_offs src_chars)
          (encodedStrings enc target_offs target_chars) nm n row r).dst_offsets =
        (stringRows offsets src_offs src_chars target_offs target_chars nm n row
          s).dst_offsets := by
  intro n
  induction n with
  | zero => intro row s r ks h1 h2 _ h4; exact ⟨ks, h1, h2, h4⟩
  | succ k ih =>
    intro row s r ks h1 h2 h3 h4
    obtain ⟨ks1, g1, g2, g3, g4⟩ := stringRow_refines enc hinj h0 offsets src_offs src_chars
      target_offs target_chars nm hle row s r ks h1 h2 h3 h4
    unfold stringRows removeRows
    exact ih (row + 1) _ _ ks1 g1 g2 g3 g4

theorem getD_le_of_sorted_back (offs : List Nat) (n : Nat)
    (hsorted : offs.Pairwise (fun x y => x ≤ y)) (hback : offsetsBack offs = n) (k : Nat) :
    offs.getD k 0 ≤ n := by
  by_cases hk : k < offs.length
  · rw [← hback]
    apply pairwise_le_back _ hsorted
    rw [List.getD_eq_getElem?_getD, List.getElem?_eq_getElem hk]
    exact List.getElem_mem hk
  · rw [List.getD_eq_getElem?_getD, List.getElem?_eq_none (by omega)]
    exact Nat.zero_le _

/-- C33.  Let `enc` number the strings: different strings get different numbers
and the empty string gets 0, so that equality of numbers is byte-wise equality of
strings.  For every array column of strings whose string offsets are
non-decreasing and end at the length of the bytes, every column of target
strings and every element null map, there is a list `kept` of strings such that
(1) the nested column `_execute_string` returns holds exactly the strings `kept`:
its bytes are their concatenation in order and its string offsets are the
cumulative lengths; (2) the numbers of `kept` are, position by position, the
nested data `_execute_number` returns on the numbers of the strings, so the text
path keeps exactly the positions the number path keeps; (3) the array offsets and
(4) the element null maps of the two results are equal; (5) a null element is
kept as the empty string. -/
theorem array_remove_text_refines_number (enc : List Nat → Int)
    (hinj : Function.Injective enc) (h0 : enc [] = 0)
    (offsets src_offs src_chars target_offs target_chars : List Nat)
    (nm : Option (List Nat))
    (hsorted : src_offs.Pairwise (fun x y => x ≤ y))
    (hback : offsetsBack src_offs = src_chars.length) :
    ∃ kept : List (List Nat),
      (_execute_string offsets (PlainColumn.strings src_offs src_chars)
          (PlainColumn.strings target_offs target_chars) nm).nested =
        PlainColumn.strings (cumFrom 0 (kept.map List.length)) kept.flatten ∧
      kept.map enc =
        (_execute_number offsets (encodedStrings enc src_offs src_chars)
          (encodedStrings enc target_offs target_chars) nm).nested ∧
      (_execute_string offsets (PlainColumn.strings src_offs src_chars)
          (PlainColumn.strings target_offs target_chars) nm).offsets =
        (_execute_number offsets (encodedStrings enc src_offs src_chars)
          (encodedStrings enc target_offs target_chars) nm).offsets ∧
      (_execute_string offsets (PlainColumn.strings src_offs src_chars)
          (PlainColumn.strings target_offs target_chars) nm).nested_null_map =
        (_execute_number offsets (encodedStrings enc src_offs src_chars)
          (encodedStrings enc target_offs target_chars) nm).nested_null_map ∧
      (∀ m, (_execute_string offsets (PlainColumn.strings src_offs src_chars)
          (PlainColumn.strings target_offs target_chars) nm).nested_null_map = some m →
        ∀ j, m.getD j 0 ≠ 0 → kept.getD j [] = []) := by
  have hle : ∀ k, src_offs.getD k 0 ≤ src_chars.length :=
    getD_le_of_sorted_back src_offs _ hsorted hback
  obtain ⟨kept, ⟨g1, g2, g3⟩, gnull, goffs⟩ := stringRows_refines enc hinj h0 offsets src_offs
    src_chars target_offs target_chars nm hle offsets.length 0
    { cur := 0, dst_offs := [], dst_chars := [], dst_null_map := [], dst_offsets := [] }
    { cur := 0, dst_data := [], dst_null_map := [], dst_offsets := [] }
    [] ⟨rfl, rfl, rfl⟩ rfl rfl rfl
  refine ⟨kept, ?_, ?_, ?_, ?_, ?_⟩
  · simp only [_execute_string, PlainColumn.get_offsets, PlainColumn.get_chars, g1, g2]
  · simp only [_execute_number, g3]
  · simp only [_execute_string, _execute_number, PlainColumn.get_offsets,
      PlainColumn.get_chars, goffs]
  · simp only [_execute_string, _execute_number, PlainColumn.get_offsets,
      PlainColumn.get_chars, gnull]
  · intro m hm j hj
    cases hn : nm with
    | none =>
      simp only [_execute_string, hn] at hm
      simp at hm
    | some m0 =>
      simp only [_execute_string, PlainColumn.get_offsets, PlainColumn.get_chars, hn,
        Option.isSome_some, if_true, Option.some.injEq] at hm
      have hinv := removeRows_nullsZero offsets (encodedStrings enc src_offs src_chars)
        (encodedStrings enc target_offs target_chars) m0 offsets.length 0
        { cur := 0, dst_data := [], dst_null_map := [], dst_offsets := [] }
        List.Forall₂.nil
      rw [hn] at gnull g3
      rw [gnull, hm, g3] at hinv
      have hz := forall₂_getD_zero _ _ hinv j hj
      by_cases hjk : j < kept.length
      · have hget : (kept.map enc).getD j 0 = enc (kept.getD j []) := by
          simp [List.getD_eq_getElem?_getD, hjk]
        rw [hget, ← h0] at hz
        exact hinj hz
      · simp [List.getD_eq_getElem?_getD, List.getElem?_eq_none (Nat.le_of_not_lt hjk)]

/-- Witness of C33: `array_remove(['a', 'b', 'a'], 'a') = ['b']`, with the
strings numbered by the encoding of lists of numbers. -/
theorem array_remove_text_refines_number_witness :
    (_execute_string [3] (PlainColumn.strings [1, 2, 3] [97, 98, 97])
        (PlainColumn.strings [1] [97]) none).offsets =
      (_execute_number [3]
        (encodedStrings (fun s => ((Encodable.encode s : Nat) : Int)) [1, 2, 3] [97, 98, 97])
        (encodedStrings (fun s => ((Encodable.encode s : Nat) : Int)) [1] [97])
        none).offsets ∧
    _execute_string [3] (PlainColumn.strings [1, 2, 3] [97, 98, 97])
        (PlainColumn.strings [1] [97]) none =
      ⟨[1], PlainColumn.strings [1] [98], none⟩ :=
  ⟨Exists.elim
      (array_remove_text_refines_number (fun s => ((Encodable.encode s : Nat) : Int))
        (fun _ _ h => Encodable.encode_injective (Int.ofNat.inj h)) (by simp)
        [3] [1, 2, 3] [97, 98, 97] [1] [97] none (by decide) (by decide))
      (fun _ h => h.2.2.1),
   by decide⟩

/-! ## Theorems: aggregation result types and type dispatch -/

/-- C21.  Result type deduction of `ArrayAggregateResultImpl`: (1) for `MIN` and
`MAX` the result type is the element type itself, for every element type;
(2) for `SUM`, with or without the wide decimal feature, the result type is
`Int64` for the element types `UInt8`, `Int8`, `Int16`, `Int32` and `Int64`,
(3) `Int128` for `Int128`, and (4) `Float64` for `Float32` and `Float64`. -/
theorem array_aggregate_result_min_max_sum :
    (∀ e : Element,
      ArrayAggregateResult e AggregateOperation.MIN false = some (ResultType.plain e) ∧
      ArrayAggregateResult e AggregateOperation.MAX false = some (ResultType.plain e)) ∧
    (∀ b : Bool,
      ArrayAggregateResult Element.UInt8 AggregateOperation.SUM b =
        some (ResultType.plain Element.Int64) ∧
      ArrayAggregateResult Element.Int8 AggregateOperation.SUM b =
        some (ResultType.plain Element.Int64) ∧
      ArrayAggregateResult Element.Int16 AggregateOperation.SUM b =
        some (ResultType.plain Element.Int64) ∧
      ArrayAggregateResult Element.Int32 AggregateOperation.SUM b =
        some (ResultType.plain Element.Int64) ∧
      ArrayAggregateResult Element.Int64 AggregateOperation.SUM b =
        some (ResultType.plain Element.Int64)) ∧
    (∀ b : Bool,
      ArrayAggregateResult Element.Int128 AggregateOperation.SUM b =
        some (ResultType.plain Element.Int128)) ∧
    (∀ b : Bool,
      ArrayAggregateResult Element.Float32 AggregateOperation.SUM b =
        some (ResultType.plain Element.Float64) ∧
      ArrayAggregateResult Element.Float64 AggregateOperation.SUM b =
        some (ResultType.plain Element.Float64)) := by
  refine ⟨fun e => ⟨rfl, rfl⟩, fun b => ?_, fun b => ?_, fun b => ?_⟩ <;>
    cases b <;> decide

/-- C22, counterexample.  Without the wide decimal feature the result type of
`AVERAGE` and of `PRODUCT` for the element type `Decimal32` is the decimal type
that `DisposeDecimal` gives, not `Float64`. -/
theorem array_aggregate_result_average_product_counterexample :
    ArrayAggregateResult Element.Decimal32 AggregateOperation.AVERAGE false =
      some (ResultType.decimal Element.Decimal32) ∧
    ArrayAggregateResult Element.Decimal32 AggregateOperation.AVERAGE false ≠
      some (ResultType.plain Element.Float64) ∧
    ArrayAggregateResult Element.Decimal32 AggregateOperation.PRODUCT false =
      some (ResultType.decimal Element.Decimal32) ∧
    ArrayAggregateResult Element.Decimal32 AggregateOperation.PRODUCT false ≠
      some (ResultType.plain Element.Float64) := by
  decide

/-- C22, amended.  Without the wide decimal feature the result type of `AVERAGE`
and of `PRODUCT` is `Float64` for every element type that is not a decimal, and
the decimal type that `DisposeDecimal` gives for each of the five decimal element
types. -/
theorem array_aggregate_result_average_product :
    (∀ e : Element,
      ArrayAggregateResult e AggregateOperation.AVERAGE false =
        (if IsDecimalNumber e then some (ResultType.decimal e)
         else some (ResultType.plain Element.Float64)) ∧
      ArrayAggregateResult e AggregateOperation.PRODUCT false =
        (if IsDecimalNumber e then some (ResultType.decimal e)
         else some (ResultType.plain Element.Float64))) ∧
    (∀ e : Element, IsDecimalNumber e = true ↔
      (e = Element.Decimal32 ∨ e = Element.Decimal64 ∨ e = Element.Decimal128V2 ∨
        e = Element.Decimal128V3 ∨ e = Element.Decimal256)) := by
  constructor
  · intro e
    cases e <;> decide
  · intro e
    cases e <;> decide

theorem tryElements_not_column {ρ : Type} (attempt : Element → TypeAttempt ρ) :
    ∀ l : List Element, (∀ e ∈ l, attempt e = TypeAttempt.not_column) →
    tryElements attempt l = TypeAttempt.not_column := by
  intro l
  induction l with
  | nil => intro _; rfl
  | cons x xs ih =>
    intro h
    unfold tryElements
    rw [h x (List.mem_cons_self _ _)]
    exact ih (fun e he => h e (List.mem_cons_of_mem _ he))

/-- When every call but the one for `e` returns `false`, the chain does what the
call for `e` does. -/
theorem tryElements_single {ρ : Type} (attempt : Element → TypeAttempt ρ) (e : Element) :
    ∀ l : List Element, e ∈ l →
    (∀ x ∈ l, x ≠ e → attempt x = TypeAttempt.not_column) →
    tryElements attempt l = attempt e := by
  intro l
  induction l with
  | nil => intro he; cases he
  | cons x xs ih =>
    intro he h
    by_cases hx : x = e
    · subst hx
      unfold tryElements
      cases hax : attempt x with
      | not_column =>
        simp only []
        apply tryElements_not_column
        intro y hy
        by_cases hyx : y = x
        · rw [hyx, hax]
        · exact h y (List.mem_cons_of_mem _ hy) hyx
      | null_function => rfl
      | column res => rfl
    · unfold tryElements
      rw [h x (List.mem_cons_self _ _) hx]
      simp only []
      apply ih
      · rcases List.mem_cons.mp he with h1 | h1
        · exact absurd h1.symm hx
        · exact h1
      · exact fun y hy hne => h y (List.mem_cons_of_mem _ hy) hne

theorem mem_executeElements (e : Element) : e ∈ executeElements := by
  cases e <;> decide

theorem ColVecType_injective (e x : Element) (h : ColVecType e = ColVecType x) : e = x := by
  cases e <;> cases x <;> first | rfl | exact absurd h (by decide)

/-- A column is of the class of at most one element type. -/
theorem is_column_ColVecType_unique (data : PlainColumn) (e x : Element)
    (he : data.is_column (ColVecType e) = true) (hx : data.is_column (ColVecType x) = true) :
    x = e := by
  cases data with
  | numbers c d =>
    simp only [PlainColumn.is_column, beq_iff_eq] at he hx
    exact ColVecType_injective x e (by rw [← hx, ← he])
  | strings o c =>
    simp only [PlainColumn.is_column, beq_iff_eq] at he
    cases e <;> exact absurd he (by decide)

/-- The chain of `execute` when no element type has the class of the column. -/
theorem execute_chain_not_column {σ ρ : Type}
    (create : DataTypeInfo → Option (AggregateFunctionPtr σ ρ)) (type : DataTypeInfo)
    (array : ArrayArg) (h : ∀ e : Element, array.nested.is_column (ColVecType e) = false) :
    tryElements
      (fun element => execute_type_create create type element array.nested
        array.nested_null_map array.offsets) executeElements =
      (TypeAttempt.not_column : TypeAttempt ρ) := by
  apply tryElements_not_column
  intro e _
  simp only [execute_type_create, h e]
  rfl

/-- The chain of `execute` when the column has the class of the element type
`e`. -/
theorem execute_chain_column {σ ρ : Type}
    (create : DataTypeInfo → Option (AggregateFunctionPtr σ ρ)) (type : DataTypeInfo)
    (array : ArrayArg) (e : Element) (h : array.nested.is_column (ColVecType e) = true) :
    tryElements
      (fun element => execute_type_create create type element array.nested
        array.nested_null_map array.offsets) executeElements =
      match create type with
      | none => TypeAttempt.null_function
      | some function =>
        TypeAttempt.column
          (aggregateRows function.function array.offsets array.nested.get_data
            array.nested_null_map array.offsets.length 0
            { place := function.function.create, res_column := [] }).res_column := by
  rw [tryElements_single _ e _ (mem_executeElements e)]
  · simp only [execute_type_create, h, if_true, execute_type]
  · intro x _ hx
    have hxf : array.nested.is_column (ColVecType x) = false := by
      cases hc : array.nested.is_column (ColVecType x) with
      | false => rfl
      | true => exact absurd (is_column_ColVecType_unique _ e x h hc) hx
    simp only [execute_type_create, hxf]
    rfl

theorem execute_not_column {σ ρ : Type}
    (create : DataTypeInfo → Option (AggregateFunctionPtr σ ρ))
    (block : List (AggregateColumn ρ)) (result : Nat) (type : DataTypeInfo)
    (array : ArrayArg) (data_name : String)
    (h : ∀ e : Element, array.nested.is_column (ColVecType e) = false) :
    ArrayAggregateImpl.execute create block result type array data_name =
      some (Status.RuntimeError ("Unexpected column for aggregation: " ++ data_name),
        block) := by
  unfold ArrayAggregateImpl.execute
  rw [execute_chain_not_column create type array h]

theorem execute_column {σ ρ : Type}
    (create : DataTypeInfo → Option (AggregateFunctionPtr σ ρ))
    (block : List (AggregateColumn ρ)) (result : Nat) (type : DataTypeInfo)
    (array : ArrayArg) (data_name : String) (e : Element)
    (h : array.nested.is_column (ColVecType e) = true) :
    ArrayAggregateImpl.execute create block result type array data_name =
      match create type with
      | none => none
      | some function =>
        if result < block.length then
          some (Status.OK, block.set result (AggregateColumn.nullable
            (aggregateRows function.function array.offsets array.nested.get_data
              array.nested_null_map array.offsets.length 0
              { place := function.function.create, res_column := [] }).res_column))
        else none := by
  unfold ArrayAggregateImpl.execute
  rw [execute_chain_column create type array e h]
  cases create type <;> rfl

/-- C23.  Function `execute` on a block that has the destination position, with
the aggregate function created for the nested type (`get_return_type` has checked
that there is one).  (1) When the nested column has the class of none of the 17
element types, so that every `execute_type` call returns `false`, `execute`
returns the runtime error whose message names the column, and the block is left
as it was.  (2) When the nested column has the class of one of the element
types, `execute` returns `OK` and the block has the destination replaced by the
nullable result column of the row loop. -/
theorem array_aggregate_unsupported_column {σ ρ : Type}
    (create : DataTypeInfo → Option (AggregateFunctionPtr σ ρ))
    (block : List (AggregateColumn ρ)) (result : Nat) (type : DataTypeInfo)
    (array : ArrayArg) (data_name : String) (function : AggregateFunctionPtr σ ρ)
    (hres : result < block.length) (hcreate : create type = some function) :
    ((∀ e : Element, array.nested.is_column (ColVecType e) = false) →
      ArrayAggregateImpl.execute create block result type array data_name =
        some (Status.RuntimeError ("Unexpected column for aggregation: " ++ data_name),
          block)) ∧
    (∀ e : Element, array.nested.is_column (ColVecType e) = true →
      ArrayAggregateImpl.execute create block result type array data_name =
        some (Status.OK, block.set result (AggregateColumn.nullable
          (aggregateRows function.function array.offsets array.nested.get_data
            array.nested_null_map array.offsets.length 0
            { place := function.function.create, res_column := [] }).res_column))) := by
  constructor
  · exact execute_not_column create block result type array data_name
  · intro e he
    rw [execute_column create block result type array data_name e he, hcreate]
    simp only []
    rw [if_pos hres]

/-- Witness of C23: `array_sum` on the one-row column `[[1, 2]]` of `Int32`
elements, and on a column of texts. -/
theorem array_aggregate_unsupported_column_witness :
    ArrayAggregateImpl.execute sampleCreate
        [AggregateColumn.array ⟨[2], PlainColumn.numbers ColumnClass.ColumnInt32 [1, 2], none⟩,
         AggregateColumn.nullable []] 1
        ⟨"INT", PrimitiveType.TYPE_INT, PrimitiveType.TYPE_INT⟩
        ⟨[2], PlainColumn.numbers ColumnClass.ColumnInt32 [1, 2], none⟩ "Int32" =
      some (Status.OK,
        [AggregateColumn.array ⟨[2], PlainColumn.numbers ColumnClass.ColumnInt32 [1, 2], none⟩,
         AggregateColumn.nullable [some 3]]) ∧
    ArrayAggregateImpl.execute sampleCreate
        [AggregateColumn.array ⟨[1], PlainColumn.strings [1] [97], none⟩,
         AggregateColumn.nullable []] 1
        ⟨"INT", PrimitiveType.TYPE_INT, PrimitiveType.TYPE_INT⟩
        ⟨[1], PlainColumn.strings [1] [97], none⟩ "String" =
      some (Status.RuntimeError "Unexpected column for aggregation: String",
        [AggregateColumn.array ⟨[1], PlainColumn.strings [1] [97], none⟩,
         AggregateColumn.nullable []]) :=
  ⟨(array_aggregate_unsupported_column sampleCreate
      [AggregateColumn.array ⟨[2], PlainColumn.numbers ColumnClass.ColumnInt32 [1, 2], none⟩,
       AggregateColumn.nullable []] 1
      ⟨"INT", PrimitiveType.TYPE_INT, PrimitiveType.TYPE_INT⟩
      ⟨[2], PlainColumn.numbers ColumnClass.ColumnInt32 [1, 2], none⟩ "Int32"
      ⟨sumAggregate 64, ⟨"Nullable(BIGINT)", PrimitiveType.TYPE_BIGINT,
        PrimitiveType.TYPE_BIGINT⟩⟩ (by decide) rfl).2 Element.Int32 rfl,
   (array_aggregate_unsupported_column sampleCreate
      [AggregateColumn.array ⟨[1], PlainColumn.strings [1] [97], none⟩,
       AggregateColumn.nullable []] 1
      ⟨"INT", PrimitiveType.TYPE_INT, PrimitiveType.TYPE_INT⟩
      ⟨[1], PlainColumn.strings [1] [97], none⟩ "String"
      ⟨sumAggregate 64, ⟨"Nullable(BIGINT)", PrimitiveType.TYPE_BIGINT,
        PrimitiveType.TYPE_BIGINT⟩⟩ (by decide) rfl).1 (fun e => by cases e <;> rfl)⟩

/-- C24, counterexample.  A nested type of texts, for which there is no aggregate
function, and a column of texts: `get_return_type` throws an exception with the
code `INVALID_ARGUMENT`, `execute` returns a status with the code
`RUNTIME_ERROR`; the two checks do not report the same error kind. -/
theorem array_aggregate_planning_execution_counterexample :
    ArrayAggregateImpl.get_return_type sampleCreate "SUM"
        ⟨"String", PrimitiveType.other 0, PrimitiveType.other 0⟩ =
      Except.error
        { code := ErrorCode.INVALID_ARGUMENT,
          message := "Unexpected type String for aggregation SUM" } ∧
    ArrayAggregateImpl.execute sampleCreate
        [AggregateColumn.array ⟨[1], PlainColumn.strings [1] [97], none⟩,
         AggregateColumn.nullable []] 1
        ⟨"String", PrimitiveType.other 0, PrimitiveType.other 0⟩
        ⟨[1], PlainColumn.strings [1] [97], none⟩ "String" =
      some (Status.RuntimeError "Unexpected column for aggregation: String",
        [AggregateColumn.array ⟨[1], PlainColumn.strings [1] [97], none⟩,
         AggregateColumn.nullable []]) ∧
    (Status.RuntimeError "Unexpected column for aggregation: String").code ≠
      ErrorCode.INVALID_ARGUMENT := by
  refine ⟨by decide, ?_, by decide⟩
  exact execute_not_column _ _ _ _ _ _ (fun e => by cases e <;> rfl)

/-- C24, amended.  (1) `get_return_type` throws exactly when `Function::create`
has no function for the nested type, and the exception then has the code
`INVALID_ARGUMENT` and a message that names the type and the operation.
(2) `execute` returns a status other than `OK` exactly when the nested column
has the class of none of the 17 element types, whatever `Function::create` does;
the status is then the runtime error whose message names the column, of code
`RUNTIME_ERROR`, and the block is left as it was.  (3) The two codes differ. -/
theorem array_aggregate_planning_execution_checks {σ ρ : Type}
    (create : DataTypeInfo → Option (AggregateFunctionPtr σ ρ)) (operation_name : String)
    (type : DataTypeInfo) (block : List (AggregateColumn ρ)) (result : Nat)
    (array : ArrayArg) (data_name : String) :
    ((∃ ex, ArrayAggregateImpl.get_return_type create operation_name type =
        Except.error ex) ↔ create type = none) ∧
    (∀ ex, ArrayAggregateImpl.get_return_type create operation_name type =
        Except.error ex →
      ex.code = ErrorCode.INVALID_ARGUMENT ∧
      ex.message = "Unexpected type " ++ type.name ++ " for aggregation " ++ operation_name) ∧
    ((∃ st b, ArrayAggregateImpl.execute create block result type array data_name =
        some (st, b) ∧ st ≠ Status.OK) ↔
      ∀ e : Element, array.nested.is_column (ColVecType e) = false) ∧
    (∀ st b, ArrayAggregateImpl.execute create block result type array data_name =
        some (st, b) → st ≠ Status.OK →
      st = Status.RuntimeError ("Unexpected column for aggregation: " ++ data_name) ∧
      b = block ∧ st.code = ErrorCode.RUNTIME_ERROR) ∧
    ErrorCode.RUNTIME_ERROR ≠ ErrorCode.INVALID_ARGUMENT := by
  have hexec : ∀ st b, ArrayAggregateImpl.execute create block result type array data_name =
      some (st, b) → st ≠ Status.OK →
      (∀ e : Element, array.nested.is_column (ColVecType e) = false) := by
    intro st b h hst e
    cases hc : array.nested.is_column (ColVecType e) with
    | false => rfl
    | true =>
      exfalso
      rw [execute_column create block result type array data_name e hc] at h
      cases hcr : create type with
      | none => rw [hcr] at h; simp at h
      | some function =>
        rw [hcr] at h
        simp only [] at h
        by_cases hres : result < block.length
        · rw [if_pos hres] at h
          simp only [Option.some.injEq, Prod.mk.injEq] at h
          exact hst h.1.symm
        · rw [if_neg hres] at h
          simp at h
  refine ⟨?_, ?_, ?_, ?_, by decide⟩
  · unfold ArrayAggregateImpl.get_return_type
    cases create type with
    | none => simp
    | some function => simp
  · intro ex h
    unfold ArrayAggregateImpl.get_return_type at h
    cases hcr : create type with
    | none =>
      rw [hcr] at h
      simp only [Except.error.injEq] at h
      rw [← h]
      exact ⟨rfl, rfl⟩
    | some function =>
      rw [hcr] at h
      simp at h
  · constructor
    · rintro ⟨st, b, h, hst⟩
      exact hexec st b h hst
    · intro h
      exact ⟨_, _, execute_not_column create block result type array data_name h,
        by simp⟩
  · intro st b h hst
    have hall := hexec st b h hst
    rw [execute_not_column create block result type array data_name hall] at h
    simp only [Option.some.injEq, Prod.mk.injEq] at h
    rw [← h.1, ← h.2]
    exact ⟨rfl, rfl, rfl⟩

/-- C25.  For every aggregate function and every well-formed array column of
`n` rows, with or without a null map of the elements: (1) the nullable result
column of `execute_type` has exactly `n` entries; (2) entry `i` is the aggregate
of row `i`, for every `i < n`, so the entries are in row order; (3) for every
element type, `execute` on the column of the class of that type returns `OK` and
puts this nullable column at the destination, when the block has the destination
and the function has been created. -/
theorem array_aggregate_output_shape {σ ρ : Type} (f : NestedAggregate σ ρ)
    (a : ArrayColumn) (hwf : a.WF) :
    (arrayAggregate f a).length = a.offsets.length ∧
    (∀ i, i < a.offsets.length →
      (arrayAggregate f a)[i]? = some (rowAggregate f (a.rawRow i))) ∧
    (∀ (e : Element) (create : DataTypeInfo → Option (AggregateFunctionPtr σ ρ))
      (block : List (AggregateColumn ρ)) (result : Nat) (type : DataTypeInfo)
      (data_name : String) (return_type : DataTypeInfo),
      result < block.length → create type = some ⟨f, return_type⟩ →
      ArrayAggregateImpl.execute create block result type
          ⟨a.offsets, PlainColumn.numbers (ColVecType e) a.nested, a.nested_null_map⟩
          data_name =
        some (Status.OK, block.set result (AggregateColumn.nullable (arrayAggregate f a)))) := by
  refine ⟨?_, fun i hi => getElem?_arrayAggregate f a hwf i hi, ?_⟩
  · rw [arrayAggregate_eq f a hwf]
    simp
  · intro e create block result type data_name return_type hres hcreate
    rw [execute_column create block result type _ data_name e
      (by simp [PlainColumn.is_column]), hcreate]
    simp only []
    rw [if_pos hres]
    rfl

/-- Witness of C25: `array_sum([[1, 2], [], [NULL, 4]])` has the three entries
`3`, `NULL`, `4`. -/
theorem array_aggregate_output_shape_witness :
    (arrayAggregate (sumAggregate 64)
        ⟨[1, 2, 3, 4], some [0, 0, 1, 0], [2, 2, 4]⟩).length = 3 ∧
    arrayAggregate (sumAggregate 64) ⟨[1, 2, 3, 4], some [0, 0, 1, 0], [2, 2, 4]⟩ =
      [some 3, none, some 4] :=
  ⟨(array_aggregate_output_shape (sumAggregate 64)
      ⟨[1, 2, 3, 4], some [0, 0, 1, 0], [2, 2, 4]⟩
      ⟨by decide, by decide, fun m h => by cases h; rfl⟩).1,
   by decide⟩

/-! ## Theorems: array_sum on narrow integers -/

theorem sum_bounds (l : List Int)
    (h : ∀ x ∈ l, -2147483648 ≤ x ∧ x ≤ 2147483647) :
    -((l.length : Int) * 2147483648) ≤ l.sum ∧ l.sum ≤ (l.length : Int) * 2147483648 := by
  induction l with
  | nil => simp
  | cons x xs ih =>
    have hx := h x (List.mem_cons_self _ _)
    have ih1 := ih (fun y hy => h y (List.mem_cons_of_mem _ hy))
    simp only [List.sum_cons, List.length_cons]
    push_cast
    omega

theorem nonNullValues_bounds (l : List (Int × Nat))
    (h : ∀ p ∈ l, -2147483648 ≤ p.1 ∧ p.1 ≤ 2147483647) :
    (∀ x ∈ nonNullValues l, -2147483648 ≤ x ∧ x ≤ 2147483647) ∧
    (nonNullValues l).length ≤ l.length := by
  constructor
  · intro x hx
    unfold nonNullValues at hx
    obtain ⟨p, hp, hpx⟩ := List.mem_map.mp hx
    rw [← hpx]
    exact h p (List.mem_filter.mp hp).1
  · unfold nonNullValues
    rw [List.length_map]
    exact List.length_filter_le _ _

/-- C35.  For every well-formed column of an integer element type of at most 32
bits (`UInt8`, `Int8`, `Int16`, `Int32`: the raw values are between `-2^31` and
`2^31 - 1`) and every row with fewer than `2^31` elements: (1) the result type of
`SUM` is `Int64`; (2) the exact sum of the non-null elements of the row is
between `-2^63` and `2^63 - 1`, so the reduction to the result type leaves it as
it is; (3) when the row has a non-null element, the entry of `array_sum` is the
exact sum. -/
theorem array_sum_narrow_no_overflow (a : ArrayColumn) (hwf : a.WF) (i : Nat)
    (hi : i < a.offsets.length)
    (hnarrow : ∀ p ∈ a.rawRow i, -2147483648 ≤ p.1 ∧ p.1 ≤ 2147483647)
    (hlen : (a.rawRow i).length < 2147483648) :
    (ArrayAggregateResult Element.UInt8 AggregateOperation.SUM false =
        some (ResultType.plain Element.Int64) ∧
      ArrayAggregateResult Element.Int8 AggregateOperation.SUM false =
        some (ResultType.plain Element.Int64) ∧
      ArrayAggregateResult Element.Int16 AggregateOperation.SUM false =
        some (ResultType.plain Element.Int64) ∧
      ArrayAggregateResult Element.Int32 AggregateOperation.SUM false =
        some (ResultType.plain Element.Int64)) ∧
    (-9223372036854775808 ≤ (nonNullValues (a.rawRow i)).sum ∧
      (nonNullValues (a.rawRow i)).sum ≤ 9223372036854775807) ∧
    wrapSigned 64 (nonNullValues (a.rawRow i)).sum = (nonNullValues (a.rawRow i)).sum ∧
    (nonNullValues (a.rawRow i) ≠ [] →
      (array_sum false a)[i]? = some (some (nonNullValues (a.rawRow i)).sum)) := by
  obtain ⟨hb, hl⟩ := nonNullValues_bounds (a.rawRow i) hnarrow
  obtain ⟨h1, h2⟩ := sum_bounds _ hb
  have hlo : -9223372036854775808 ≤ (nonNullValues (a.rawRow i)).sum := by omega
  have hhi : (nonNullValues (a.rawRow i)).sum ≤ 9223372036854775807 := by omega
  have hw : wrapSigned 64 (nonNullValues (a.rawRow i)).sum =
      (nonNullValues (a.rawRow i)).sum := by
    unfold wrapSigned
    norm_num
    omega
  refine ⟨by decide, ⟨hlo, hhi⟩, hw, ?_⟩
  intro hnn
  unfold array_sum
  rw [getElem?_arrayAggregate _ a hwf i hi]
  unfold rowAggregate
  rw [if_neg hnn, foldl_sumAggregate_init _ _ hnn]
  simp only [sumResultBits, Bool.false_eq_true, if_false, hw]
  rfl

/-- Witness of C35: `array_sum([2147483647, 2147483647, NULL])` on `Int32`
elements is 4294967294. -/
theorem array_sum_narrow_no_overflow_witness :
    (array_sum false ⟨[2147483647, 2147483647, 5], some [0, 0, 1], [3]⟩)[0]? =
      some (some (nonNullValues
        (ArrayColumn.rawRow ⟨[2147483647, 2147483647, 5], some [0, 0, 1], [3]⟩ 0)).sum) ∧
    array_sum false ⟨[2147483647, 2147483647, 5], some [0, 0, 1], [3]⟩ =
      [some 4294967294] :=
  ⟨(array_sum_narrow_no_overflow ⟨[2147483647, 2147483647, 5], some [0, 0, 1], [3]⟩
      ⟨by decide, by decide, fun m h => by cases h; rfl⟩ 0 (by decide) (by decide)
      (by decide)).2.2.2 (by decide),
   by decide⟩

/-! ## Theorems: encryption mode resolution -/

theorem count_eq_zero_iff (table : List (List Nat × EncryptionMode)) (key : List Nat) :
    StringCaseUnorderedMap.count table key = 0 ↔
      StringCaseUnorderedMap.find table key = none := by
  unfold StringCaseUnorderedMap.count StringCaseUnorderedMap.contains
  cases StringCaseUnorderedMap.find table key <;> simp

/-- The row body of the constant paths, with the flag `all_insert_null` and the
mode computed before the loop, is the row of the specification. -/
theorem const_body_eq (impl : EncryptionImpl) (table : List (List Nat × EncryptionMode))
    (mode : EncryptionMode) (offsets_column chars_column key_arg iv_arg aad_arg : List Nat)
    (mode_arg : List Nat) (r : Bool × EncryptionMode)
    (hr : r = if mode_arg.length ≠ 0 then
        if StringCaseUnorderedMap.find table mode_arg = none then (true, mode)
        else (false, StringCaseUnorderedMap.at_ table mode_arg mode)
      else (false, mode)) :
    (fun (i : Nat) (d : EncryptDest) =>
      if r.1 = true ∨ d.null_map.getD i 0 ≠ 0 then push_null_string i d
      else execute_result_const impl offsets_column chars_column key_arg i r.2
        iv_arg aad_arg d) =
    (fun (i : Nat) (d : EncryptDest) =>
      encryptRowSpec impl (resolveModeSpec table mode mode_arg)
        (strElem offsets_column chars_column i) key_arg iv_arg aad_arg i d) := by
  funext i d
  unfold encryptRowSpec resolveModeSpec execute_result_const
  by_cases hm : mode_arg = []
  · subst hm
    simp only [List.length_nil, ne_eq, not_true_eq_false, if_false] at hr
    rw [hr]
    simp
  · have hlen : mode_arg.length ≠ 0 := by
      intro h; exact hm (List.length_eq_zero.mp h)
    rw [if_pos hlen] at hr
    rw [if_neg hm]
    cases hf : StringCaseUnorderedMap.find table mode_arg with
    | none =>
      rw [hf] at hr
      simp only [if_true] at hr
      rw [hr]
      simp
    | some m =>
      rw [hf] at hr
      simp only [reduceCtorEq, if_false] at hr
      rw [hr]
      simp [StringCaseUnorderedMap.at_, hf]

/-- The row body of the per-row paths is the row of the specification, when the
offsets of the mode column stay within its bytes. -/
theorem vector_body_eq (impl : EncryptionImpl) (table : List (List Nat × EncryptionMode))
    (mode : EncryptionMode) (offsets_list chars_list : List (List Nat))
    (mode_offs mode_chars : List Nat) (iv aad : Nat → List Nat)
    (hle : ∀ k, mode_offs.getD k 0 ≤ mode_chars.length) :
    (fun (i : Nat) (d : EncryptDest) =>
      if d.null_map.getD i 0 ≠ 0 then push_null_string i d
      else
        if mode_offs.getD i 0 - offsetBefore mode_offs i ≠ 0 then
          if StringCaseUnorderedMap.count table (strElem mode_offs mode_chars i) = 0 then
            push_null_string i d
          else
            execute_result_vector impl offsets_list chars_list i
              (StringCaseUnorderedMap.at_ table (strElem mode_offs mode_chars i) mode)
              (iv i) (aad i) d
        else execute_result_vector impl offsets_list chars_list i mode (iv i) (aad i) d) =
    (fun (i : Nat) (d : EncryptDest) =>
      encryptRowSpec impl (resolveModeSpec table mode (strElem mode_offs mode_chars i))
        (strElem (offsets_list.getD 0 []) (chars_list.getD 0 []) i)
        (strElem (offsets_list.getD 1 []) (chars_list.getD 1 []) i) (iv i) (aad i) i d) := by
  funext i d
  unfold encryptRowSpec resolveModeSpec execute_result_vector
  by_cases hflag : d.null_map.getD i 0 ≠ 0
  · rw [if_pos hflag, if_pos hflag]
  · rw [if_neg hflag, if_neg hflag]
    have hlen := length_strElem mode_offs mode_chars i (hle i)
    by_cases hsz : mode_offs.getD i 0 - offsetBefore mode_offs i = 0
    · have hnil : strElem mode_offs mode_chars i = [] :=
        List.length_eq_zero.mp (by rw [hlen, hsz])
      rw [if_neg (not_not.mpr hsz), if_pos hnil]
    · have hne : strElem mode_offs mode_chars i ≠ [] := by
        intro h
        rw [h] at hlen
        exact hsz hlen.symm
      rw [if_pos hsz, if_neg hne]
      cases hf : StringCaseUnorderedMap.find table (strElem mode_offs mode_chars i) with
      | none => rw [if_pos ((count_eq_zero_iff _ _).mpr hf)]
      | some m =>
        rw [if_neg (fun h => by rw [(count_eq_zero_iff _ _).mp h] at hf; cases hf)]
        simp [StringCaseUnorderedMap.at_, hf]

theorem two_vector_const_eq (impl : EncryptionImpl) (mode : EncryptionMode)
    (offsets_column chars_column key_arg mode_arg : List Nat) (n : Nat) (d : EncryptDest) :
    EncryptionAndDecryptTwoImpl.vector_const impl mode offsets_column chars_column key_arg
        mode_arg n d =
      encRows (fun i d =>
        encryptRowSpec impl (resolveModeSpec aes_mode_map mode mode_arg)
          (strElem offsets_column chars_column i) key_arg [] [] i d) n 0 d := by
  unfold EncryptionAndDecryptTwoImpl.vector_const
  simp only []
  rw [const_body_eq impl aes_mode_map mode offsets_column chars_column key_arg [] []
    mode_arg _ (by
      unfold StringCaseUnorderedMap.contains
      cases StringCaseUnorderedMap.find aes_mode_map mode_arg <;> simp)]

theorem two_vector_vector_eq (impl : EncryptionImpl) (mode : EncryptionMode)
    (offsets_list chars_list : List (List Nat)) (n : Nat) (d : EncryptDest)
    (hle : ∀ k, (offsets_list.getD 2 []).getD k 0 ≤ (chars_list.getD 2 []).length) :
    EncryptionAndDecryptTwoImpl.vector_vector impl mode offsets_list chars_list n d =
      encRows (fun i d =>
        encryptRowSpec impl
          (resolveModeSpec aes_mode_map mode
            (strElem (offsets_list.getD 2 []) (chars_list.getD 2 []) i))
          (strElem (offsets_list.getD 0 []) (chars_list.getD 0 []) i)
          (strElem (offsets_list.getD 1 []) (chars_list.getD 1 []) i) [] [] i d) n 0 d := by
  unfold EncryptionAndDecryptTwoImpl.vector_vector
  simp only []
  rw [vector_body_eq impl aes_mode_map mode offsets_list chars_list _ _ (fun _ => [])
    (fun _ => []) hle]

theorem multi_vector_const_eq (impl : EncryptionImpl) (mode : EncryptionMode)
    (is_sm_mode : Bool) (offsets_column chars_column key_arg iv_arg mode_arg : List Nat)
    (n : Nat) (d : EncryptDest) (aad_arg : List Nat) :
    EncryptionAndDecryptMultiImpl.vector_const impl mode is_sm_mode offsets_column
        chars_column key_arg iv_arg mode_arg n d aad_arg =
      encRows (fun i d =>
        encryptRowSpec impl (resolveModeSpec (modeTable is_sm_mode) mode mode_arg)
          (strElem offsets_column chars_column i) key_arg iv_arg aad_arg i d) n 0 d := by
  unfold EncryptionAndDecryptMultiImpl.vector_const
  simp only []
  rw [const_body_eq impl (modeTable is_sm_mode) mode offsets_column chars_column key_arg
    iv_arg aad_arg mode_arg _ (by
      cases is_sm_mode <;>
        simp only [modeTable, Bool.false_eq_true, if_false, if_true, count_eq_zero_iff])]

theorem multi_vector_vector_eq (impl : EncryptionImpl) (mode : EncryptionMode)
    (is_sm_mode : Bool) (arg_num : Nat) (offsets_list chars_list : List (List Nat))
    (n : Nat) (d : EncryptDest)
    (hle : ∀ k, (offsets_list.getD 3 []).getD k 0 ≤ (chars_list.getD 3 []).length) :
    EncryptionAndDecryptMultiImpl.vector_vector impl mode is_sm_mode arg_num offsets_list
        chars_list n d =
      encRows (fun i d =>
        encryptRowSpec impl
          (resolveModeSpec (modeTable is_sm_mode) mode
            (strElem (offsets_list.getD 3 []) (chars_list.getD 3 []) i))
          (strElem (offsets_list.getD 0 []) (chars_list.getD 0 []) i)
          (strElem (offsets_list.getD 1 []) (chars_list.getD 1 []) i)
          (strElem (offsets_list.getD 2 []) (chars_list.getD 2 []) i)
          (if arg_num = 5 then strElem (offsets_list.getD 4 []) (chars_list.getD 4 []) i
           else []) i d) n 0 d := by
  unfold EncryptionAndDecryptMultiImpl.vector_vector
  simp only []
  rw [← vector_body_eq impl (modeTable is_sm_mode) mode offsets_list chars_list _ _
    (fun i => strElem (offsets_list.getD 2 []) (chars_list.getD 2 []) i)
    (fun i => if arg_num = 5 then strElem (offsets_list.getD 4 []) (chars_list.getD 4 []) i
      else []) hle]
  cases is_sm_mode <;> simp only [modeTable, Bool.false_eq_true, if_false, if_true]

theorem getD_set_one_ne (l : List Nat) (i j : Nat) (h : i ≠ j) :
    (l.set j 1).getD i 0 = l.getD i 0 := by
  simp [List.getD_eq_getElem?_getD, List.getElem?_set_ne (Ne.symm h)]

theorem getD_set_one_self (l : List Nat) (j : Nat) (h : j < l.length) :
    (l.set j 1).getD j 0 = 1 := by
  simp [List.getD_eq_getElem?_getD, List.getElem?_set_self, h]

theorem null_map_push_null_string (i : Nat) (d : EncryptDest) :
    (push_null_string i d).null_map = d.null_map.set i 1 ∧
    (push_null_string i d).cipher_calls = d.cipher_calls := ⟨rfl, rfl⟩

/-- What one row of the specification does to the null map and to the record of
the cipher calls. -/
theorem encryptRowSpec_effect (impl : EncryptionImpl) (resolved : Option EncryptionMode)
    (src key iv aad : List Nat) (j : Nat) (d : EncryptDest) :
    ((encryptRowSpec impl resolved src key iv aad j d).null_map = d.null_map ∨
      (encryptRowSpec impl resolved src key iv aad j d).null_map = d.null_map.set j 1) ∧
    ((d.null_map.getD j 0 ≠ 0 ∨ resolved = none) →
      (encryptRowSpec impl resolved src key iv aad j d).null_map = d.null_map.set j 1 ∧
      (encryptRowSpec impl resolved src key iv aad j d).cipher_calls = d.cipher_calls) ∧
    (∀ m, d.null_map.getD j 0 = 0 → resolved = some m →
      (encryptRowSpec impl resolved src key iv aad j d).cipher_calls =
        d.cipher_calls ++ [(j, m)]) := by
  by_cases hflag : d.null_map.getD j 0 ≠ 0
  · have hrow : encryptRowSpec impl resolved src key iv aad j d = push_null_string j d := by
      unfold encryptRowSpec
      rw [if_pos hflag]
    rw [hrow]
    exact ⟨Or.inr rfl, fun _ => ⟨rfl, rfl⟩, fun m h0 _ => absurd h0 hflag⟩
  · cases resolved with
    | none =>
      have hrow : encryptRowSpec impl none src key iv aad j d = push_null_string j d := by
        unfold encryptRowSpec
        rw [if_neg hflag]
      rw [hrow]
      exact ⟨Or.inr rfl, fun _ => ⟨rfl, rfl⟩, fun m _ h => Option.noConfusion h⟩
    | some m0 =>
      have hrow : encryptRowSpec impl (some m0) src key iv aad j d =
          execute_result impl src key j m0 iv aad d := by
        unfold encryptRowSpec
        rw [if_neg hflag]
      rw [hrow]
      unfold execute_result
      simp only []
      cases impl.execute_impl m0 src key iv aad with
      | none =>
        refine ⟨Or.inr rfl, ?_, ?_⟩
        · rintro (h | h)
          · exact absurd h hflag
          · exact Option.noConfusion h
        · intro m _ h
          rw [Option.some.inj h]
          rfl
      | some out =>
        refine ⟨Or.inl rfl, ?_, ?_⟩
        · rintro (h | h)
          · exact absurd h hflag
          · exact Option.noConfusion h
        · intro m _ h
          rw [Option.some.inj h]
          rfl

/-- The loop of the specification rows from row `k` on: the flags of the rows
outside the loop are kept, the recorded cipher calls are kept, every new call is
the call of a row of the loop that was not null and whose mode string selects
the mode of the call, every such row has its call, and every row that is null or
whose mode string selects no mode ends with its null flag set. -/
theorem encRows_spec (impl : EncryptionImpl) (res : Nat → Option EncryptionMode)
    (src key iv aad : Nat → List Nat) :
    ∀ (n k : Nat) (d : EncryptDest),
    (encRows (fun i d => encryptRowSpec impl (res i) (src i) (key i) (iv i) (aad i) i d)
        n k d).null_map.length = d.null_map.length ∧
    (∀ i, (i < k ∨ k + n ≤ i) →
      (encRows (fun i d => encryptRowSpec impl (res i) (src i) (key i) (iv i) (aad i) i d)
        n k d).null_map.getD i 0 = d.null_map.getD i 0) ∧
    (∀ c ∈ d.cipher_calls, c ∈
      (encRows (fun i d => encryptRowSpec impl (res i) (src i) (key i) (iv i) (aad i) i d)
        n k d).cipher_calls) ∧
    (∀ i m, (i, m) ∈
      (encRows (fun i d => encryptRowSpec impl (res i) (src i) (key i) (iv i) (aad i) i d)
        n k d).cipher_calls →
      (i, m) ∈ d.cipher_calls ∨
        (k ≤ i ∧ i < k + n ∧ res i = some m ∧ d.null_map.getD i 0 = 0)) ∧
    (∀ i, k ≤ i → i < k + n → i < d.null_map.length →
      (d.null_map.getD i 0 ≠ 0 ∨ res i = none) →
      (encRows (fun i d => encryptRowSpec impl (res i) (src i) (key i) (iv i) (aad i) i d)
        n k d).null_map.getD i 0 ≠ 0) ∧
    (∀ i m, k ≤ i → i < k + n → d.null_map.getD i 0 = 0 → res i = some m →
      (i, m) ∈
        (encRows (fun i d => encryptRowSpec impl (res i) (src i) (key i) (iv i) (aad i) i d)
          n k d).cipher_calls) := by
  intro n
  induction n with
  | zero =>
    intro k d
    exact ⟨rfl, fun _ _ => rfl, fun c hc => hc, fun i m h => Or.inl h,
      fun i h1 h2 => absurd h2 (by omega), fun i m h1 h2 => absurd h2 (by omega)⟩
  | succ n ih =>
    intro k d
    obtain ⟨e1, e2, e3⟩ := encryptRowSpec_effect impl (res k) (src k) (key k) (iv k)
      (aad k) k d
    obtain ⟨i1, i2, i3, i4, i5, i6⟩ := ih (k + 1)
      (encryptRowSpec impl (res k) (src k) (key k) (iv k) (aad k) k d)
    have hlen : (encryptRowSpec impl (res k) (src k) (key k) (iv k) (aad k) k
        d).null_map.length = d.null_map.length := by
      rcases e1 with h | h <;> rw [h]
      simp
    have hother : ∀ i, i ≠ k →
        (encryptRowSpec impl (res k) (src k) (key k) (iv k) (aad k) k d).null_map.getD i 0 =
          d.null_map.getD i 0 := by
      intro i hik
      rcases e1 with h | h <;> rw [h]
      exact getD_set_one_ne _ _ _ hik
    have hcalls : ∀ c ∈ d.cipher_calls, c ∈
        (encryptRowSpec impl (res k) (src k) (key k) (iv k) (aad k) k d).cipher_calls := by
      intro c hc
      by_cases hcase : d.null_map.getD k 0 ≠ 0 ∨ res k = none
      · rw [(e2 hcase).2]; exact hc
      · have hflag : d.null_map.getD k 0 = 0 := by
          by_contra h; exact hcase (Or.inl h)
        rcases Option.eq_none_or_eq_some (res k) with hr | ⟨m, hr⟩
        · exact absurd (Or.inr hr) hcase
        · rw [e3 m hflag hr]
          exact List.mem_append_left _ hc
    simp only [encRows]
    refine ⟨by rw [i1, hlen], ?_, fun c hc => i3 c (hcalls c hc), ?_, ?_, ?_⟩
    · intro i hi
      rw [i2 i (by omega), hother i (by omega)]
    · intro i m hmem
      rcases i4 i m hmem with h | ⟨h1, h2, h3, h4⟩
      · by_cases hcase : d.null_map.getD k 0 ≠ 0 ∨ res k = none
        · rw [(e2 hcase).2] at h; exact Or.inl h
        · have hflag : d.null_map.getD k 0 = 0 := by
            by_contra h0; exact hcase (Or.inl h0)
          rcases Option.eq_none_or_eq_some (res k) with hr | ⟨m0, hr⟩
          · exact absurd (Or.inr hr) hcase
          · rw [e3 m0 hflag hr] at h
            rcases List.mem_append.mp h with h | h
            · exact Or.inl h
            · simp only [List.mem_singleton, Prod.mk.injEq] at h
              right
              rw [h.1, h.2]
              exact ⟨le_refl _, by omega, hr, hflag⟩
      · right
        rw [hother i (by omega)] at h4
        exact ⟨by omega, by omega, h3, h4⟩
    · intro i hk hn hil hcase
      by_cases hik : i = k
      · subst hik
        rw [i2 i (by omega), (e2 hcase).1, getD_set_one_self _ _ hil]
        exact one_ne_zero
      · apply i5 i (by omega) (by omega) (by rw [hlen]; exact hil)
        rw [hother i hik]
        exact hcase
    · intro i m hk hn hflag hr
      by_cases hik : i = k
      · subst hik
        apply i3
        rw [e3 m hflag hr]
        exact List.mem_append_right _ (List.mem_singleton.mpr rfl)
      · apply i6 i m (by omega) (by omega) _ hr
        rw [hother i hik]
        exact hflag

theorem resolveModeSpec_case (table : List (List Nat × EncryptionMode))
    (mode : EncryptionMode) (s s1 : List Nat)
    (h : s.map asciiLower = s1.map asciiLower) :
    resolveModeSpec table mode s = resolveModeSpec table mode s1 := by
  unfold resolveModeSpec StringCaseUnorderedMap.find
  by_cases hs : s = []
  · have hs1 : s1 = [] := by
      rw [hs] at h
      exact List.map_eq_nil_iff.mp h.symm
    rw [if_pos hs, if_pos hs1]
  · have hs1 : s1 ≠ [] := by
      intro h1
      rw [h1] at h
      exact hs (List.map_eq_nil_iff.mp h)
    rw [if_neg hs, if_neg hs1, h]

/-- C36.  For every cipher and every built-in default mode `mode`:
(1) the empty mode string selects `mode`; (2) two mode strings that differ only
in the case of ASCII letters select the same mode; (3) each of the four loops,
the constant path and the per-row path of the three-argument forms, which consult
`aes_mode_map`, and of the multi-argument forms, which consult `sm4_mode_map`
under `is_sm_mode` and `aes_mode_map` otherwise, does on every row what the
specification says with the mode its mode string selects, the per-row paths for
mode columns whose offsets stay within their bytes: the same mode string selects
the same mode on both paths; (4) in such a loop, a row whose null flag is set or
whose mode string selects no mode ends with its null flag set and without a call
of the cipher, and a row that is not null and whose mode string selects a mode
has its cipher call, with that mode only; (5) examples. -/
theorem encryption_mode_resolution (impl : EncryptionImpl) (mode : EncryptionMode) :
    (∀ table, resolveModeSpec table mode [] = some mode) ∧
    (∀ table (s s1 : List Nat), s.map asciiLower = s1.map asciiLower →
      resolveModeSpec table mode s = resolveModeSpec table mode s1) ∧
    (∀ (offsets_column chars_column key_arg mode_arg : List Nat) (n : Nat) (d : EncryptDest),
      EncryptionAndDecryptTwoImpl.vector_const impl mode offsets_column chars_column key_arg
          mode_arg n d =
        encRows (fun i d =>
          encryptRowSpec impl (resolveModeSpec aes_mode_map mode mode_arg)
            (strElem offsets_column chars_column i) key_arg [] [] i d) n 0 d) ∧
    (∀ (offsets_list chars_list : List (List Nat)) (n : Nat) (d : EncryptDest),
      (∀ k, (offsets_list.getD 2 []).getD k 0 ≤ (chars_list.getD 2 []).length) →
      EncryptionAndDecryptTwoImpl.vector_vector impl mode offsets_list chars_list n d =
        encRows (fun i d =>
          encryptRowSpec impl
            (resolveModeSpec aes_mode_map mode
              (strElem (offsets_list.getD 2 []) (chars_list.getD 2 []) i))
            (strElem (offsets_list.getD 0 []) (chars_list.getD 0 []) i)
            (strElem (offsets_list.getD 1 []) (chars_list.getD 1 []) i) [] [] i d) n 0 d) ∧
    (∀ (is_sm_mode : Bool) (offsets_column chars_column key_arg iv_arg mode_arg : List Nat)
      (n : Nat) (d : EncryptDest) (aad_arg : List Nat),
      EncryptionAndDecryptMultiImpl.vector_const impl mode is_sm_mode offsets_column
          chars_column key_arg iv_arg mode_arg n d aad_arg =
        encRows (fun i d =>
          encryptRowSpec impl (resolveModeSpec (modeTable is_sm_mode) mode mode_arg)
            (strElem offsets_column chars_column i) key_arg iv_arg aad_arg i d) n 0 d) ∧
    (∀ (is_sm_mode : Bool) (arg_num : Nat) (offsets_list chars_list : List (List Nat))
      (n : Nat) (d : EncryptDest),
      (∀ k, (offsets_list.getD 3 []).getD k 0 ≤ (chars_list.getD 3 []).length) →
      EncryptionAndDecryptMultiImpl.vector_vector impl mode is_sm_mode arg_num offsets_list
          chars_list n d =
        encRows (fun i d =>
          encryptRowSpec impl
            (resolveModeSpec (modeTable is_sm_mode) mode
              (strElem (offsets_list.getD 3 []) (chars_list.getD 3 []) i))
            (strElem (offsets_list.getD 0 []) (chars_list.getD 0 []) i)
            (strElem (offsets_list.getD 1 []) (chars_list.getD 1 []) i)
            (strElem (offsets_list.getD 2 []) (chars_list.getD 2 []) i)
            (if arg_num = 5 then strElem (offsets_list.getD 4 []) (chars_list.getD 4 []) i
             else []) i d) n 0 d) ∧
    (∀ (res : Nat → Option EncryptionMode) (src key iv aad : Nat → List Nat) (n : Nat)
      (d : EncryptDest) (i : Nat), i < n → i < d.null_map.length →
      (∀ m, (i, m) ∉ d.cipher_calls) →
      ((d.null_map.getD i 0 ≠ 0 ∨ res i = none) →
        (encRows (fun i d => encryptRowSpec impl (res i) (src i) (key i) (iv i) (aad i) i d)
          n 0 d).null_map.getD i 0 ≠ 0 ∧
        ∀ m, (i, m) ∉
          (encRows (fun i d => encryptRowSpec impl (res i) (src i) (key i) (iv i) (aad i) i d)
            n 0 d).cipher_calls) ∧
      (∀ m, d.null_map.getD i 0 = 0 → res i = some m →
        ∀ m1, (i, m1) ∈
          (encRows (fun i d => encryptRowSpec impl (res i) (src i) (key i) (iv i) (aad i) i d)
            n 0 d).cipher_calls ↔ m1 = m)) ∧
    (resolveModeSpec aes_mode_map EncryptionMode.AES_128_ECB (bytesOf "aes_256_cbc") =
        some EncryptionMode.AES_256_CBC ∧
      resolveModeSpec aes_mode_map EncryptionMode.AES_128_ECB (bytesOf "AES_256_CBC") =
        some EncryptionMode.AES_256_CBC ∧
      resolveModeSpec aes_mode_map EncryptionMode.AES_128_ECB (bytesOf "AES_512_ECB") = none ∧
      resolveModeSpec sm4_mode_map EncryptionMode.SM4_128_ECB (bytesOf "Sm4_128_Ctr") =
        some EncryptionMode.SM4_128_CTR ∧
      EncryptionAndDecryptTwoImpl.vector_vector sampleCipher EncryptionMode.AES_128_ECB
          [[1, 2, 3], [1, 2, 3], [0, 11, 16]]
          [[97, 98, 99], [107, 107, 107], bytesOf "aes_128_cbcbogus"] 3
          { result_data := [], result_offset := [0, 0, 0], null_map := [0, 0, 0],
            cipher_calls := [] } =
        { result_data := [97, 98], result_offset := [1, 2, 2], null_map := [0, 0, 1],
          cipher_calls := [(0, EncryptionMode.AES_128_ECB), (1, EncryptionMode.AES_128_CBC)] } ∧
      EncryptionAndDecryptTwoImpl.vector_const sampleCipher EncryptionMode.AES_128_ECB
          [1, 2, 3] [97, 98, 99] [107] (bytesOf "bogus") 3
          { result_data := [], result_offset := [0, 0, 0], null_map := [0, 0, 0],
            cipher_calls := [] } =
        { result_data := [], result_offset := [0, 0, 0], null_map := [1, 1, 1],
          cipher_calls := [] }) := by
  refine ⟨fun table => rfl, fun table s s1 h => resolveModeSpec_case table mode s s1 h,
    two_vector_const_eq impl mode, ?_, multi_vector_const_eq impl mode, ?_, ?_,
    ⟨by decide, by decide, by decide, by decide, by decide, by decide⟩⟩
  · intro offsets_list chars_list n d hle
    exact two_vector_vector_eq impl mode offsets_list chars_list n d hle
  · intro is_sm_mode arg_num offsets_list chars_list n d hle
    exact multi_vector_vector_eq impl mode is_sm_mode arg_num offsets_list chars_list n d hle
  · intro res src key iv aad n d i hin hil hcalls
    obtain ⟨_, _, _, h4, h5, h6⟩ := encRows_spec impl res src key iv aad n 0 d
    constructor
    · intro hcase
      refine ⟨h5 i (Nat.zero_le _) (by omega) hil hcase, ?_⟩
      intro m hmem
      rcases h4 i m hmem with h | ⟨_, _, hr, hflag⟩
      · exact hcalls m h
      · rcases hcase with hc | hc
        · exact hc hflag
        · rw [hc] at hr; exact Option.noConfusion hr
    · intro m hflag hr m1
      constructor
      · intro hmem
        rcases h4 i m1 hmem with h | ⟨_, _, hr1, _⟩
        · exact absurd h (hcalls m1)
        · rw [hr] at hr1
          exact (Option.some.inj hr1).symm
      · intro h
        rw [h]
        exact h6 i m (Nat.zero_le _) (by omega) hflag hr

/-! ## Theorems: convert_tz -/

theorem insert_default_eq (d : TzDest) :
    d.insert_default =
      { result_column := d.result_column ++ [0], result_null_map := d.result_null_map } :=
  rfl

theorem set_one_of_getD_one (l : List Nat) (i : Nat) (h : l.getD i 0 = 1) :
    l.set i 1 = l := by
  induction l generalizing i with
  | nil => rfl
  | cons x xs ih =>
    cases i with
    | zero =>
      simp only [List.getD_cons_zero] at h
      simp [h]
    | succ j =>
      simp only [List.getD_cons_succ] at h
      simp [ih j h]

/-- Every flag of the null map is 0 or 1. -/
theorem flags_set_one (l : List Nat) (i : Nat) (h : ∀ f ∈ l, f = 0 ∨ f = 1) :
    ∀ f ∈ l.set i 1, f = 0 ∨ f = 1 := by
  intro f hf
  rcases List.mem_or_eq_of_mem_set hf with h1 | h1
  · exact h f h1
  · exact Or.inr h1

theorem tzRows_congr (body body1 : Nat → TzDest → TzDest)
    (P : TzDest → Prop) (hP : ∀ i d, P d → P (body i d))
    (heq : ∀ i d, P d → body i d = body1 i d) :
    ∀ (n i : Nat) (d : TzDest), P d → tzRows body n i d = tzRows body1 n i d := by
  intro n
  induction n with
  | zero => intro i d _; rfl
  | succ k ih =>
    intro i d hd
    unfold tzRows
    rw [← heq i d hd]
    exact ih (i + 1) _ (hP i d hd)

theorem length_tzRows (body : Nat → TzDest → TzDest)
    (hlen : ∀ i d, (body i d).result_column.length = d.result_column.length + 1) :
    ∀ (n i : Nat) (d : TzDest),
    (tzRows body n i d).result_column.length = d.result_column.length + n := by
  intro n
  induction n with
  | zero => intro i d; rfl
  | succ k ih =>
    intro i d
    unfold tzRows
    rw [ih, hlen]
    omega

theorem getD_eq_one_of_flags (l : List Nat) (i : Nat) (h : ∀ f ∈ l, f = 0 ∨ f = 1)
    (hne : l.getD i 0 ≠ 0) : l.getD i 0 = 1 := by
  by_cases hi : i < l.length
  · have hget : l.getD i 0 = l[i] := by
      rw [List.getD_eq_getElem?_getD, List.getElem?_eq_getElem hi]; rfl
    rw [hget] at hne ⊢
    rcases h _ (List.getElem_mem hi) with h1 | h1
    · exact absurd h1 hne
    · exact h1
  · rw [List.getD_eq_getElem?_getD, List.getElem?_eq_none (by omega)] at hne
    exact absurd rfl hne

/-- The loop that marks every row null (lines 229-231). -/
theorem tzRows_push_null : ∀ (n k : Nat) (d : TzDest),
    (tzRows (fun i d => d.push_null i) n k d).result_null_map.length =
      d.result_null_map.length ∧
    (∀ i, k ≤ i → i < k + n → i < d.result_null_map.length →
      (tzRows (fun i d => d.push_null i) n k d).result_null_map.getD i 0 = 1) ∧
    (∀ i, i < k →
      (tzRows (fun i d => d.push_null i) n k d).result_null_map.getD i 0 =
        d.result_null_map.getD i 0) ∧
    (tzRows (fun i d => d.push_null i) n k d).result_column =
      d.result_column ++ List.replicate n 0 := by
  intro n
  induction n with
  | zero => intro k d; exact ⟨rfl, fun i h1 h2 => absurd h2 (by omega), fun _ _ => rfl, by simp [tzRows]⟩
  | succ m ih =>
    intro k d
    obtain ⟨i1, i2, i3, i4⟩ := ih (k + 1) (d.push_null k)
    have hlen : (d.push_null k).result_null_map.length = d.result_null_map.length := by
      simp [TzDest.push_null, TzDest.insert_default]
    have hnm : (d.push_null k).result_null_map = d.result_null_map.set k 1 := rfl
    unfold tzRows
    refine ⟨by rw [i1, hlen], ?_, ?_, ?_⟩
    · intro i h1 h2 h3
      by_cases hik : i = k
      · subst hik
        rw [i3 i (by omega), hnm]
        simp [List.getD_eq_getElem?_getD, List.getElem?_set_self, h3]
      · exact i2 i (by omega) (by omega) (by rw [hlen]; exact h3)
    · intro i hi
      rw [i3 i (by omega), hnm]
      simp [List.getD_eq_getElem?_getD, List.getElem?_set_ne (show k ≠ i by omega)]
    · rw [i4]
      simp [TzDest.push_null, TzDest.insert_default, List.replicate_succ]

/-- C37.  For constant time zone names that are not null, a null map whose
flags are 0 or 1 (the call creates it with zeros) and the same lookup function on
both paths: (1) `execute_tz_const_with_state`, on the state that
`init_convert_tz_state` makes from the two names, returns the same result column
and the same null map as `execute_tz_const`; (2) each path appends exactly one
entry per input row; (3) if either name is not found, every row is null: its null
flag is 1 and its value is the default. -/
theorem convert_tz_state_path_equals_const {τ υ : Type} (ops : TzOps τ υ)
    (state : ConvertTzState τ) (from_tz_name to_tz_name : String) (date_column : List Int)
    (d : TzDest) (input_rows_count : Nat)
    (hflags : ∀ f ∈ d.result_null_map, f = 0 ∨ f = 1) :
    execute_tz_const_with_state ops
        (init_convert_tz_state ops state (some from_tz_name) (some to_tz_name))
        date_column d input_rows_count =
      execute_tz_const ops date_column from_tz_name to_tz_name d input_rows_count ∧
    (execute_tz_const_with_state ops
        (init_convert_tz_state ops state (some from_tz_name) (some to_tz_name))
        date_column d input_rows_count).result_column.length =
      d.result_column.length + input_rows_count ∧
    (execute_tz_const ops date_column from_tz_name to_tz_name d
        input_rows_count).result_column.length =
      d.result_column.length + input_rows_count ∧
    ((ops.find_cctz_time_zone from_tz_name = none ∨
        ops.find_cctz_time_zone to_tz_name = none) →
      (execute_tz_const ops date_column from_tz_name to_tz_name d
          input_rows_count).result_column =
        d.result_column ++ List.replicate input_rows_count 0 ∧
      ∀ i, i < input_rows_count → i < d.result_null_map.length →
        (execute_tz_const ops date_column from_tz_name to_tz_name d
          input_rows_count).result_null_map.getD i 0 = 1) := by
  have hinvalid : (ops.find_cctz_time_zone from_tz_name = none ∨
      ops.find_cctz_time_zone to_tz_name = none) →
      tzRows (fun i d => d.push_null i) input_rows_count 0 d =
        execute_tz_const ops date_column from_tz_name to_tz_name d input_rows_count := by
    intro hnone
    unfold execute_tz_const
    apply tzRows_congr _ _ (fun d => ∀ f ∈ d.result_null_map, f = 0 ∨ f = 1)
    · intro i d1 h1
      exact flags_set_one _ i h1
    · intro i d1 h1
      have hinner : execute_inner_loop ops date_column from_tz_name to_tz_name d1 i =
          d1.push_null i := by
        unfold execute_inner_loop
        rcases hnone with h | h
        · simp only [h]
          rfl
        · simp only [h]
          cases ops.find_cctz_time_zone from_tz_name <;> rfl
      by_cases hflag : d1.result_null_map.getD i 0 ≠ 0
      · rw [if_pos hflag]
        have hone := getD_eq_one_of_flags _ i h1 hflag
        simp only [TzDest.push_null, set_one_of_getD_one _ _ hone]
      · rw [if_neg hflag, hinner]
    · exact hflags
  have hmain : execute_tz_const_with_state ops
      (init_convert_tz_state ops state (some from_tz_name) (some to_tz_name))
      date_column d input_rows_count =
      execute_tz_const ops date_column from_tz_name to_tz_name d input_rows_count := by
    cases hf : ops.find_cctz_time_zone from_tz_name with
    | none =>
      rw [← hinvalid (Or.inl hf)]
      simp [execute_tz_const_with_state, init_convert_tz_state, hf]
    | some from_tz =>
      cases ht : ops.find_cctz_time_zone to_tz_name with
      | none =>
        rw [← hinvalid (Or.inr ht)]
        simp [execute_tz_const_with_state, init_convert_tz_state, hf, ht]
      | some to_tz =>
        simp only [execute_tz_const_with_state, init_convert_tz_state, hf, ht,
          execute_tz_const, execute_inner_loop, Bool.true_eq_false, if_false]
        rfl
  have hlen : (execute_tz_const ops date_column from_tz_name to_tz_name d
      input_rows_count).result_column.length = d.result_column.length + input_rows_count := by
    unfold execute_tz_const
    apply length_tzRows
    intro i d1
    simp only [execute_inner_loop]
    split
    · simp [TzDest.insert_default]
    · split
      · simp [TzDest.insert_default]
      · split
        · simp [TzDest.insert_default]
        · split
          · simp [TzDest.insert_default]
          · split
            · simp [TzDest.insert_default]
            · simp
  refine ⟨hmain, by rw [hmain]; exact hlen, hlen, ?_⟩
  intro hnone
  rw [← hinvalid hnone]
  obtain ⟨_, h2, _, h4⟩ := tzRows_push_null input_rows_count 0 d
  exact ⟨h4, fun i hi hil => h2 i (Nat.zero_le _) (by omega) hil⟩

/-- Witness of C37: `convert_tz` of the hours 5 and 20 from `UTC` to `+08:00`,
and to a zone that is not known. -/
theorem convert_tz_state_path_equals_const_witness :
    execute_tz_const_with_state sampleTzOps
        (init_convert_tz_state sampleTzOps ⟨true, false, 0, 0⟩ (some "UTC") (some "+08:00"))
        [5, 20] ⟨[], [0, 0]⟩ 2 =
      execute_tz_const sampleTzOps [5, 20] "UTC" "+08:00" ⟨[], [0, 0]⟩ 2 ∧
    execute_tz_const sampleTzOps [5, 20] "UTC" "+08:00" ⟨[], [0, 0]⟩ 2 = ⟨[13, 28], [0, 0]⟩ ∧
    execute_tz_const_with_state sampleTzOps
        (init_convert_tz_state sampleTzOps ⟨true, false, 0, 0⟩ (some "UTC") (some "Mars"))
        [5, 20] ⟨[], [0, 0]⟩ 2 = ⟨[0, 0], [1, 1]⟩ :=
  ⟨(convert_tz_state_path_equals_const sampleTzOps ⟨true, false, 0, 0⟩ "UTC" "+08:00" [5, 20]
      ⟨[], [0, 0]⟩ 2 (by decide)).1,
   by decide, by decide⟩

end Doris
